import Mathlib

/-!
# AIG algebraic depth rewriting (`aig_algebraic_rewriting.hpp`)

A shallow embedding of `mockturtle::detail::aig_algebraic_rewriting_impl`:
the fixpoint driver `run`, the dispatcher `try_algebraic_rules` and the three
rules `try_associativity`, `try_distributivity` and
`try_three_layer_distributivity`.

The header only contains the rewrite engine.  The network store
(`aig.hpp`) and the depth oracle (`depth_view.hpp`) it calls are not part of
the sources at hand; they are modelled from the specification and every such
definition says so in its doc comment.  Levels are natural numbers; the one
place where the source computes on `uint32_t` in a way that matters, the
subtraction in the three-layer rule, is rendered modulo `2^32`.
-/

namespace mockturtle

/-! ## Data model -/

/-- Modelled from the spec: the store's `signal`, a node handle and the
polarity with which the edge reads it. -/
structure signal where
  index : Nat
  complement : Bool
deriving DecidableEq, Repr

/-- Modelled from the spec: the payload of a node of the store, which is the
constant, a primary input, a two-input AND gate, or a reclaimed (dead) slot of
the arena. -/
inductive node_data where
  | constant : node_data
  | pi : node_data
  | gate (c0 c1 : signal) : node_data
  | dead : node_data
deriving DecidableEq, Repr

/-- Modelled from the spec: an arena slot, holding the payload and the two
attributes kept by the depth oracle (the node's level and its critical-path
flag). -/
structure node_entry where
  data : node_data
  level : Nat
  crit : Bool
deriving DecidableEq, Repr

/-- Calls that change the store or the oracle, and the driver's own steps.
They are recorded in the journal of the network, most recent first.  The
journal is instrumentation: no query or rule reads it. -/
inductive call where
  | create_and (a b : signal) : call
  | substitute_node (n : Nat) (s : signal) : call
  | update_levels : call
  | foreach_gate : call
  | try_algebraic_rules (n : Nat) : call
deriving DecidableEq, Repr

/-- Modelled from the spec: the network wrapped by the depth view, with the
node arena, the primary outputs, and the journal of calls made so far (most
recent first). -/
structure Ntk where
  nodes : List node_entry
  outputs : List signal
  journal : List call
deriving DecidableEq, Repr

/-- Modelled from the spec: the slot of node `n`; handles outside the arena
read as dead slots. -/
def entry (ntk : Ntk) (n : Nat) : node_entry :=
  ntk.nodes.getD n ⟨node_data.dead, 0, false⟩

/-- Modelled from the spec: `get_node`, the node a signal points to. -/
def get_node (s : signal) : Nat := s.index

/-- Modelled from the spec: `is_complemented`, the polarity of a signal. -/
def is_complemented (s : signal) : Bool := s.complement

/-- Modelled from the spec: the oracle query `level(node)`, the level
attribute of the node as of the last recomputation (or gate creation). -/
def level (ntk : Ntk) (n : Nat) : Nat := (entry ntk n).level

/-- Modelled from the spec: the oracle query `is_on_critical_path(node)`. -/
def is_on_critical_path (ntk : Ntk) (n : Nat) : Bool := (entry ntk n).crit

/-- Modelled from the spec: `foreach_fanin`, the ordered pair of fanin signals
of a gate; inputs, constants and dead slots have none. -/
def foreach_fanin (ntk : Ntk) (n : Nat) : List signal :=
  match (entry ntk n).data with
  | node_data.gate a b => [a, b]
  | _ => []

/-- Modelled from the spec: whether `n` is a live AND gate, which is what
`foreach_gate` enumerates. -/
def is_gate (ntk : Ntk) (n : Nat) : Bool :=
  match (entry ntk n).data with
  | node_data.gate _ _ => true
  | _ => false

/-- Modelled from the spec: `create_not`, the same node read with the
opposite polarity; no gate is created. -/
def create_not (s : signal) : signal := ⟨s.index, !s.complement⟩

/-- Modelled from the spec: `is_or` as answered by an AIG store, where every
gate is an AND. -/
def aig_is_or (_n : Nat) : Bool := false

/-- Modelled from the spec: the order on signals used to store fanins
canonically (by handle, then polarity). -/
def signal_le (a b : signal) : Bool :=
  decide (a.index < b.index) || (decide (a.index = b.index) && (!a.complement || b.complement))

/-- Modelled from the spec: whether a slot is a gate over the unordered pair
`a`, `b`. -/
def same_fanins (d : node_data) (a b : signal) : Bool :=
  match d with
  | node_data.gate x y => (decide (x = a) && decide (y = b)) || (decide (x = b) && decide (y = a))
  | _ => false

/-- Modelled from the spec: the structural-hash lookup, returning the handle
of the first live gate over the unordered pair `a`, `b`, counting handles from
`i`. -/
def strash_find : List node_entry → signal → signal → Nat → Option Nat
  | [], _, _, _ => none
  | e :: rest, a, b, i =>
    if same_fanins e.data a b then some i else strash_find rest a b (i + 1)

/-- Modelled from the spec: `create_and`.  The store is consulted for an
existing gate over the same unordered pair of signals; otherwise a gate with
canonically ordered fanins is appended, its level being one more than the
larger fanin level and its critical flag unset. -/
def create_and (ntk : Ntk) (a b : signal) : signal × Ntk :=
  let x := if signal_le a b then a else b
  let y := if signal_le a b then b else a
  match strash_find ntk.nodes x y 0 with
  | some j => (⟨j, false⟩, { ntk with journal := call.create_and a b :: ntk.journal })
  | none =>
    (⟨ntk.nodes.length, false⟩,
     { ntk with
       nodes := ntk.nodes ++
         [⟨node_data.gate x y, 1 + max (level ntk x.index) (level ntk y.index), false⟩],
       journal := call.create_and a b :: ntk.journal })

/-- Modelled from the spec: `create_nand`, derived from `create_and`. -/
def create_nand (ntk : Ntk) (a b : signal) : signal × Ntk :=
  let r := create_and ntk a b
  (create_not r.1, r.2)

/-- Modelled from the spec: `create_or`, derived from `create_and` by
De Morgan. -/
def create_or (ntk : Ntk) (a b : signal) : signal × Ntk :=
  let r := create_and ntk (create_not a) (create_not b)
  (create_not r.1, r.2)

/-! ## The three rules -/

/-- Unsigned 32-bit subtraction, as performed on two `uint32_t` levels. -/
def sub_u32 (a b : Nat) : Nat := (a + (4294967296 - b % 4294967296)) % 4294967296

/-- The locals of `try_associativity`: the two vectors and `nonCriticalLevel`,
which is declared without a value (`none` until the first assignment). -/
structure associativity_sets where
  critical : List signal
  noncritical : List signal
  nonCriticalLevel : Option Nat
deriving DecidableEq, Repr

/-- Body of the inner `foreach_fanin` of `try_associativity` (one grandchild). -/
def associativity_grandchild (ntk : Ntk) (st : associativity_sets) (grandchild : signal) :
    associativity_sets :=
  if is_on_critical_path ntk (get_node grandchild) then
    { st with critical := st.critical ++ [grandchild] }
  else
    { st with noncritical := st.noncritical ++ [grandchild] }

/-- Body of the outer `foreach_fanin` of `try_associativity` (one child). -/
def associativity_child (ntk : Ntk) (st : associativity_sets) (child : signal) :
    associativity_sets :=
  if is_on_critical_path ntk (get_node child) && !is_complemented child then
    (foreach_fanin ntk (get_node child)).foldl (associativity_grandchild ntk) st
  else
    { st with
      noncritical := st.noncritical ++ [child],
      nonCriticalLevel := some (level ntk (get_node child)) }

/-- The classification loop of `try_associativity`. -/
def associativity_classify (ntk : Ntk) (n : Nat) : associativity_sets :=
  (foreach_fanin ntk n).foldl (associativity_child ntk) ⟨[], [], none⟩

/-- The part of `try_associativity` before `substitute_node`: when the rule
matches, the signal `subNode` and the network in which its gates were created.
The level comparison reads `nonCriticalLevel`; a read of the unset variable is
rendered as "no match" (it cannot occur when the two sizes match, see
`associativity_classify_shape`). -/
def associativity_replacement (ntk : Ntk) (n : Nat) : Option (signal × Ntk) :=
  if is_on_critical_path ntk n && decide (level ntk n > 1) then
    match associativity_classify ntk n with
    | ⟨[c0], [n0, n1], some nonCriticalLevel⟩ =>
      if nonCriticalLevel < level ntk (get_node c0) then
        let inner := create_and ntk n0 n1
        some (create_and inner.2 c0 inner.1)
      else none
    | _ => none
  else none

/-- The locals of `try_distributivity`. -/
structure distributivity_sets where
  nonCriticalGrandChildren : List signal
  criticalGrandChildren : List signal
deriving DecidableEq, Repr

/-- Body of the inner `foreach_fanin` of `try_distributivity`. -/
def distributivity_grandchild (ntk : Ntk) (st : distributivity_sets) (grandchild : signal) :
    distributivity_sets :=
  if is_on_critical_path ntk (get_node grandchild) then
    { st with criticalGrandChildren := st.criticalGrandChildren ++ [grandchild] }
  else
    { st with nonCriticalGrandChildren := st.nonCriticalGrandChildren ++ [grandchild] }

/-- Body of the outer `foreach_fanin` of `try_distributivity`. -/
def distributivity_child (ntk : Ntk) (st : distributivity_sets) (child : signal) :
    distributivity_sets :=
  if is_on_critical_path ntk (get_node child) && is_complemented child then
    (foreach_fanin ntk (get_node child)).foldl (distributivity_grandchild ntk) st
  else st

/-- The classification loop of `try_distributivity`. -/
def distributivity_classify (ntk : Ntk) (n : Nat) : distributivity_sets :=
  (foreach_fanin ntk n).foldl (distributivity_child ntk) ⟨[], []⟩

/-- The part of `try_distributivity` before `substitute_node`; `is_or` is the
store's `is_or` query. -/
def distributivity_replacement (is_or : Nat → Bool) (ntk : Ntk) (n : Nat) :
    Option (signal × Ntk) :=
  if is_on_critical_path ntk n && decide (level ntk n > 1) then
    match distributivity_classify ntk n with
    | ⟨[p, q], [s0, s1]⟩ =>
      if s0 = s1 then
        let o := create_or ntk p q
        let subNode := create_nand o.2 s0 o.1
        some (if is_or n then create_not subNode.1 else subNode.1, subNode.2)
      else none
    | _ => none
  else none

/-- The locals of `try_three_layer_distributivity`. -/
structure three_layer_sets where
  nonCriticalChildren : List signal
  criticalChildren : List signal
  nonCriticalGrandChildren : List signal
  criticalGrandChildren : List signal
  nonCriticalGranderChildren : List signal
  criticalGranderChildren : List signal
deriving DecidableEq, Repr

/-- Innermost loop body of `try_three_layer_distributivity`. -/
def three_layer_granderchild (ntk : Ntk) (st : three_layer_sets) (granderChild : signal) :
    three_layer_sets :=
  if is_on_critical_path ntk (get_node granderChild) then
    { st with criticalGranderChildren := st.criticalGranderChildren ++ [granderChild] }
  else
    { st with nonCriticalGranderChildren := st.nonCriticalGranderChildren ++ [granderChild] }

/-- Middle loop body of `try_three_layer_distributivity`. -/
def three_layer_grandchild (ntk : Ntk) (st : three_layer_sets) (grandChild : signal) :
    three_layer_sets :=
  if is_on_critical_path ntk (get_node grandChild) && is_complemented grandChild then
    (foreach_fanin ntk (get_node grandChild)).foldl (three_layer_granderchild ntk)
      { st with criticalGrandChildren := st.criticalGrandChildren ++ [grandChild] }
  else
    { st with nonCriticalGrandChildren := st.nonCriticalGrandChildren ++ [grandChild] }

/-- Outer loop body of `try_three_layer_distributivity`. -/
def three_layer_child (ntk : Ntk) (st : three_layer_sets) (child : signal) :
    three_layer_sets :=
  if is_on_critical_path ntk (get_node child) && is_complemented child then
    (foreach_fanin ntk (get_node child)).foldl (three_layer_grandchild ntk)
      { st with criticalChildren := st.criticalChildren ++ [child] }
  else
    { st with nonCriticalChildren := st.nonCriticalChildren ++ [child] }

/-- The classification loops of `try_three_layer_distributivity`. -/
def three_layer_classify (ntk : Ntk) (n : Nat) : three_layer_sets :=
  (foreach_fanin ntk n).foldl (three_layer_child ntk) ⟨[], [], [], [], [], []⟩

/-- The part of `try_three_layer_distributivity` before `substitute_node`.
The slack test subtracts two `uint32_t` levels. -/
def three_layer_replacement (ntk : Ntk) (n : Nat) : Option (signal × Ntk) :=
  if is_on_critical_path ntk n then
    match three_layer_classify ntk n with
    | ⟨[ncc], [cc], [ncgc], [_cgc], [ncggc], [cggc]⟩ =>
      if sub_u32 (level ntk (get_node cc)) (level ntk (get_node ncc)) ≥ 2 then
        let a1 := create_and ntk ncc ncggc
        let a2 := create_and a1.2 cggc a1.1
        let node_bir := create_not a2.1
        let a3 := create_and a2.2 ncc (create_not ncgc)
        let node_iki := create_not a3.1
        some (create_nand a3.2 node_bir node_iki)
      else none
    | _ => none
  else none

/-! ## Store and oracle operations used by the driver -/

/-- Modelled from the spec: a fanin or output edge after substituting `new`
for node `old`; an edge that read `old` now reads `new`, with the polarities
composed. -/
def redirect (old : Nat) (new : signal) (s : signal) : signal :=
  if s.index = old then ⟨new.index, xor new.complement s.complement⟩ else s

/-- Modelled from the spec: overwrite the payload of slot `n`. -/
def set_data (ntk : Ntk) (n : Nat) (d : node_data) : Ntk :=
  { ntk with nodes := ntk.nodes.set n { entry ntk n with data := d } }

/-- Modelled from the spec: rewire one consumer.  If gate `idx` reads `old`,
its fanins are redirected; when a gate over the new pair already exists the
consumer is left as it is and scheduled to be substituted by that gate
(deduplication). -/
def replace_in_node (ntk : Ntk) (idx old : Nat) (new : signal) : Ntk × Option (Nat × signal) :=
  match (entry ntk idx).data with
  | node_data.gate a b =>
    if a.index = old ∨ b.index = old then
      let a1 := redirect old new a
      let b1 := redirect old new b
      let x := if signal_le a1 b1 then a1 else b1
      let y := if signal_le a1 b1 then b1 else a1
      match strash_find ntk.nodes x y 0 with
      | some j => (ntk, some (idx, ⟨j, false⟩))
      | none => (set_data ntk idx (node_data.gate x y), none)
    else (ntk, none)
  | _ => (ntk, none)

/-- Modelled from the spec: the number of live references to node `n`, fanin
edges of gates and outputs together. -/
def fanout_size (ntk : Ntk) (n : Nat) : Nat :=
  (ntk.nodes.map fun e =>
    match e.data with
    | node_data.gate a b => (if a.index = n then 1 else 0) + (if b.index = n then 1 else 0)
    | _ => 0).sum + (ntk.outputs.filter fun o => decide (o.index = n)).length

/-- Modelled from the spec: reclaim the gates of the work list, and then those
of their fanins that are left without any reference. -/
def take_out_node : Nat → Ntk → List Nat → Ntk
  | 0, ntk, _ => ntk
  | _, ntk, [] => ntk
  | fuel + 1, ntk, n :: rest =>
    match (entry ntk n).data with
    | node_data.gate a b =>
      let ntk1 := set_data ntk n node_data.dead
      let next := [a.index, b.index].filter fun c => decide (fanout_size ntk1 c = 0)
      take_out_node fuel ntk1 (next ++ rest)
    | _ => take_out_node fuel ntk rest

/-- Modelled from the spec: one round of `substitute_node` for a pending pair,
and the rounds it schedules. -/
def substitute_loop : Nat → Ntk → List (Nat × signal) → Ntk
  | 0, ntk, _ => ntk
  | _, ntk, [] => ntk
  | fuel + 1, ntk, (old, new) :: rest =>
    let r := (List.range ntk.nodes.length).foldl
      (fun (acc : Ntk × List (Nat × signal)) idx =>
        let q := replace_in_node acc.1 idx old new
        (q.1, match q.2 with
              | some p => p :: acc.2
              | none => acc.2))
      (ntk, rest)
    let ntk1 : Ntk := { r.1 with outputs := r.1.outputs.map (redirect old new) }
    let ntk2 := take_out_node (3 * ntk1.nodes.length + 2) ntk1 [old]
    substitute_loop fuel ntk2 r.2

/-- Modelled from the spec: `substitute_node`.  All consumers of the node
(gates and outputs) are rewired to the replacement signal, gates that become
duplicates of an existing gate are merged into it, and the node and the part
of its fanin cone left without references are reclaimed. -/
def substitute_node (ntk : Ntk) (old : Nat) (new : signal) : Ntk :=
  substitute_loop (ntk.nodes.length + 1)
    { ntk with journal := call.substitute_node old new :: ntk.journal } [(old, new)]

/-- Modelled from the spec: one relaxation round of the level equations. -/
def relax_levels (nodes : List node_entry) : List node_entry :=
  nodes.map fun e =>
    match e.data with
    | node_data.gate a b =>
      { e with level := 1 + max (nodes.getD a.index ⟨node_data.dead, 0, false⟩).level
                                (nodes.getD b.index ⟨node_data.dead, 0, false⟩).level }
    | _ => { e with level := 0 }

/-- Modelled from the spec: the network depth, the largest level of a primary
output. -/
def depth (ntk : Ntk) : Nat :=
  (ntk.outputs.map fun o => level ntk o.index).foldl max 0

/-- Modelled from the spec: apply `f` to every slot together with its handle,
counting from `i`. -/
def map_indexed (f : Nat → node_entry → node_entry) : List node_entry → Nat → List node_entry
  | [], _ => []
  | e :: rest, i => f i e :: map_indexed f rest (i + 1)

/-- Modelled from the spec: one round of critical-path propagation; a node
becomes critical when a critical gate reads it and sits exactly one level above
it. -/
def propagate_crit (nodes : List node_entry) : List node_entry :=
  map_indexed (fun i e =>
    { e with crit := e.crit || nodes.any fun g =>
        g.crit && match g.data with
          | node_data.gate a b =>
            (decide (a.index = i) || decide (b.index = i)) && decide (e.level + 1 = g.level)
          | _ => false }) nodes 0

/-- Modelled from the spec: `update_levels`.  Levels are recomputed from the
fanin structure (inputs and constants at level 0, a gate one above its deepest
fanin) and the critical flags from the levels: the outputs that attain the
depth, and downwards every fanin exactly one level below a critical gate. -/
def update_levels (ntk : Ntk) : Ntk :=
  let cleared := ntk.nodes.map fun e => ({ e with level := 0, crit := false } : node_entry)
  let levelled := Nat.iterate relax_levels ntk.nodes.length cleared
  let d := depth { ntk with nodes := levelled }
  let marked := map_indexed (fun i e =>
    { e with crit := (ntk.outputs.any fun o => decide (o.index = i)) && decide (e.level = d) })
    levelled 0
  { ntk with
    nodes := Nat.iterate propagate_crit ntk.nodes.length marked,
    journal := call.update_levels :: ntk.journal }

/-! ## The rules with substitution, and the driver -/

/-- The rule `try_associativity`: returns whether the network was updated,
and the network. -/
def try_associativity (ntk : Ntk) (n : Nat) : Bool × Ntk :=
  match associativity_replacement ntk n with
  | some (subNode, ntk1) => (true, substitute_node ntk1 n subNode)
  | none => (false, ntk)

/-- The rule `try_distributivity`. -/
def try_distributivity (is_or : Nat → Bool) (ntk : Ntk) (n : Nat) : Bool × Ntk :=
  match distributivity_replacement is_or ntk n with
  | some (subNode, ntk1) => (true, substitute_node ntk1 n subNode)
  | none => (false, ntk)

/-- The rule `try_three_layer_distributivity`. -/
def try_three_layer_distributivity (ntk : Ntk) (n : Nat) : Bool × Ntk :=
  match three_layer_replacement ntk n with
  | some (subNode, ntk1) => (true, substitute_node ntk1 n subNode)
  | none => (false, ntk)

/-- The dispatcher `try_algebraic_rules`: the three rules in order, stopping
at the first that updates the network. -/
def try_algebraic_rules (is_or : Nat → Bool) (ntk : Ntk) (n : Nat) : Bool × Ntk :=
  let r1 := try_associativity ntk n
  if r1.1 then (true, r1.2)
  else
    let r2 := try_distributivity is_or r1.2 n
    if r2.1 then (true, r2.2)
    else
      let r3 := try_three_layer_distributivity r2.2 n
      if r3.1 then (true, r3.2)
      else (false, r3.2)

/-- The body of `foreach_gate` in `run`, over the handles still to visit: a
handle is visited if it is a live gate at that moment; `cont` is the flag of
`run`. -/
def run_pass (is_or : Nat → Bool) : List Nat → Ntk → Bool → Ntk × Bool
  | [], ntk, cont => (ntk, cont)
  | n :: rest, ntk, cont =>
    if is_gate ntk n then
      let r := try_algebraic_rules is_or
        { ntk with journal := call.try_algebraic_rules n :: ntk.journal } n
      if r.1 then run_pass is_or rest (update_levels r.2) true
      else run_pass is_or rest r.2 cont
    else run_pass is_or rest ntk cont

/-- The driver `run`: passes over the gates present at the start of each pass
until a pass makes no update.  `none` means the fuel (a bound on the number of
passes) ran out before the loop ended. -/
def run (is_or : Nat → Bool) : Nat → Ntk → Option Ntk
  | 0, _ => none
  | fuel + 1, ntk =>
    let r := run_pass is_or (List.range ntk.nodes.length)
      { ntk with journal := call.foreach_gate :: ntk.journal } false
    if r.2 then run is_or fuel r.1 else some r.1

/-! ## Simulation, and consistency of the oracle -/

/-- Value of a signal under a valuation of the nodes. -/
def signal_value (val : Nat → Bool) (s : signal) : Bool := xor (val s.index) s.complement

/-- Whether `val` satisfies the defining equation of node `i`. -/
def node_value_ok (ntk : Ntk) (assignment val : Nat → Bool) (i : Nat) : Bool :=
  match (entry ntk i).data with
  | node_data.constant => val i == false
  | node_data.pi => val i == assignment i
  | node_data.gate a b => val i == (signal_value val a && signal_value val b)
  | node_data.dead => true

/-- The valuation `val` is the simulation of the network under the input
`assignment`: the constant is false, an input has its assigned value, and a
gate is the conjunction of its two fanin signals. -/
def simulates (ntk : Ntk) (assignment val : Nat → Bool) : Prop :=
  ∀ i, i < ntk.nodes.length → node_value_ok ntk assignment val i = true

instance (ntk : Ntk) (assignment val : Nat → Bool) : Decidable (simulates ntk assignment val) := by
  unfold simulates
  infer_instance

/-- The level equation of node `i`: a gate reads slots of the arena and sits
one level above its deeper fanin; inputs and the constant are at level 0. -/
def node_level_ok (ntk : Ntk) (i : Nat) : Bool :=
  match (entry ntk i).data with
  | node_data.gate a b =>
    decide (a.index < ntk.nodes.length) && decide (b.index < ntk.nodes.length) &&
      decide (level ntk i = 1 + max (level ntk a.index) (level ntk b.index))
  | node_data.dead => true
  | _ => decide (level ntk i = 0)

/-- Whether node `i` drives a primary output. -/
def is_output (ntk : Ntk) (i : Nat) : Bool := ntk.outputs.any fun o => decide (o.index = i)

/-- Whether gate `g` has node `i` as a fanin. -/
def reads (ntk : Ntk) (g i : Nat) : Bool :=
  match (entry ntk g).data with
  | node_data.gate a b => decide (a.index = i) || decide (b.index = i)
  | _ => false

/-- The critical-path equation of node `i`: it is flagged exactly when it lies
on a maximum-length input-to-output path, that is when it drives an output at
the network depth or a flagged gate reads it from exactly one level above. -/
def node_crit_ok (ntk : Ntk) (i : Nat) : Bool :=
  is_on_critical_path ntk i ==
    ((is_output ntk i && decide (level ntk i = depth ntk)) ||
      (List.range ntk.nodes.length).any fun g =>
        is_on_critical_path ntk g && reads ntk g i && decide (level ntk i + 1 = level ntk g))

/-- Levels and critical-path flags are consistent with the structure. -/
def consistent (ntk : Ntk) : Prop :=
  ∀ i, i < ntk.nodes.length → node_level_ok ntk i = true ∧ node_crit_ok ntk i = true

instance (ntk : Ntk) : Decidable (consistent ntk) := by
  unfold consistent
  infer_instance

/-- Whether the two fanin signals of node `i` differ (vacuous off gates). -/
def node_fanins_distinct (ntk : Ntk) (i : Nat) : Bool :=
  match (entry ntk i).data with
  | node_data.gate a b => !decide (a = b)
  | _ => true

/-- No gate has two identical fanin signals. -/
def distinct_fanins (ntk : Ntk) : Prop :=
  ∀ i, i < ntk.nodes.length → node_fanins_distinct ntk i = true

instance (ntk : Ntk) : Decidable (distinct_fanins ntk) := by
  unfold distinct_fanins
  infer_instance

/-- The level equations alone (the first half of `consistent`). -/
def levels_consistent (ntk : Ntk) : Prop :=
  ∀ i, i < ntk.nodes.length → node_level_ok ntk i = true

instance (ntk : Ntk) : Decidable (levels_consistent ntk) := by
  unfold levels_consistent
  infer_instance

/-- The network is at a fixpoint of the three rules: `try_algebraic_rules`
returns false on every gate. -/
def is_fixpoint (is_or : Nat → Bool) (ntk : Ntk) : Prop :=
  ∀ n, n < ntk.nodes.length → is_gate ntk n = true →
    (try_algebraic_rules is_or ntk n).1 = false

instance (is_or : Nat → Bool) (ntk : Ntk) : Decidable (is_fixpoint is_or ntk) := by
  unfold is_fixpoint
  infer_instance

/-- Evaluation of node `i` under an input assignment, descending at most
`fuel` gates. -/
def eval_node : Nat → Ntk → (Nat → Bool) → Nat → Bool
  | 0, _, _, _ => false
  | fuel + 1, ntk, assignment, i =>
    match (entry ntk i).data with
    | node_data.constant => false
    | node_data.pi => assignment i
    | node_data.gate a b =>
      (xor (eval_node fuel ntk assignment a.index) a.complement) &&
      (xor (eval_node fuel ntk assignment b.index) b.complement)
    | node_data.dead => false

/-- Simulation of the network under an input assignment: every node is
evaluated with as much fuel as its level asks for. -/
def simulate (ntk : Ntk) (assignment : Nat → Bool) (i : Nat) : Bool :=
  eval_node (level ntk i + 1) ntk assignment i

/-- A journal segment that consists of `create_and` calls only. -/
def only_create_and (l : List call) : Prop :=
  ∀ e, e ∈ l → ∃ a b, e = call.create_and a b

/-- The test of the first two layers of `try_three_layer_distributivity`: the
node is on the critical path and the signal is read complemented. -/
def critical_and_complemented (ntk : Ntk) (s : signal) : Bool :=
  is_on_critical_path ntk (get_node s) && is_complemented s

/-- The test of the third layer of `try_three_layer_distributivity`: the node
is on the critical path. -/
def critical_node (ntk : Ntk) (s : signal) : Bool :=
  is_on_critical_path ntk (get_node s)

/-- The network with the two fanins of gate `n` exchanged. -/
def swap_fanins (ntk : Ntk) (n : Nat) : Ntk :=
  match (entry ntk n).data with
  | node_data.gate a b => set_data ntk n (node_data.gate b a)
  | _ => ntk

/-- The test of the outer loop of `try_associativity`: the child is descended
(otherwise it takes the direct branch, which assigns `nonCriticalLevel`). -/
def associativity_descends (ntk : Ntk) (child : signal) : Bool :=
  is_on_critical_path ntk (get_node child) && !is_complemented child

/-- The pattern on which `try_associativity` fires, stated without reference to
the order of the fanins: `n` has a descended fanin `d` and a direct fanin `o`,
`d` has one critical fanin `c0` and one non-critical fanin `m`, and `o` is
below `c0`. -/
def associativity_pattern (ntk : Ntk) (n : Nat) : Prop :=
  ∃ d o c0 m : signal,
    ((entry ntk n).data = node_data.gate d o ∨ (entry ntk n).data = node_data.gate o d) ∧
    is_on_critical_path ntk d.index = true ∧ d.complement = false ∧
    ((entry ntk d.index).data = node_data.gate c0 m ∨
      (entry ntk d.index).data = node_data.gate m c0) ∧
    is_on_critical_path ntk c0.index = true ∧ is_on_critical_path ntk m.index = false ∧
    (is_on_critical_path ntk o.index && !o.complement) = false ∧
    level ntk o.index < level ntk c0.index

/-! ## The engine with its queries traced

The same engine in state-passing form over a network together with a trace of
what the engine asks of the depth oracle (`level`, `is_on_critical_path`) and
of the calls it makes (the calls of the journal), most recent first.  The
conjunctions of the source are short-circuit: the right operand is queried
only when the left one is true. -/

/-- One step of the engine as seen from the store and the oracle. -/
inductive event where
  | level (n : Nat) : event
  | is_on_critical_path (n : Nat) : event
  | store (c : call) : event
deriving DecidableEq, Repr

/-- The network and the trace of the engine so far (most recent first). -/
structure traced where
  ntk : Ntk
  trace : List event
deriving DecidableEq, Repr

/-- Modelled from the spec: the query `level(n)`, traced. -/
def traced_level (t : traced) (n : Nat) : Nat × traced :=
  (level t.ntk n, { t with trace := event.level n :: t.trace })

/-- Modelled from the spec: the query `is_on_critical_path(n)`, traced. -/
def traced_is_on_critical_path (t : traced) (n : Nat) : Bool × traced :=
  (is_on_critical_path t.ntk n, { t with trace := event.is_on_critical_path n :: t.trace })

/-- Modelled from the spec: `create_and`, traced. -/
def traced_create_and (t : traced) (a b : signal) : signal × traced :=
  ((create_and t.ntk a b).1,
   ⟨(create_and t.ntk a b).2, event.store (call.create_and a b) :: t.trace⟩)

/-- Modelled from the spec: `create_nand`, traced. -/
def traced_create_nand (t : traced) (a b : signal) : signal × traced :=
  let r := traced_create_and t a b
  (create_not r.1, r.2)

/-- Modelled from the spec: `create_or`, traced. -/
def traced_create_or (t : traced) (a b : signal) : signal × traced :=
  let r := traced_create_and t (create_not a) (create_not b)
  (create_not r.1, r.2)

/-- Modelled from the spec: `substitute_node`, traced. -/
def traced_substitute_node (t : traced) (n : Nat) (s : signal) : traced :=
  ⟨substitute_node t.ntk n s, event.store (call.substitute_node n s) :: t.trace⟩

/-- Modelled from the spec: `update_levels`, traced. -/
def traced_update_levels (t : traced) : traced :=
  ⟨update_levels t.ntk, event.store call.update_levels :: t.trace⟩

/-- Body of the inner `foreach_fanin` of `try_associativity`, traced. -/
def associativity_grandchild_traced (acc : associativity_sets × traced) (grandchild : signal) :
    associativity_sets × traced :=
  let c := traced_is_on_critical_path acc.2 (get_node grandchild)
  if c.1 then
    ({ acc.1 with critical := acc.1.critical ++ [grandchild] }, c.2)
  else
    ({ acc.1 with noncritical := acc.1.noncritical ++ [grandchild] }, c.2)

/-- Body of the outer `foreach_fanin` of `try_associativity`, traced. -/
def associativity_child_traced (acc : associativity_sets × traced) (child : signal) :
    associativity_sets × traced :=
  let c := traced_is_on_critical_path acc.2 (get_node child)
  if c.1 && !is_complemented child then
    (foreach_fanin c.2.ntk (get_node child)).foldl associativity_grandchild_traced (acc.1, c.2)
  else
    let l := traced_level c.2 (get_node child)
    ({ acc.1 with
       noncritical := acc.1.noncritical ++ [child],
       nonCriticalLevel := some l.1 }, l.2)

/-- The rule `try_associativity`, traced. -/
def try_associativity_traced (t : traced) (n : Nat) : Bool × traced :=
  let c := traced_is_on_critical_path t n
  if c.1 then
    let l := traced_level c.2 n
    if l.1 > 1 then
      let r := (foreach_fanin l.2.ntk n).foldl associativity_child_traced (⟨[], [], none⟩, l.2)
      match r.1 with
      | ⟨[c0], [n0, n1], nonCriticalLevel⟩ =>
        let lc := traced_level r.2 (get_node c0)
        match nonCriticalLevel with
        | some v =>
          if v < lc.1 then
            let inner := traced_create_and lc.2 n0 n1
            let subNode := traced_create_and inner.2 c0 inner.1
            (true, traced_substitute_node subNode.2 n subNode.1)
          else (false, lc.2)
        | none => (false, lc.2)
      | _ => (false, r.2)
    else (false, l.2)
  else (false, c.2)

/-- Body of the inner `foreach_fanin` of `try_distributivity`, traced. -/
def distributivity_grandchild_traced (acc : distributivity_sets × traced)
    (grandchild : signal) : distributivity_sets × traced :=
  let c := traced_is_on_critical_path acc.2 (get_node grandchild)
  if c.1 then
    ({ acc.1 with criticalGrandChildren := acc.1.criticalGrandChildren ++ [grandchild] }, c.2)
  else
    ({ acc.1 with nonCriticalGrandChildren := acc.1.nonCriticalGrandChildren ++ [grandchild] },
     c.2)

/-- Body of the outer `foreach_fanin` of `try_distributivity`, traced. -/
def distributivity_child_traced (acc : distributivity_sets × traced) (child : signal) :
    distributivity_sets × traced :=
  let c := traced_is_on_critical_path acc.2 (get_node child)
  if c.1 && is_complemented child then
    (foreach_fanin c.2.ntk (get_node child)).foldl distributivity_grandchild_traced (acc.1, c.2)
  else (acc.1, c.2)

/-- The rule `try_distributivity`, traced. -/
def try_distributivity_traced (is_or : Nat → Bool) (t : traced) (n : Nat) : Bool × traced :=
  let c := traced_is_on_critical_path t n
  if c.1 then
    let l := traced_level c.2 n
    if l.1 > 1 then
      let r := (foreach_fanin l.2.ntk n).foldl distributivity_child_traced (⟨[], []⟩, l.2)
      match r.1 with
      | ⟨[p, q], [s0, s1]⟩ =>
        if s0 = s1 then
          let o := traced_create_or r.2 p q
          let subNode := traced_create_nand o.2 s0 o.1
          (true, traced_substitute_node subNode.2 n
            (if is_or n then create_not subNode.1 else subNode.1))
        else (false, r.2)
      | _ => (false, r.2)
    else (false, l.2)
  else (false, c.2)

/-- Innermost loop body of `try_three_layer_distributivity`, traced. -/
def three_layer_granderchild_traced (acc : three_layer_sets × traced) (granderChild : signal) :
    three_layer_sets × traced :=
  let c := traced_is_on_critical_path acc.2 (get_node granderChild)
  if c.1 then
    ({ acc.1 with criticalGranderChildren := acc.1.criticalGranderChildren ++ [granderChild] },
     c.2)
  else
    ({ acc.1 with
       nonCriticalGranderChildren := acc.1.nonCriticalGranderChildren ++ [granderChild] }, c.2)

/-- Middle loop body of `try_three_layer_distributivity`, traced. -/
def three_layer_grandchild_traced (acc : three_layer_sets × traced) (grandChild : signal) :
    three_layer_sets × traced :=
  let c := traced_is_on_critical_path acc.2 (get_node grandChild)
  if c.1 && is_complemented grandChild then
    (foreach_fanin c.2.ntk (get_node grandChild)).foldl three_layer_granderchild_traced
      ({ acc.1 with criticalGrandChildren := acc.1.criticalGrandChildren ++ [grandChild] }, c.2)
  else
    ({ acc.1 with nonCriticalGrandChildren := acc.1.nonCriticalGrandChildren ++ [grandChild] },
     c.2)

/-- Outer loop body of `try_three_layer_distributivity`, traced. -/
def three_layer_child_traced (acc : three_layer_sets × traced) (child : signal) :
    three_layer_sets × traced :=
  let c := traced_is_on_critical_path acc.2 (get_node child)
  if c.1 && is_complemented child then
    (foreach_fanin c.2.ntk (get_node child)).foldl three_layer_grandchild_traced
      ({ acc.1 with criticalChildren := acc.1.criticalChildren ++ [child] }, c.2)
  else
    ({ acc.1 with nonCriticalChildren := acc.1.nonCriticalChildren ++ [child] }, c.2)

/-- The rule `try_three_layer_distributivity`, traced. -/
def try_three_layer_distributivity_traced (t : traced) (n : Nat) : Bool × traced :=
  let c := traced_is_on_critical_path t n
  if c.1 then
    let r := (foreach_fanin c.2.ntk n).foldl three_layer_child_traced
      (⟨[], [], [], [], [], []⟩, c.2)
    match r.1 with
    | ⟨[ncc], [cc], [ncgc], [_cgc], [ncggc], [cggc]⟩ =>
      let l1 := traced_level r.2 (get_node cc)
      let l2 := traced_level l1.2 (get_node ncc)
      if sub_u32 l1.1 l2.1 ≥ 2 then
        let a1 := traced_create_and l2.2 ncc ncggc
        let a2 := traced_create_and a1.2 cggc a1.1
        let node_bir := create_not a2.1
        let a3 := traced_create_and a2.2 ncc (create_not ncgc)
        let node_iki := create_not a3.1
        let subNode := traced_create_nand a3.2 node_bir node_iki
        (true, traced_substitute_node subNode.2 n subNode.1)
      else (false, l2.2)
    | _ => (false, r.2)
  else (false, c.2)

/-- The dispatcher `try_algebraic_rules`, traced. -/
def try_algebraic_rules_traced (is_or : Nat → Bool) (t : traced) (n : Nat) : Bool × traced :=
  let r1 := try_associativity_traced t n
  if r1.1 then (true, r1.2)
  else
    let r2 := try_distributivity_traced is_or r1.2 n
    if r2.1 then (true, r2.2)
    else
      let r3 := try_three_layer_distributivity_traced r2.2 n
      if r3.1 then (true, r3.2)
      else (false, r3.2)

/-- The body of `foreach_gate` in `run`, traced. -/
def run_pass_traced (is_or : Nat → Bool) : List Nat → traced → Bool → traced × Bool
  | [], t, cont => (t, cont)
  | n :: rest, t, cont =>
    if is_gate t.ntk n then
      let r := try_algebraic_rules_traced is_or
        ⟨{ t.ntk with journal := call.try_algebraic_rules n :: t.ntk.journal },
          event.store (call.try_algebraic_rules n) :: t.trace⟩ n
      if r.1 then run_pass_traced is_or rest (traced_update_levels r.2) true
      else run_pass_traced is_or rest r.2 cont
    else run_pass_traced is_or rest t cont

/-- The driver `run`, traced, for at most `fuel` passes: whether the loop has
ended, and the network and trace at that point (or after `fuel` passes). -/
def run_traced (is_or : Nat → Bool) : Nat → traced → Bool × traced
  | 0, t => (false, t)
  | fuel + 1, t =>
    let r := run_pass_traced is_or (List.range t.ntk.nodes.length)
      ⟨{ t.ntk with journal := call.foreach_gate :: t.ntk.journal },
        event.store call.foreach_gate :: t.trace⟩ false
    if r.2 then run_traced is_or fuel r.1 else (true, r.1)

/-- A trace segment without `substitute_node` and `update_levels`: queries and
`create_and` calls only. -/
def quiet (l : List event) : Prop :=
  ∀ e, e ∈ l → (∃ n, e = event.level n) ∨ (∃ n, e = event.is_on_critical_path n) ∨
    (∃ a b, e = event.store (call.create_and a b))

/-- Every `substitute_node` of the trace (most recent first) is directly
followed by `update_levels`. -/
def settled (l : List event) : Prop :=
  ∀ (later earlier : List event) (n : Nat) (s : signal),
    l = later ++ event.store (call.substitute_node n s) :: earlier →
    ∃ later1, later = later1 ++ [event.store call.update_levels]

/-- Whether an event is a `substitute_node` call. -/
def is_substitute : event → Bool
  | event.store (call.substitute_node _ _) => true
  | _ => false

/-- The second state is the first after queries only: the same network, and a
trace extended by a quiet segment. -/
def queries_since (t t1 : traced) : Prop :=
  t1.ntk = t.ntk ∧ ∃ mid, t1.trace = mid ++ t.trace ∧ quiet mid

/-- What a traced rule on gate `n` has to do, given what the untraced rule
returns: the same answer and network, and a trace extended by a quiet segment,
followed by one `substitute_node` of `n` exactly when the answer is true. -/
def rule_traced_ok (n : Nat) (t : traced) (untraced : Bool × Ntk) (r : Bool × traced) : Prop :=
  r.1 = untraced.1 ∧ r.2.ntk = untraced.2 ∧ ∃ mid, quiet mid ∧
    ((r.1 = false ∧ r.2.trace = mid ++ t.trace) ∨
     (r.1 = true ∧ ∃ s, r.2.trace = event.store (call.substitute_node n s) :: (mid ++ t.trace)))

/-! ## Padding the arena with dead slots

Between two runs of the same rewrites the arena differs only by reclaimed
slots.  The definitions below describe a network `b` that is network `a` with
`c` dead slots inserted at handle `p`, all handles from `p` on being moved up
by `c`. -/

/-- The handle of a node after `c` slots are inserted at handle `p`. -/
def shift (p c i : Nat) : Nat := if i < p then i else i + c

/-- A signal after the insertion. -/
def shift_signal (p c : Nat) (s : signal) : signal := ⟨shift p c s.index, s.complement⟩

/-- A payload after the insertion. -/
def shift_data (p c : Nat) : node_data → node_data
  | node_data.gate a b => node_data.gate (shift_signal p c a) (shift_signal p c b)
  | d => d

/-- A slot after the insertion. -/
def shift_entry (p c : Nat) (e : node_entry) : node_entry :=
  { e with data := shift_data p c e.data }

/-- A reclaimed slot, which is also what a handle outside the arena reads. -/
def dead_entry : node_entry := ⟨node_data.dead, 0, false⟩

/-- The arena after `c` dead slots are inserted at handle `p`. -/
def pad_nodes (p c : Nat) (l : List node_entry) : List node_entry :=
  (l.take p).map (shift_entry p c) ++ List.replicate c dead_entry ++
    (l.drop p).map (shift_entry p c)

/-- Network `b` is network `a` with `c` dead slots inserted at handle `p`
(journals are not compared). -/
def padded (p c : Nat) (a b : Ntk) : Prop :=
  p ≤ a.nodes.length ∧ b.nodes = pad_nodes p c a.nodes ∧
    b.outputs = a.outputs.map (shift_signal p c)

instance (p c : Nat) (a b : Ntk) : Decidable (padded p c a b) := by
  unfold padded; infer_instance

/-- The locals of `try_associativity` after the insertion. -/
def shift_associativity_sets (p c : Nat) (s : associativity_sets) : associativity_sets :=
  ⟨s.critical.map (shift_signal p c), s.noncritical.map (shift_signal p c), s.nonCriticalLevel⟩

/-- The locals of `try_distributivity` after the insertion. -/
def shift_distributivity_sets (p c : Nat) (s : distributivity_sets) : distributivity_sets :=
  ⟨s.nonCriticalGrandChildren.map (shift_signal p c),
    s.criticalGrandChildren.map (shift_signal p c)⟩

/-- The locals of `try_three_layer_distributivity` after the insertion. -/
def shift_three_layer_sets (p c : Nat) (s : three_layer_sets) : three_layer_sets :=
  ⟨s.nonCriticalChildren.map (shift_signal p c), s.criticalChildren.map (shift_signal p c),
    s.nonCriticalGrandChildren.map (shift_signal p c),
    s.criticalGrandChildren.map (shift_signal p c),
    s.nonCriticalGranderChildren.map (shift_signal p c),
    s.criticalGranderChildren.map (shift_signal p c)⟩

/-- Two outcomes of the part of a rule before `substitute_node` agree up to
the insertion. -/
def padded_result (p c : Nat) (ra rb : Option (signal × Ntk)) : Prop :=
  match ra, rb with
  | none, none => True
  | some x, some y => y.1 = shift_signal p c x.1 ∧ padded p c x.2 y.2
  | _, _ => False

/-- A pending substitution after the insertion. -/
def shift_pending (p c : Nat) (x : Nat × signal) : Nat × signal :=
  (shift p c x.1, shift_signal p c x.2)

/-- The body of the consumer loop of `substitute_loop`: rewire one consumer
and record a scheduled merge. -/
def rewire_step (old : Nat) (new : signal) (acc : Ntk × List (Nat × signal)) (idx : Nat) :
    Ntk × List (Nat × signal) :=
  let q := replace_in_node acc.1 idx old new
  (q.1, match q.2 with
        | some p => p :: acc.2
        | none => acc.2)

/-- The substitution of `new` for `old` schedules no merge: no consumer
becomes a duplicate of an existing gate. -/
def substitute_plain (ntk : Ntk) (old : Nat) (new : signal) : Prop :=
  ((List.range ntk.nodes.length).foldl (rewire_step old new)
    ({ ntk with journal := call.substitute_node old new :: ntk.journal }, [])).2 = []

instance (ntk : Ntk) (old : Nat) (new : signal) : Decidable (substitute_plain ntk old new) := by
  unfold substitute_plain; infer_instance

/-- The number of live gates of the arena. -/
def gate_count (nodes : List node_entry) : Nat :=
  nodes.countP fun e =>
    match e.data with
    | node_data.gate _ _ => true
    | _ => false

/-- The references that one slot holds to node `n`. -/
def references (n : Nat) (e : node_entry) : Nat :=
  match e.data with
  | node_data.gate a b => (if a.index = n then 1 else 0) + (if b.index = n then 1 else 0)
  | _ => 0

/-- The levels computed by `update_levels`: the fanin-structure levels after
as many relaxation rounds as the arena has slots. -/
def levelled_nodes (ntk : Ntk) : List node_entry :=
  Nat.iterate relax_levels ntk.nodes.length
    (ntk.nodes.map fun e => ({ e with level := 0, crit := false } : node_entry))

/-- The slots after `update_levels` has marked the outputs that attain the
depth. -/
def marked_nodes (ntk : Ntk) : List node_entry :=
  map_indexed (fun i e =>
    { e with crit := (ntk.outputs.any fun o => decide (o.index = i)) &&
        decide (e.level = depth { ntk with nodes := levelled_nodes ntk }) })
    (levelled_nodes ntk) 0

/-- The rounds of `update_levels` have reached their fixed points: one more
relaxation round changes no level and one more propagation round changes no
critical flag. -/
def update_levels_settles (ntk : Ntk) : Prop :=
  relax_levels (levelled_nodes ntk) = levelled_nodes ntk ∧
  propagate_crit (Nat.iterate propagate_crit ntk.nodes.length (marked_nodes ntk)) =
    Nat.iterate propagate_crit ntk.nodes.length (marked_nodes ntk)

instance (ntk : Ntk) : Decidable (update_levels_settles ntk) := by
  unfold update_levels_settles; infer_instance

/-- Whether the critical gate `g` makes node `i`, which is at level `lv`,
critical: it reads `i` and sits exactly one level above it. -/
def feeds (i lv : Nat) (g : node_entry) : Bool :=
  g.crit && match g.data with
    | node_data.gate a b =>
      (decide (a.index = i) || decide (b.index = i)) && decide (lv + 1 = g.level)
    | _ => false

/-- The outcome of the part of a rule before `substitute_node` leads to a
substitution without merges. -/
def replacement_plain (n : Nat) (r : Option (signal × Ntk)) : Prop :=
  match r with
  | some x => substitute_plain x.2 n x.1
  | none => True

instance (n : Nat) (r : Option (signal × Ntk)) : Decidable (replacement_plain n r) := by
  unfold replacement_plain
  cases r <;> infer_instance

/-- Whichever rule fires on gate `n`, its substitution schedules no merge. -/
def rewrite_plain (is_or : Nat → Bool) (ntk : Ntk) (n : Nat) : Prop :=
  replacement_plain n (associativity_replacement ntk n) ∧
  replacement_plain n (distributivity_replacement is_or ntk n) ∧
  replacement_plain n (three_layer_replacement ntk n)

instance (is_or : Nat → Bool) (ntk : Ntk) (n : Nat) : Decidable (rewrite_plain is_or ntk n) := by
  unfold rewrite_plain; infer_instance

/-- Along the pass over the given handles, every substitution is without
merges and every `update_levels` reaches its fixed points. -/
def pass_settles (is_or : Nat → Bool) : List Nat → Ntk → Bool
  | [], _ => true
  | n :: rest, ntk =>
    if is_gate ntk n then
      let r := try_algebraic_rules is_or
        { ntk with journal := call.try_algebraic_rules n :: ntk.journal } n
      decide (rewrite_plain is_or
        { ntk with journal := call.try_algebraic_rules n :: ntk.journal } n) &&
      (if r.1 then
        decide (update_levels_settles r.2) && pass_settles is_or rest (update_levels r.2)
      else pass_settles is_or rest r.2)
    else pass_settles is_or rest ntk

/-- The handles of the padded arena, in order: those of the arena, moved, and
inserted handles anywhere between them. -/
inductive handles_padded (p c : Nat) : List Nat → List Nat → Prop where
  | nil : handles_padded p c [] []
  | live (n : Nat) (la lb : List Nat) :
      handles_padded p c la lb → handles_padded p c (n :: la) (shift p c n :: lb)
  | gap (j : Nat) (la lb : List Nat) :
      p ≤ j → j < p + c → handles_padded p c la lb → handles_padded p c la (j :: lb)

/-! ## Concrete networks -/

/-- Associativity example: `7 = AND(4, 6)`, `6 = AND(3, 5)`, `5 = AND(1, 2)`
over the inputs `1` to `4`; the output is gate `7`. -/
def assoc_example : Ntk :=
  { nodes := [⟨node_data.constant, 0, false⟩, ⟨node_data.pi, 0, true⟩, ⟨node_data.pi, 0, true⟩,
      ⟨node_data.pi, 0, false⟩, ⟨node_data.pi, 0, false⟩,
      ⟨node_data.gate ⟨1, false⟩ ⟨2, false⟩, 1, true⟩,
      ⟨node_data.gate ⟨3, false⟩ ⟨5, false⟩, 2, true⟩,
      ⟨node_data.gate ⟨4, false⟩ ⟨6, false⟩, 3, true⟩],
    outputs := [⟨7, false⟩],
    journal := [] }

/-- The associativity example after the two `create_and` calls of the rule:
`8 = AND(3, 4)` and `9 = AND(5, 8)`. -/
def assoc_example_built : Ntk :=
  { nodes := assoc_example.nodes ++
      [⟨node_data.gate ⟨3, false⟩ ⟨4, false⟩, 1, false⟩,
       ⟨node_data.gate ⟨5, false⟩ ⟨8, false⟩, 2, false⟩],
    outputs := [⟨7, false⟩],
    journal := [call.create_and ⟨5, false⟩ ⟨8, false⟩, call.create_and ⟨4, false⟩ ⟨3, false⟩] }

/-- Input assignment for the examples: inputs `1`, `2`, `3` are true, every
other input is false. -/
def example_assignment (i : Nat) : Bool := decide (i = 1 ∨ i = 2 ∨ i = 3)

/-- Simulation of `assoc_example_built` under `example_assignment`. -/
def assoc_example_val (i : Nat) : Bool :=
  [false, true, true, true, false, true, true, false, false, false].getD i false

/-- Distributivity example: `8 = AND(!6, !7)`, `6 = AND(3, 5)`, `7 = AND(4, 5)`,
`5 = AND(1, 2)` over the inputs `1` to `4`; the output is gate `8`. -/
def distr_example : Ntk :=
  { nodes := [⟨node_data.constant, 0, false⟩, ⟨node_data.pi, 0, true⟩, ⟨node_data.pi, 0, true⟩,
      ⟨node_data.pi, 0, false⟩, ⟨node_data.pi, 0, false⟩,
      ⟨node_data.gate ⟨1, false⟩ ⟨2, false⟩, 1, true⟩,
      ⟨node_data.gate ⟨3, false⟩ ⟨5, false⟩, 2, true⟩,
      ⟨node_data.gate ⟨4, false⟩ ⟨5, false⟩, 2, true⟩,
      ⟨node_data.gate ⟨6, true⟩ ⟨7, true⟩, 3, true⟩],
    outputs := [⟨8, false⟩],
    journal := [] }

/-- The distributivity example after the gate creations of the rule:
`9 = AND(!3, !4)` and `10 = AND(5, !9)`; the replacement signal is `!10`. -/
def distr_example_built : Ntk :=
  { nodes := distr_example.nodes ++
      [⟨node_data.gate ⟨3, true⟩ ⟨4, true⟩, 1, false⟩,
       ⟨node_data.gate ⟨5, false⟩ ⟨9, true⟩, 2, false⟩],
    outputs := [⟨8, false⟩],
    journal := [call.create_and ⟨5, false⟩ ⟨9, true⟩, call.create_and ⟨3, true⟩ ⟨4, true⟩] }

/-- Simulation of `distr_example_built` under `example_assignment`. -/
def distr_example_val (i : Nat) : Bool :=
  [false, true, true, true, false, true, true, false, false, false, true].getD i false

/-- Three-layer example: `9 = AND(5, !8)`, `8 = AND(4, !7)`, `7 = AND(3, 6)`,
`6 = AND(1, 2)` over the inputs `1` to `5`; the output is gate `9`. -/
def three_layer_example : Ntk :=
  { nodes := [⟨node_data.constant, 0, false⟩, ⟨node_data.pi, 0, true⟩, ⟨node_data.pi, 0, true⟩,
      ⟨node_data.pi, 0, false⟩, ⟨node_data.pi, 0, false⟩, ⟨node_data.pi, 0, false⟩,
      ⟨node_data.gate ⟨1, false⟩ ⟨2, false⟩, 1, true⟩,
      ⟨node_data.gate ⟨3, false⟩ ⟨6, false⟩, 2, true⟩,
      ⟨node_data.gate ⟨4, false⟩ ⟨7, true⟩, 3, true⟩,
      ⟨node_data.gate ⟨5, false⟩ ⟨8, true⟩, 4, true⟩],
    outputs := [⟨9, false⟩],
    journal := [] }

/-- The three-layer example after the gate creations of the rule:
`10 = AND(3, 5)`, `11 = AND(6, 10)`, `12 = AND(!4, 5)` and `13 = AND(!11, !12)`;
the replacement signal is `!13`. -/
def three_layer_example_built : Ntk :=
  { nodes := three_layer_example.nodes ++
      [⟨node_data.gate ⟨3, false⟩ ⟨5, false⟩, 1, false⟩,
       ⟨node_data.gate ⟨6, false⟩ ⟨10, false⟩, 2, false⟩,
       ⟨node_data.gate ⟨4, true⟩ ⟨5, false⟩, 1, false⟩,
       ⟨node_data.gate ⟨11, true⟩ ⟨12, true⟩, 3, false⟩],
    outputs := [⟨9, false⟩],
    journal := [call.create_and ⟨11, true⟩ ⟨12, true⟩, call.create_and ⟨5, false⟩ ⟨4, true⟩,
      call.create_and ⟨6, false⟩ ⟨10, false⟩, call.create_and ⟨5, false⟩ ⟨3, false⟩] }

/-- Simulation of `three_layer_example_built` under `example_assignment`. -/
def three_layer_example_val (i : Nat) : Bool :=
  [false, true, true, true, false, false, true, true, false, false,
   false, false, false, true].getD i false

/-- Wrap-around example: `4 = AND(1, 2)`, `5 = AND(!3, !4)`, `6 = AND(4, !5)`,
`7 = AND(2, 6)`, `8 = AND(!6, 7)` over the inputs `1` to `3`; the output is
gate `8`.  Gate `6` (level 3) is read complemented by `8` and is critical
through gate `7` (level 4), the other fanin of `8`. -/
def wrap_example : Ntk :=
  { nodes := [⟨node_data.constant, 0, false⟩, ⟨node_data.pi, 0, true⟩, ⟨node_data.pi, 0, true⟩,
      ⟨node_data.pi, 0, false⟩,
      ⟨node_data.gate ⟨1, false⟩ ⟨2, false⟩, 1, true⟩,
      ⟨node_data.gate ⟨3, true⟩ ⟨4, true⟩, 2, true⟩,
      ⟨node_data.gate ⟨4, false⟩ ⟨5, true⟩, 3, true⟩,
      ⟨node_data.gate ⟨2, false⟩ ⟨6, false⟩, 4, true⟩,
      ⟨node_data.gate ⟨6, true⟩ ⟨7, false⟩, 5, true⟩],
    outputs := [⟨8, false⟩],
    journal := [] }

/-- Slack-two example: `7 = AND(1, 2)`, `8 = AND(3, 7)`, `9 = AND(4, !8)`,
`10 = AND(5, 6)`, `11 = AND(!9, 10)` over the inputs `1` to `6`; the output is
gate `11`.  The critical child `9` is at level 3, the other child `10` at
level 1. -/
def slack_two_example : Ntk :=
  { nodes := [⟨node_data.constant, 0, false⟩, ⟨node_data.pi, 0, true⟩, ⟨node_data.pi, 0, true⟩,
      ⟨node_data.pi, 0, false⟩, ⟨node_data.pi, 0, false⟩, ⟨node_data.pi, 0, false⟩,
      ⟨node_data.pi, 0, false⟩,
      ⟨node_data.gate ⟨1, false⟩ ⟨2, false⟩, 1, true⟩,
      ⟨node_data.gate ⟨3, false⟩ ⟨7, false⟩, 2, true⟩,
      ⟨node_data.gate ⟨4, false⟩ ⟨8, true⟩, 3, true⟩,
      ⟨node_data.gate ⟨5, false⟩ ⟨6, false⟩, 1, false⟩,
      ⟨node_data.gate ⟨9, true⟩ ⟨10, false⟩, 4, true⟩],
    outputs := [⟨11, false⟩],
    journal := [] }

/-- Critical-grandchild example: `7 = AND(1, 2)`, `8 = AND(1, 3)`,
`9 = AND(4, 8)`, `10 = AND(5, 7)`, `11 = AND(9, !10)`, `12 = AND(6, !11)` over
the inputs `1` to `6`; the output is gate `12`.  Gate `9`, the fanin of `11`
that the three-layer rule files as non-critical, is on the critical path and
read uncomplemented, one level below `11`. -/
def critical_grandchild_example : Ntk :=
  { nodes := [⟨node_data.constant, 0, false⟩, ⟨node_data.pi, 0, true⟩, ⟨node_data.pi, 0, true⟩,
      ⟨node_data.pi, 0, true⟩, ⟨node_data.pi, 0, false⟩, ⟨node_data.pi, 0, false⟩,
      ⟨node_data.pi, 0, false⟩,
      ⟨node_data.gate ⟨1, false⟩ ⟨2, false⟩, 1, true⟩,
      ⟨node_data.gate ⟨1, false⟩ ⟨3, false⟩, 1, true⟩,
      ⟨node_data.gate ⟨4, false⟩ ⟨8, false⟩, 2, true⟩,
      ⟨node_data.gate ⟨5, false⟩ ⟨7, false⟩, 2, true⟩,
      ⟨node_data.gate ⟨9, false⟩ ⟨10, true⟩, 3, true⟩,
      ⟨node_data.gate ⟨6, false⟩ ⟨11, true⟩, 4, true⟩],
    outputs := [⟨12, false⟩],
    journal := [] }

/-- Balanced example: `5 = AND(1, 2)`, `6 = AND(3, 4)`, `7 = AND(5, 6)` over
the inputs `1` to `4`; the output is gate `7`.  No rule matches on it. -/
def balanced_example : Ntk :=
  { nodes := [⟨node_data.constant, 0, false⟩, ⟨node_data.pi, 0, true⟩, ⟨node_data.pi, 0, true⟩,
      ⟨node_data.pi, 0, true⟩, ⟨node_data.pi, 0, true⟩,
      ⟨node_data.gate ⟨1, false⟩ ⟨2, false⟩, 1, true⟩,
      ⟨node_data.gate ⟨3, false⟩ ⟨4, false⟩, 1, true⟩,
      ⟨node_data.gate ⟨5, false⟩ ⟨6, false⟩, 2, true⟩],
    outputs := [⟨7, false⟩],
    journal := [] }

/-- Shallow example: `4 = AND(1, 2)` and `5 = AND(2, !3)` over the inputs `1`
to `3`; both gates are outputs, every level is at most 1. -/
def shallow_example : Ntk :=
  { nodes := [⟨node_data.constant, 0, false⟩, ⟨node_data.pi, 0, true⟩, ⟨node_data.pi, 0, true⟩,
      ⟨node_data.pi, 0, true⟩,
      ⟨node_data.gate ⟨1, false⟩ ⟨2, false⟩, 1, true⟩,
      ⟨node_data.gate ⟨2, false⟩ ⟨3, true⟩, 1, true⟩],
    outputs := [⟨4, false⟩, ⟨5, false⟩],
    journal := [] }

/-- A chain in which the gate that is rewritten is not the last gate of the
enumeration: `5 = AND(1, 2)`, `6 = AND(3, 5)`, `7 = AND(4, 6)`, `8 = AND(1, 7)`
over the inputs `1` to `4`; the output is gate `8`.  Associativity fires on
gate `7`. -/
def continue_example : Ntk :=
  { nodes := [⟨node_data.constant, 0, false⟩, ⟨node_data.pi, 0, true⟩, ⟨node_data.pi, 0, true⟩,
      ⟨node_data.pi, 0, false⟩, ⟨node_data.pi, 0, false⟩,
      ⟨node_data.gate ⟨1, false⟩ ⟨2, false⟩, 1, true⟩,
      ⟨node_data.gate ⟨3, false⟩ ⟨5, false⟩, 2, true⟩,
      ⟨node_data.gate ⟨4, false⟩ ⟨6, false⟩, 3, true⟩,
      ⟨node_data.gate ⟨1, false⟩ ⟨7, false⟩, 4, true⟩],
    outputs := [⟨8, false⟩],
    journal := [] }

/-- A network on which `run` does not come to an end.  Inputs `1` to `6`;
`7 = AND(1, 2)`, `8 = AND(3, 7)`, `9 = AND(4, !8)`, `10 = AND(!8, 9)`,
`11 = AND(4, 10)`; `12 = AND(2, 6)`, `13 = AND(!6, !12)`, `14 = AND(5, 13)`,
`15 = AND(!6, !14)`; `16 = AND(!9, 15)`.  The outputs are gates `11` and `16`,
both at level 5; every gate is on a critical path. -/
def loop_example : Ntk :=
  { nodes := [⟨node_data.constant, 0, false⟩, ⟨node_data.pi, 0, true⟩, ⟨node_data.pi, 0, true⟩,
      ⟨node_data.pi, 0, false⟩, ⟨node_data.pi, 0, false⟩, ⟨node_data.pi, 0, false⟩,
      ⟨node_data.pi, 0, true⟩,
      ⟨node_data.gate ⟨1, false⟩ ⟨2, false⟩, 1, true⟩,
      ⟨node_data.gate ⟨3, false⟩ ⟨7, false⟩, 2, true⟩,
      ⟨node_data.gate ⟨4, false⟩ ⟨8, true⟩, 3, true⟩,
      ⟨node_data.gate ⟨8, true⟩ ⟨9, false⟩, 4, true⟩,
      ⟨node_data.gate ⟨4, false⟩ ⟨10, false⟩, 5, true⟩,
      ⟨node_data.gate ⟨2, false⟩ ⟨6, false⟩, 1, true⟩,
      ⟨node_data.gate ⟨6, true⟩ ⟨12, true⟩, 2, true⟩,
      ⟨node_data.gate ⟨5, false⟩ ⟨13, false⟩, 3, true⟩,
      ⟨node_data.gate ⟨6, true⟩ ⟨14, true⟩, 4, true⟩,
      ⟨node_data.gate ⟨9, true⟩ ⟨15, false⟩, 5, true⟩],
    outputs := [⟨11, false⟩, ⟨16, false⟩],
    journal := [] }

/-- The network `loop_example` after one pass of `run`: the three-layer rule
has replaced gate `16` by `!20`, with `17 = AND(3, 15)`, `18 = AND(7, 17)`,
`19 = AND(!4, 15)` and `20 = AND(!18, !19)`; the depth is 7. -/
def loop_example_rewritten : Ntk :=
  { nodes := [⟨node_data.constant, 0, false⟩, ⟨node_data.pi, 0, false⟩, ⟨node_data.pi, 0, true⟩,
      ⟨node_data.pi, 0, false⟩, ⟨node_data.pi, 0, false⟩, ⟨node_data.pi, 0, false⟩,
      ⟨node_data.pi, 0, true⟩,
      ⟨node_data.gate ⟨1, false⟩ ⟨2, false⟩, 1, false⟩,
      ⟨node_data.gate ⟨3, false⟩ ⟨7, false⟩, 2, false⟩,
      ⟨node_data.gate ⟨4, false⟩ ⟨8, true⟩, 3, false⟩,
      ⟨node_data.gate ⟨8, true⟩ ⟨9, false⟩, 4, false⟩,
      ⟨node_data.gate ⟨4, false⟩ ⟨10, false⟩, 5, false⟩,
      ⟨node_data.gate ⟨2, false⟩ ⟨6, false⟩, 1, true⟩,
      ⟨node_data.gate ⟨6, true⟩ ⟨12, true⟩, 2, true⟩,
      ⟨node_data.gate ⟨5, false⟩ ⟨13, false⟩, 3, true⟩,
      ⟨node_data.gate ⟨6, true⟩ ⟨14, true⟩, 4, true⟩,
      ⟨node_data.dead, 0, false⟩,
      ⟨node_data.gate ⟨3, false⟩ ⟨15, false⟩, 5, true⟩,
      ⟨node_data.gate ⟨7, false⟩ ⟨17, false⟩, 6, true⟩,
      ⟨node_data.gate ⟨4, true⟩ ⟨15, false⟩, 5, false⟩,
      ⟨node_data.gate ⟨18, true⟩ ⟨19, true⟩, 7, true⟩],
    outputs := [⟨11, false⟩, ⟨20, true⟩],
    journal := [] }

/-! ## Lemmas on the store -/

theorem entry_out_of_range (ntk : Ntk) (i : Nat) (hi : ntk.nodes.length ≤ i) :
    entry ntk i = ⟨node_data.dead, 0, false⟩ := by
  unfold entry
  exact List.getD_eq_default _ _ hi

theorem gate_in_range {ntk : Ntk} {i : Nat} {a b : signal}
    (h : (entry ntk i).data = node_data.gate a b) : i < ntk.nodes.length := by
  by_contra hi
  rw [entry_out_of_range ntk i (not_lt.mp hi)] at h
  exact node_data.noConfusion h

theorem crit_in_range {ntk : Ntk} {i : Nat} (h : is_on_critical_path ntk i = true) :
    i < ntk.nodes.length := by
  by_contra hi
  unfold is_on_critical_path at h
  rw [entry_out_of_range ntk i (not_lt.mp hi)] at h
  exact Bool.noConfusion h

theorem simulates_gate {ntk : Ntk} {assignment val : Nat → Bool}
    (hv : simulates ntk assignment val) {i : Nat} {a b : signal}
    (h : (entry ntk i).data = node_data.gate a b) :
    val i = (signal_value val a && signal_value val b) := by
  have := hv i (gate_in_range h)
  unfold node_value_ok at this
  rw [h] at this
  simpa using this

theorem strash_find_spec (nodes : List node_entry) (a b : signal) (i j : Nat)
    (h : strash_find nodes a b i = some j) :
    i ≤ j ∧ same_fanins (nodes.getD (j - i) ⟨node_data.dead, 0, false⟩).data a b = true := by
  induction nodes generalizing i with
  | nil => simp [strash_find] at h
  | cons e rest ih =>
    unfold strash_find at h
    split at h
    · rename_i hs
      simp at h
      subst h
      simpa using hs
    · obtain ⟨h1, h2⟩ := ih (i + 1) h
      refine ⟨by omega, ?_⟩
      have : j - i = (j - (i + 1)) + 1 := by omega
      rw [this]
      simpa using h2

/-- The two ways `create_and` can answer: an existing gate over the same pair,
or a fresh gate in the next free slot. -/
theorem create_and_cases (ntk : Ntk) (a b : signal) :
    ∃ x y, ((x = a ∧ y = b) ∨ (x = b ∧ y = a)) ∧
      ((∃ j, same_fanins (entry ntk j).data x y = true ∧
          create_and ntk a b =
            (⟨j, false⟩, { ntk with journal := call.create_and a b :: ntk.journal })) ∨
       (create_and ntk a b =
          (⟨ntk.nodes.length, false⟩,
           { ntk with
             nodes := ntk.nodes ++
               [⟨node_data.gate x y, 1 + max (level ntk x.index) (level ntk y.index), false⟩],
             journal := call.create_and a b :: ntk.journal }))) := by
  refine ⟨if signal_le a b then a else b, if signal_le a b then b else a, ?_, ?_⟩
  · by_cases h : signal_le a b = true <;> simp [h]
  · cases hj : strash_find ntk.nodes (if signal_le a b then a else b)
        (if signal_le a b then b else a) 0 with
    | some j =>
      left
      refine ⟨j, ?_, ?_⟩
      · have := (strash_find_spec _ _ _ _ _ hj).2
        simpa [entry] using this
      · simp only [create_and, hj]
    | none =>
      right
      simp only [create_and, hj]

theorem entry_create_and_old (ntk : Ntk) (a b : signal) (i : Nat) (hi : i < ntk.nodes.length) :
    entry (create_and ntk a b).2 i = entry ntk i := by
  obtain ⟨x, y, -, h | h⟩ := create_and_cases ntk a b
  · obtain ⟨j, -, h⟩ := h
    rw [h]; rfl
  · rw [h]
    unfold entry
    exact List.getD_append _ _ _ _ hi

theorem length_create_and_le (ntk : Ntk) (a b : signal) :
    ntk.nodes.length ≤ (create_and ntk a b).2.nodes.length := by
  obtain ⟨x, y, -, h | h⟩ := create_and_cases ntk a b
  · obtain ⟨j, -, h⟩ := h
    rw [h]
  · rw [h]
    simp

theorem simulates_create_and {ntk : Ntk} {a b : signal} {assignment val : Nat → Bool}
    (hv : simulates (create_and ntk a b).2 assignment val) : simulates ntk assignment val := by
  intro i hi
  have := hv i (lt_of_lt_of_le hi (length_create_and_le ntk a b))
  unfold node_value_ok at this ⊢
  rwa [entry_create_and_old ntk a b i hi] at this

theorem same_fanins_gate (d : node_data) (x y : signal) (h : same_fanins d x y = true) :
    d = node_data.gate x y ∨ d = node_data.gate y x := by
  cases d with
  | gate p q =>
    simp [same_fanins] at h
    rcases h with ⟨h1, h2⟩ | ⟨h1, h2⟩
    · subst h1; subst h2; left; rfl
    · subst h1; subst h2; right; rfl
  | _ => simp [same_fanins] at h

/-- The signal returned by `create_and` is the conjunction of its operands. -/
theorem create_and_value {ntk : Ntk} {a b : signal} {assignment val : Nat → Bool}
    (hv : simulates (create_and ntk a b).2 assignment val) :
    signal_value val (create_and ntk a b).1 = (signal_value val a && signal_value val b) := by
  obtain ⟨x, y, hxy, h | h⟩ := create_and_cases ntk a b
  · obtain ⟨j, hs, h⟩ := h
    have hv0 := simulates_create_and hv
    rw [h]
    simp only [signal_value, Bool.xor_false]
    rcases same_fanins_gate _ _ _ hs with hd | hd <;>
      rw [simulates_gate hv0 hd] <;>
      rcases hxy with ⟨rfl, rfl⟩ | ⟨rfl, rfl⟩ <;>
      simp [signal_value, Bool.and_comm]
  · have hg : (entry (create_and ntk a b).2 ntk.nodes.length).data = node_data.gate x y := by
      rw [h]
      simp [entry]
    have := simulates_gate hv hg
    rw [h]
    simp only [signal_value, Bool.xor_false] at this ⊢
    rw [this]
    rcases hxy with ⟨rfl, rfl⟩ | ⟨rfl, rfl⟩ <;> simp [Bool.and_comm]

/-! ## Shape of a successful match -/

/-- When the associativity classification ends with one critical and two
non-critical signals, exactly one fanin `d` of `n` was descended and the other
fanin `o` took the direct branch. -/
theorem associativity_classify_shape (ntk : Ntk) (n : Nat) (c0 n0 n1 : signal) (l : Option Nat)
    (h : associativity_classify ntk n = ⟨[c0], [n0, n1], l⟩) :
    ∃ d o m,
      ((entry ntk n).data = node_data.gate d o ∨ (entry ntk n).data = node_data.gate o d) ∧
      is_on_critical_path ntk d.index = true ∧ d.complement = false ∧
      ((entry ntk d.index).data = node_data.gate c0 m ∨
        (entry ntk d.index).data = node_data.gate m c0) ∧
      is_on_critical_path ntk c0.index = true ∧ is_on_critical_path ntk m.index = false ∧
      (is_on_critical_path ntk o.index && !o.complement) = false ∧
      l = some (level ntk o.index) ∧
      ((n0 = m ∧ n1 = o) ∨ (n0 = o ∧ n1 = m)) := by
  unfold associativity_classify foreach_fanin at h
  cases hn : (entry ntk n).data with
  | gate a b =>
    simp only [hn, List.foldl, associativity_child, get_node, is_complemented, foreach_fanin] at h
    by_cases ha : (is_on_critical_path ntk a.index && !a.complement) = true <;>
    by_cases hb : (is_on_critical_path ntk b.index && !b.complement) = true <;>
    simp only [ha, hb, if_true, if_false] at h
    · cases hda : (entry ntk a.index).data <;> cases hdb : (entry ntk b.index).data <;>
        simp only [hda, hdb, List.foldl, associativity_grandchild, get_node] at h <;>
        (try split_ifs at h) <;> simp at h
    · cases hda : (entry ntk a.index).data with
      | gate g k =>
        simp only [hda, List.foldl, associativity_grandchild, get_node] at h
        simp only [Bool.and_eq_true, Bool.not_eq_true'] at ha
        by_cases hg : is_on_critical_path ntk g.index = true <;>
        by_cases hk : is_on_critical_path ntk k.index = true <;>
        simp [hg, hk] at h
        · obtain ⟨rfl, ⟨rfl, rfl⟩, rfl⟩ := h
          exact ⟨a, b, _, Or.inl rfl, ha.1, ha.2, Or.inl hda, hg, by simpa using hk,
            by simpa using hb, rfl, Or.inl ⟨rfl, rfl⟩⟩
        · obtain ⟨rfl, ⟨rfl, rfl⟩, rfl⟩ := h
          exact ⟨a, b, _, Or.inl rfl, ha.1, ha.2, Or.inr hda, hk, by simpa using hg,
            by simpa using hb, rfl, Or.inl ⟨rfl, rfl⟩⟩
      | _ => simp [hda, associativity_grandchild] at h
    · cases hdb : (entry ntk b.index).data with
      | gate g k =>
        simp only [hdb, List.foldl, associativity_grandchild, get_node] at h
        simp only [Bool.and_eq_true, Bool.not_eq_true'] at hb
        by_cases hg : is_on_critical_path ntk g.index = true <;>
        by_cases hk : is_on_critical_path ntk k.index = true <;>
        simp [hg, hk] at h
        · obtain ⟨rfl, ⟨rfl, rfl⟩, rfl⟩ := h
          exact ⟨b, a, _, Or.inr rfl, hb.1, hb.2, Or.inl hdb, hg, by simpa using hk,
            by simpa using ha, rfl, Or.inr ⟨rfl, rfl⟩⟩
        · obtain ⟨rfl, ⟨rfl, rfl⟩, rfl⟩ := h
          exact ⟨b, a, _, Or.inr rfl, hb.1, hb.2, Or.inr hdb, hk, by simpa using hg,
            by simpa using ha, rfl, Or.inr ⟨rfl, rfl⟩⟩
      | _ => simp [hdb, associativity_grandchild] at h
    · simp at h
  | _ => simp [hn] at h

/-- What `associativity_replacement` returns when it matches. -/
theorem associativity_replacement_some (ntk : Ntk) (n : Nat) (r : signal × Ntk)
    (h : associativity_replacement ntk n = some r) :
    ∃ c0 n0 n1 l,
      is_on_critical_path ntk n = true ∧ 1 < level ntk n ∧
      associativity_classify ntk n = ⟨[c0], [n0, n1], some l⟩ ∧
      l < level ntk c0.index ∧
      r = create_and (create_and ntk n0 n1).2 c0 (create_and ntk n0 n1).1 := by
  unfold associativity_replacement at h
  split at h
  · rename_i hc
    split at h
    · rename_i c0 n0 n1 l heq
      split at h
      · rename_i hl
        simp only [Option.some.injEq] at h
        simp only [Bool.and_eq_true, decide_eq_true_eq] at hc
        exact ⟨c0, n0, n1, l, hc.1, hc.2, heq, hl, h.symm⟩
      · simp at h
    · simp at h
  · simp at h

/-- When the distributivity classification ends with two critical and two
non-critical grandchildren, both fanins of `n` were descended. -/
theorem distributivity_classify_shape (ntk : Ntk) (n : Nat) (p q s0 s1 : signal)
    (h : distributivity_classify ntk n = ⟨[p, q], [s0, s1]⟩) :
    ∃ a b, (entry ntk n).data = node_data.gate a b ∧
      is_on_critical_path ntk a.index = true ∧ a.complement = true ∧
      is_on_critical_path ntk b.index = true ∧ b.complement = true ∧
      is_on_critical_path ntk s0.index = true ∧ is_on_critical_path ntk s1.index = true ∧
      is_on_critical_path ntk p.index = false ∧ is_on_critical_path ntk q.index = false ∧
      ((((entry ntk a.index).data = node_data.gate s0 p ∨
          (entry ntk a.index).data = node_data.gate p s0) ∧
        ((entry ntk b.index).data = node_data.gate s1 q ∨
          (entry ntk b.index).data = node_data.gate q s1)) ∨
       ((entry ntk a.index).data = node_data.gate s0 s1 ∧
        (entry ntk b.index).data = node_data.gate p q) ∨
       ((entry ntk a.index).data = node_data.gate p q ∧
        (entry ntk b.index).data = node_data.gate s0 s1)) := by
  unfold distributivity_classify foreach_fanin at h
  cases hn : (entry ntk n).data with
  | gate a b =>
    simp only [hn, List.foldl, distributivity_child, get_node, is_complemented, foreach_fanin] at h
    by_cases ha : (is_on_critical_path ntk a.index && a.complement) = true <;>
    by_cases hb : (is_on_critical_path ntk b.index && b.complement) = true <;>
    simp only [ha, hb, if_true, if_false, Bool.false_eq_true] at h
    · simp only [Bool.and_eq_true] at ha hb
      cases hda : (entry ntk a.index).data with
      | gate g k =>
        cases hdb : (entry ntk b.index).data with
        | gate u v =>
          simp only [hda, hdb, List.foldl, distributivity_grandchild, get_node] at h
          by_cases hg : is_on_critical_path ntk g.index = true <;>
          by_cases hk : is_on_critical_path ntk k.index = true <;>
          by_cases hu : is_on_critical_path ntk u.index = true <;>
          by_cases hv : is_on_critical_path ntk v.index = true <;>
          simp [hg, hk, hu, hv] at h <;>
          obtain ⟨⟨rfl, rfl⟩, rfl, rfl⟩ := h <;>
          refine ⟨a, b, rfl, ha.1, ha.2, hb.1, hb.2, ?_⟩ <;>
          simp_all
        | _ =>
          simp only [hda, hdb, List.foldl, distributivity_grandchild, get_node] at h
          split_ifs at h <;> simp at h
      | _ =>
        cases hdb : (entry ntk b.index).data <;>
          simp only [hda, hdb, List.foldl, distributivity_grandchild, get_node] at h <;>
          (try split_ifs at h) <;> simp at h
    · cases hda : (entry ntk a.index).data <;>
        simp only [hda, List.foldl, distributivity_grandchild, get_node] at h <;>
        (try split_ifs at h) <;> simp at h
    · cases hdb : (entry ntk b.index).data <;>
        simp only [hdb, List.foldl, distributivity_grandchild, get_node] at h <;>
        (try split_ifs at h) <;> simp at h
    · simp at h
  | _ => simp [hn] at h


/-- What `distributivity_replacement` returns when it matches. -/
theorem distributivity_replacement_some (is_or : Nat → Bool) (ntk : Ntk) (n : Nat)
    (r : signal × Ntk) (h : distributivity_replacement is_or ntk n = some r) :
    ∃ p q s,
      is_on_critical_path ntk n = true ∧ 1 < level ntk n ∧
      distributivity_classify ntk n = ⟨[p, q], [s, s]⟩ ∧
      r = (if is_or n then create_not (create_nand (create_or ntk p q).2 s (create_or ntk p q).1).1
           else (create_nand (create_or ntk p q).2 s (create_or ntk p q).1).1,
           (create_nand (create_or ntk p q).2 s (create_or ntk p q).1).2) := by
  unfold distributivity_replacement at h
  split at h
  · rename_i hc
    split at h
    · rename_i p q s0 s1 heq
      split at h
      · rename_i hs
        subst hs
        simp only [Option.some.injEq] at h
        simp only [Bool.and_eq_true, decide_eq_true_eq] at hc
        exact ⟨p, q, s0, hc.1, hc.2, heq, h.symm⟩
      · simp at h
    · simp at h
  · simp at h

theorem three_layer_grander_fold (ntk : Ntk) (st : three_layer_sets) (x : Nat) :
    (foreach_fanin ntk x).foldl (three_layer_granderchild ntk) st =
      { st with
        nonCriticalGranderChildren := st.nonCriticalGranderChildren ++
          (foreach_fanin ntk x).filter fun s => !is_on_critical_path ntk s.index,
        criticalGranderChildren := st.criticalGranderChildren ++
          (foreach_fanin ntk x).filter fun s => is_on_critical_path ntk s.index } := by
  unfold foreach_fanin
  cases (entry ntk x).data with
  | gate u v =>
    simp only [List.foldl, three_layer_granderchild, get_node]
    by_cases hu : is_on_critical_path ntk u.index = true <;>
    by_cases hv : is_on_critical_path ntk v.index = true <;>
    simp [hu, hv, List.filter]
  | _ => simp

/-- When the three-layer classification ends with six singletons, each of the
three layers splits into one critical-and-complemented fanin (at the last
layer: one critical fanin) and one other fanin. -/
theorem three_layer_classify_shape (ntk : Ntk) (n : Nat) (ncc cc ncgc cgc ncggc cggc : signal)
    (h : three_layer_classify ntk n = ⟨[ncc], [cc], [ncgc], [cgc], [ncggc], [cggc]⟩) :
    ((entry ntk n).data = node_data.gate cc ncc ∨ (entry ntk n).data = node_data.gate ncc cc) ∧
    is_on_critical_path ntk cc.index = true ∧ cc.complement = true ∧
    (is_on_critical_path ntk ncc.index && ncc.complement) = false ∧
    ((entry ntk cc.index).data = node_data.gate cgc ncgc ∨
      (entry ntk cc.index).data = node_data.gate ncgc cgc) ∧
    is_on_critical_path ntk cgc.index = true ∧ cgc.complement = true ∧
    (is_on_critical_path ntk ncgc.index && ncgc.complement) = false ∧
    ((entry ntk cgc.index).data = node_data.gate cggc ncggc ∨
      (entry ntk cgc.index).data = node_data.gate ncggc cggc) ∧
    is_on_critical_path ntk cggc.index = true ∧
    is_on_critical_path ntk ncggc.index = false := by
  have inner : ∀ (g : signal) (x y : signal),
      ((foreach_fanin ntk g.index).filter fun s => !is_on_critical_path ntk s.index) = [x] →
      ((foreach_fanin ntk g.index).filter fun s => is_on_critical_path ntk s.index) = [y] →
      ((entry ntk g.index).data = node_data.gate y x ∨
        (entry ntk g.index).data = node_data.gate x y) ∧
      is_on_critical_path ntk y.index = true ∧ is_on_critical_path ntk x.index = false := by
    intro g x y h1 h2
    unfold foreach_fanin at h1 h2
    cases hd : (entry ntk g.index).data with
    | gate u v =>
      simp only [hd] at h1 h2
      by_cases hu : is_on_critical_path ntk u.index = true <;>
      by_cases hv : is_on_critical_path ntk v.index = true <;>
      simp [hu, hv, List.filter] at h1 h2
      · subst h1; subst h2
        exact ⟨Or.inl rfl, hu, by simpa using hv⟩
      · subst h1; subst h2
        exact ⟨Or.inr rfl, hv, by simpa using hu⟩
    | _ => simp [hd] at h1
  have middle : ∀ (c : signal) (st : three_layer_sets),
      st.nonCriticalGrandChildren = [] → st.criticalGrandChildren = [] →
      st.nonCriticalGranderChildren = [] → st.criticalGranderChildren = [] →
      ∀ r, (foreach_fanin ntk c.index).foldl (three_layer_grandchild ntk) st = r →
      r.nonCriticalChildren = st.nonCriticalChildren ∧
      r.criticalChildren = st.criticalChildren ∧
      (r.nonCriticalGrandChildren = [ncgc] → r.criticalGrandChildren = [cgc] →
        r.nonCriticalGranderChildren = [ncggc] → r.criticalGranderChildren = [cggc] →
        ((entry ntk c.index).data = node_data.gate cgc ncgc ∨
          (entry ntk c.index).data = node_data.gate ncgc cgc) ∧
        is_on_critical_path ntk cgc.index = true ∧ cgc.complement = true ∧
        (is_on_critical_path ntk ncgc.index && ncgc.complement) = false ∧
        ((entry ntk cgc.index).data = node_data.gate cggc ncggc ∨
          (entry ntk cgc.index).data = node_data.gate ncggc cggc) ∧
        is_on_critical_path ntk cggc.index = true ∧
        is_on_critical_path ntk ncggc.index = false) := by
    intro c st e1 e2 e3 e4 r hr
    subst hr
    unfold foreach_fanin
    cases hd : (entry ntk c.index).data with
    | gate g k =>
      simp only [List.foldl, three_layer_grandchild, get_node, is_complemented,
        three_layer_grander_fold]
      by_cases hg : (is_on_critical_path ntk g.index && g.complement) = true <;>
      by_cases hk : (is_on_critical_path ntk k.index && k.complement) = true <;>
      simp only [hg, hk, if_true, if_false, Bool.false_eq_true, e1, e2, e3, e4,
        List.nil_append, true_and]
      · intro _ h2
        simp at h2
      · intro h1 h2 h3 h4
        simp only [List.cons.injEq, and_true] at h1 h2
        subst h1; subst h2
        simp only [Bool.and_eq_true] at hg
        obtain ⟨i1, i2, i3⟩ := inner _ _ _ h3 h4
        exact ⟨Or.inl rfl, hg.1, hg.2, by simpa using hk, i1, i2, i3⟩
      · intro h1 h2 h3 h4
        simp only [List.cons.injEq, and_true] at h1 h2
        subst h1; subst h2
        simp only [Bool.and_eq_true] at hk
        obtain ⟨i1, i2, i3⟩ := inner _ _ _ h3 h4
        exact ⟨Or.inr rfl, hk.1, hk.2, by simpa using hg, i1, i2, i3⟩
      · intro h1
        simp at h1
    | _ =>
      simp only [List.foldl, true_and]
      intro h1
      rw [e1] at h1
      simp at h1
  have frame : ∀ (c : signal) (st : three_layer_sets),
      ((foreach_fanin ntk c.index).foldl (three_layer_grandchild ntk) st).nonCriticalChildren =
        st.nonCriticalChildren ∧
      ((foreach_fanin ntk c.index).foldl (three_layer_grandchild ntk) st).criticalChildren =
        st.criticalChildren := by
    intro c st
    unfold foreach_fanin
    cases (entry ntk c.index).data with
    | gate g k =>
      simp only [List.foldl, three_layer_grandchild, get_node, is_complemented,
        three_layer_grander_fold]
      by_cases hg : (is_on_critical_path ntk g.index && g.complement) = true <;>
      by_cases hk : (is_on_critical_path ntk k.index && k.complement) = true <;>
      simp [hg, hk]
    | _ => simp
  unfold three_layer_classify at h
  have hfan : foreach_fanin ntk n = match (entry ntk n).data with
      | node_data.gate a b => [a, b]
      | _ => [] := rfl
  cases hn : (entry ntk n).data with
  | gate a b =>
    rw [hfan, hn] at h
    simp only [List.foldl, three_layer_child, get_node, is_complemented] at h
    by_cases ha : (is_on_critical_path ntk a.index && a.complement) = true <;>
    by_cases hb : (is_on_critical_path ntk b.index && b.complement) = true <;>
    simp only [ha, hb, if_true, if_false, Bool.false_eq_true, List.nil_append] at h
    · exfalso
      have h2 := congrArg three_layer_sets.criticalChildren h
      rw [(frame b _).2] at h2
      simp only at h2
      rw [(frame a _).2] at h2
      simp at h2
    · have f := frame a ⟨[], [a], [], [], [], []⟩
      have m := middle a ⟨[], [a], [], [], [], []⟩ rfl rfl rfl rfl _ rfl
      have h1 := congrArg three_layer_sets.nonCriticalChildren h
      have h2 := congrArg three_layer_sets.criticalChildren h
      have h3 := congrArg three_layer_sets.nonCriticalGrandChildren h
      have h4 := congrArg three_layer_sets.criticalGrandChildren h
      have h5 := congrArg three_layer_sets.nonCriticalGranderChildren h
      have h6 := congrArg three_layer_sets.criticalGranderChildren h
      simp only at h1 h2 h3 h4 h5 h6
      rw [f.1] at h1
      rw [f.2] at h2
      simp only [List.nil_append, List.cons.injEq, and_true] at h1 h2
      subst h1; subst h2
      simp only [Bool.and_eq_true] at ha
      exact ⟨Or.inl rfl, ha.1, ha.2, by simpa using hb, m.2.2 h3 h4 h5 h6⟩
    · have f := frame b ⟨[a], [b], [], [], [], []⟩
      have m := middle b ⟨[a], [b], [], [], [], []⟩ rfl rfl rfl rfl _ rfl
      have h1 := congrArg three_layer_sets.nonCriticalChildren h
      have h2 := congrArg three_layer_sets.criticalChildren h
      have h3 := congrArg three_layer_sets.nonCriticalGrandChildren h
      have h4 := congrArg three_layer_sets.criticalGrandChildren h
      have h5 := congrArg three_layer_sets.nonCriticalGranderChildren h
      have h6 := congrArg three_layer_sets.criticalGranderChildren h
      simp only at h1 h2 h3 h4 h5 h6
      rw [f.1] at h1
      rw [f.2] at h2
      simp only [List.cons.injEq, and_true] at h1 h2
      subst h1; subst h2
      simp only [Bool.and_eq_true] at hb
      exact ⟨Or.inr rfl, hb.1, hb.2, by simpa using ha, m.2.2 h3 h4 h5 h6⟩
    · simp at h
  | _ =>
    rw [hfan, hn] at h
    simp at h

/-- What `three_layer_replacement` returns when it matches. -/
theorem three_layer_replacement_some (ntk : Ntk) (n : Nat) (r : signal × Ntk)
    (h : three_layer_replacement ntk n = some r) :
    ∃ ncc cc ncgc cgc ncggc cggc,
      is_on_critical_path ntk n = true ∧
      three_layer_classify ntk n = ⟨[ncc], [cc], [ncgc], [cgc], [ncggc], [cggc]⟩ ∧
      2 ≤ sub_u32 (level ntk cc.index) (level ntk ncc.index) ∧
      r = create_nand
        (create_and (create_and (create_and ntk ncc ncggc).2 cggc (create_and ntk ncc ncggc).1).2
          ncc (create_not ncgc)).2
        (create_not (create_and (create_and ntk ncc ncggc).2 cggc (create_and ntk ncc ncggc).1).1)
        (create_not
          (create_and
            (create_and (create_and ntk ncc ncggc).2 cggc (create_and ntk ncc ncggc).1).2
            ncc (create_not ncgc)).1) := by
  unfold three_layer_replacement at h
  split at h
  · rename_i hc
    split at h
    · rename_i ncc cc ncgc cgc ncggc cggc heq
      split at h
      · rename_i hl
        simp only [Option.some.injEq] at h
        exact ⟨ncc, cc, ncgc, cgc, ncggc, cggc, hc, heq, hl, h.symm⟩
      · simp at h
    · simp at h
  · simp at h

theorem try_associativity_fires (ntk : Ntk) (n : Nat) (h : (try_associativity ntk n).1 = true) :
    ∃ r, associativity_replacement ntk n = some r := by
  unfold try_associativity at h
  cases hr : associativity_replacement ntk n with
  | some r => exact ⟨r, rfl⟩
  | none => simp [hr] at h

/-! ## Function preservation -/

theorem associativity_value (ntk : Ntk) (n : Nat) (subNode : signal) (ntk1 : Ntk)
    (assignment val : Nat → Bool)
    (hsub : associativity_replacement ntk n = some (subNode, ntk1))
    (hval : simulates ntk1 assignment val) :
    signal_value val subNode = val n := by
  obtain ⟨c0, n0, n1, l, -, -, hcl, -, hr⟩ := associativity_replacement_some ntk n _ hsub
  obtain ⟨d, o, m, hn, -, hdc, hd, -, -, -, -, hn01⟩ :=
    associativity_classify_shape ntk n c0 n0 n1 _ hcl
  have h1 : subNode = (create_and (create_and ntk n0 n1).2 c0 (create_and ntk n0 n1).1).1 := by
    rw [← hr]
  have h2 : ntk1 = (create_and (create_and ntk n0 n1).2 c0 (create_and ntk n0 n1).1).2 := by
    rw [← hr]
  rw [h2] at hval
  have hv1 := simulates_create_and hval
  have hv0 := simulates_create_and hv1
  rw [h1, create_and_value hval, create_and_value hv1]
  have hdv : signal_value val d = (signal_value val c0 && signal_value val m) := by
    have : signal_value val d = val d.index := by simp [signal_value, hdc]
    rw [this]
    rcases hd with hd | hd
    · exact simulates_gate hv0 hd
    · rw [simulates_gate hv0 hd, Bool.and_comm]
  have hnv : val n = (signal_value val d && signal_value val o) := by
    rcases hn with hn | hn
    · exact simulates_gate hv0 hn
    · rw [simulates_gate hv0 hn, Bool.and_comm]
  rw [hnv, hdv]
  rcases hn01 with ⟨rfl, rfl⟩ | ⟨rfl, rfl⟩
  · rw [Bool.and_assoc]
  · rw [Bool.and_assoc, Bool.and_comm (signal_value val n0)]

theorem try_distributivity_fires (is_or : Nat → Bool) (ntk : Ntk) (n : Nat)
    (h : (try_distributivity is_or ntk n).1 = true) :
    ∃ r, distributivity_replacement is_or ntk n = some r := by
  unfold try_distributivity at h
  cases hr : distributivity_replacement is_or ntk n with
  | some r => exact ⟨r, rfl⟩
  | none => simp [hr] at h

theorem signal_value_create_not (val : Nat → Bool) (s : signal) :
    signal_value val (create_not s) = !signal_value val s := by
  cases h1 : val s.index <;> cases h2 : s.complement <;> simp [signal_value, create_not, h1, h2]

theorem distinct_fanins_gate {ntk : Ntk} (hd : distinct_fanins ntk) {i : Nat} {a b : signal}
    (h : (entry ntk i).data = node_data.gate a b) : a ≠ b := by
  have := hd i (gate_in_range h)
  unfold node_fanins_distinct at this
  rw [h] at this
  simpa using this

theorem distributivity_value (is_or : Nat → Bool) (ntk : Ntk) (n : Nat) (subNode : signal)
    (ntk1 : Ntk) (assignment val : Nat → Bool)
    (haig : is_or n = false) (hdist : distinct_fanins ntk)
    (hsub : distributivity_replacement is_or ntk n = some (subNode, ntk1))
    (hval : simulates ntk1 assignment val) :
    signal_value val subNode = val n := by
  obtain ⟨p, q, s, -, -, hcl, hr⟩ := distributivity_replacement_some is_or ntk n _ hsub
  obtain ⟨a, b, hn, -, hac, -, hbc, -, -, -, -, hshape⟩ :=
    distributivity_classify_shape ntk n p q s s hcl
  simp only [haig, Bool.false_eq_true, if_false, Prod.mk.injEq] at hr
  obtain ⟨h1, h2⟩ := hr
  subst h1
  subst h2
  unfold create_nand create_or at hval ⊢
  simp only at hval ⊢
  have hv1 := simulates_create_and hval
  have hv0 := simulates_create_and hv1
  rw [signal_value_create_not, create_and_value hval, signal_value_create_not,
    create_and_value hv1, signal_value_create_not, signal_value_create_not]
  have hnv := simulates_gate hv0 hn
  have hav : signal_value val a = !val a.index := by simp [signal_value, hac]
  have hbv : signal_value val b = !val b.index := by simp [signal_value, hbc]
  rw [hnv, hav, hbv]
  rcases hshape with ⟨ha, hb⟩ | ⟨ha, -⟩ | ⟨-, hb⟩
  · have e1 : val a.index = (signal_value val s && signal_value val p) := by
      rcases ha with ha | ha
      · exact simulates_gate hv0 ha
      · rw [simulates_gate hv0 ha, Bool.and_comm]
    have e2 : val b.index = (signal_value val s && signal_value val q) := by
      rcases hb with hb | hb
      · exact simulates_gate hv0 hb
      · rw [simulates_gate hv0 hb, Bool.and_comm]
    rw [e1, e2]
    cases signal_value val s <;> cases signal_value val p <;> cases signal_value val q <;> rfl
  · exact absurd rfl (distinct_fanins_gate hdist ha)
  · exact absurd rfl (distinct_fanins_gate hdist hb)

theorem try_three_layer_distributivity_fires (ntk : Ntk) (n : Nat)
    (h : (try_three_layer_distributivity ntk n).1 = true) :
    ∃ r, three_layer_replacement ntk n = some r := by
  unfold try_three_layer_distributivity at h
  cases hr : three_layer_replacement ntk n with
  | some r => exact ⟨r, rfl⟩
  | none => simp [hr] at h

theorem three_layer_value (ntk : Ntk) (n : Nat) (subNode : signal) (ntk1 : Ntk)
    (assignment val : Nat → Bool)
    (hsub : three_layer_replacement ntk n = some (subNode, ntk1))
    (hval : simulates ntk1 assignment val) :
    signal_value val subNode = val n := by
  obtain ⟨ncc, cc, ncgc, cgc, ncggc, cggc, -, hcl, -, hr⟩ :=
    three_layer_replacement_some ntk n _ hsub
  obtain ⟨hn, -, hcc, -, hc, -, hcgc, -, hg, -, -⟩ :=
    three_layer_classify_shape ntk n ncc cc ncgc cgc ncggc cggc hcl
  unfold create_nand at hr
  simp only [Prod.mk.injEq] at hr
  obtain ⟨h1, h2⟩ := hr
  subst h1
  subst h2
  have hv3 := simulates_create_and hval
  have hv2 := simulates_create_and hv3
  have hv1 := simulates_create_and hv2
  have hv0 := simulates_create_and hv1
  simp only [signal_value_create_not, create_and_value hval, create_and_value hv3,
    create_and_value hv2, create_and_value hv1]
  have e0 : val n = (signal_value val cc && signal_value val ncc) := by
    rcases hn with hn | hn
    · exact simulates_gate hv0 hn
    · rw [simulates_gate hv0 hn, Bool.and_comm]
  have e1 : val cc.index = (signal_value val cgc && signal_value val ncgc) := by
    rcases hc with hc | hc
    · exact simulates_gate hv0 hc
    · rw [simulates_gate hv0 hc, Bool.and_comm]
  have e2 : val cgc.index = (signal_value val cggc && signal_value val ncggc) := by
    rcases hg with hg | hg
    · exact simulates_gate hv0 hg
    · rw [simulates_gate hv0 hg, Bool.and_comm]
  have e3 : signal_value val cc = !val cc.index := by simp [signal_value, hcc]
  have e4 : signal_value val cgc = !val cgc.index := by simp [signal_value, hcgc]
  rw [e0, e3, e1, e4, e2]
  cases signal_value val cggc <;> cases signal_value val ncggc <;>
    cases signal_value val ncgc <;> cases signal_value val ncc <;> rfl

/-! ## Levels of created gates -/

theorem level_gate {ntk : Ntk} (hc : consistent ntk) {i : Nat} {a b : signal}
    (h : (entry ntk i).data = node_data.gate a b) :
    a.index < ntk.nodes.length ∧ b.index < ntk.nodes.length ∧
      level ntk i = 1 + max (level ntk a.index) (level ntk b.index) := by
  have := (hc i (gate_in_range h)).1
  unfold node_level_ok at this
  rw [h] at this
  simpa [and_assoc] using this

theorem crit_fanin {ntk : Ntk} (hc : consistent ntk) {g i : Nat} {a b : signal}
    (hg : is_on_critical_path ntk g = true) (hd : (entry ntk g).data = node_data.gate a b)
    (hr : a.index = i ∨ b.index = i) (hlev : level ntk i + 1 = level ntk g) :
    is_on_critical_path ntk i = true := by
  have hi : i < ntk.nodes.length := by
    rcases hr with rfl | rfl
    · exact (level_gate hc hd).1
    · exact (level_gate hc hd).2.1
  have := (hc i hi).2
  unfold node_crit_ok at this
  rw [beq_iff_eq] at this
  rw [this, Bool.or_eq_true]
  right
  rw [List.any_eq_true]
  refine ⟨g, List.mem_range.mpr (gate_in_range hd), ?_⟩
  have hreads : reads ntk g i = true := by
    unfold reads
    rw [hd]
    rcases hr with rfl | rfl <;> simp
  simp [hg, hreads, hlev]

/-- A fanin of a critical gate that is not flagged critical sits at least two
levels below the gate. -/
theorem noncrit_fanin_level {ntk : Ntk} (hc : consistent ntk) {g : Nat} {a b : signal}
    (hg : is_on_critical_path ntk g = true)
    (hd : (entry ntk g).data = node_data.gate a b ∨ (entry ntk g).data = node_data.gate b a)
    (hb : is_on_critical_path ntk b.index = false) :
    level ntk b.index + 2 ≤ level ntk g := by
  rcases hd with hd | hd
  · have hl := (level_gate hc hd).2.2
    by_contra hlt
    have : level ntk b.index + 1 = level ntk g := by omega
    rw [crit_fanin hc hg hd (Or.inr rfl) this] at hb
    exact Bool.noConfusion hb
  · have hl := (level_gate hc hd).2.2
    by_contra hlt
    have : level ntk b.index + 1 = level ntk g := by omega
    rw [crit_fanin hc hg hd (Or.inl rfl) this] at hb
    exact Bool.noConfusion hb

theorem level_create_and_old (ntk : Ntk) (a b : signal) (i : Nat) (hi : i < ntk.nodes.length) :
    level (create_and ntk a b).2 i = level ntk i := by
  unfold level
  rw [entry_create_and_old ntk a b i hi]

theorem create_and_index_lt (ntk : Ntk) (a b : signal) :
    (create_and ntk a b).1.index < (create_and ntk a b).2.nodes.length := by
  obtain ⟨x, y, -, h | h⟩ := create_and_cases ntk a b
  · obtain ⟨j, hs, h⟩ := h
    rw [h]
    rcases same_fanins_gate _ _ _ hs with hd | hd <;> exact gate_in_range hd
  · rw [h]
    simp

theorem levels_consistent_gate {ntk : Ntk} (hl : levels_consistent ntk) {i : Nat} {a b : signal}
    (h : (entry ntk i).data = node_data.gate a b) :
    a.index < ntk.nodes.length ∧ b.index < ntk.nodes.length ∧
      level ntk i = 1 + max (level ntk a.index) (level ntk b.index) := by
  have := hl i (gate_in_range h)
  unfold node_level_ok at this
  rw [h] at this
  simpa [and_assoc] using this

theorem create_and_level_le {ntk : Ntk} (hl : levels_consistent ntk) (a b : signal) :
    level (create_and ntk a b).2 (create_and ntk a b).1.index ≤
      1 + max (level ntk a.index) (level ntk b.index) := by
  obtain ⟨x, y, hxy, h | h⟩ := create_and_cases ntk a b
  · obtain ⟨j, hs, h⟩ := h
    rw [h]
    show level ntk j ≤ _
    rcases same_fanins_gate _ _ _ hs with hd | hd <;>
      have := (levels_consistent_gate hl hd).2.2 <;>
      rcases hxy with ⟨rfl, rfl⟩ | ⟨rfl, rfl⟩ <;> omega
  · rw [h]
    have : level
        { ntk with
          nodes := ntk.nodes ++
            [⟨node_data.gate x y, 1 + max (level ntk x.index) (level ntk y.index), false⟩],
          journal := call.create_and a b :: ntk.journal } ntk.nodes.length =
        1 + max (level ntk x.index) (level ntk y.index) := by
      simp [level, entry]
    simp only at this ⊢
    rw [this]
    rcases hxy with ⟨rfl, rfl⟩ | ⟨rfl, rfl⟩ <;> omega

theorem levels_consistent_create_and {ntk : Ntk} (hl : levels_consistent ntk) (a b : signal)
    (ha : a.index < ntk.nodes.length) (hb : b.index < ntk.nodes.length) :
    levels_consistent (create_and ntk a b).2 := by
  obtain ⟨x, y, hxy, h | h⟩ := create_and_cases ntk a b
  · obtain ⟨j, -, h⟩ := h
    rw [h]
    exact hl
  · have hx : x.index < ntk.nodes.length := by
      rcases hxy with ⟨rfl, rfl⟩ | ⟨rfl, rfl⟩ <;> assumption
    have hy : y.index < ntk.nodes.length := by
      rcases hxy with ⟨rfl, rfl⟩ | ⟨rfl, rfl⟩ <;> assumption
    intro i hi
    have hlen : (create_and ntk a b).2.nodes.length = ntk.nodes.length + 1 := by
      rw [h]; simp
    rw [hlen] at hi
    by_cases hlt : i < ntk.nodes.length
    · have hold := hl i hlt
      unfold node_level_ok at hold ⊢
      rw [entry_create_and_old ntk a b i hlt, hlen]
      cases hd : (entry ntk i).data with
      | gate u v =>
        rw [hd] at hold
        simp only [Bool.and_eq_true, decide_eq_true_eq] at hold ⊢
        obtain ⟨⟨hu, hv⟩, hlev⟩ := hold
        refine ⟨⟨by omega, by omega⟩, ?_⟩
        rw [level_create_and_old ntk a b i hlt, level_create_and_old ntk a b _ hu,
          level_create_and_old ntk a b _ hv]
        exact hlev
      | constant =>
        rw [hd] at hold
        simp only [decide_eq_true_eq] at hold ⊢
        rw [level_create_and_old ntk a b i hlt]; exact hold
      | pi =>
        rw [hd] at hold
        simp only [decide_eq_true_eq] at hold ⊢
        rw [level_create_and_old ntk a b i hlt]; exact hold
      | dead => rfl
    · have hi' : i = ntk.nodes.length := by omega
      subst hi'
      have e : entry (create_and ntk a b).2 ntk.nodes.length =
          ⟨node_data.gate x y, 1 + max (level ntk x.index) (level ntk y.index), false⟩ := by
        rw [h]; simp [entry]
      unfold node_level_ok
      rw [hlen]
      simp only [e, Bool.and_eq_true, decide_eq_true_eq]
      refine ⟨⟨by omega, by omega⟩, ?_⟩
      rw [level_create_and_old ntk a b _ hx, level_create_and_old ntk a b _ hy]
      unfold level
      rw [e]
      rfl

theorem consistent_levels {ntk : Ntk} (hc : consistent ntk) : levels_consistent ntk :=
  fun i hi => (hc i hi).1

/-! ## Level of the replacement -/

theorem associativity_level (ntk : Ntk) (n : Nat) (subNode : signal) (ntk1 : Ntk)
    (hc : consistent ntk)
    (hsub : associativity_replacement ntk n = some (subNode, ntk1)) :
    levels_consistent ntk1 ∧ level ntk1 subNode.index < level ntk n := by
  obtain ⟨c0, n0, n1, l, -, -, hcl, hlt, hr⟩ := associativity_replacement_some ntk n _ hsub
  obtain ⟨d, o, m, hn, hdcrit, -, hd, hc0, hm, -, hleq, hn01⟩ :=
    associativity_classify_shape ntk n c0 n0 n1 _ hcl
  simp only [Option.some.injEq] at hleq
  subst hleq
  have hl0 := consistent_levels hc
  have hmd := noncrit_fanin_level hc hdcrit hd hm
  have hc0r := crit_in_range hc0
  have hdl : level ntk d.index = 1 + max (level ntk c0.index) (level ntk m.index) ∧
      m.index < ntk.nodes.length := by
    rcases hd with hd | hd
    · exact ⟨(level_gate hc hd).2.2, (level_gate hc hd).2.1⟩
    · refine ⟨?_, (level_gate hc hd).1⟩
      rw [(level_gate hc hd).2.2, max_comm]
  have hnl : level ntk n = 1 + max (level ntk d.index) (level ntk o.index) ∧
      o.index < ntk.nodes.length := by
    rcases hn with hn | hn
    · exact ⟨(level_gate hc hn).2.2, (level_gate hc hn).2.1⟩
    · refine ⟨?_, (level_gate hc hn).1⟩
      rw [(level_gate hc hn).2.2, max_comm]
  have hn0r : n0.index < ntk.nodes.length ∧ n1.index < ntk.nodes.length := by
    rcases hn01 with ⟨rfl, rfl⟩ | ⟨rfl, rfl⟩
    · exact ⟨hdl.2, hnl.2⟩
    · exact ⟨hnl.2, hdl.2⟩
  have hsum : max (level ntk n0.index) (level ntk n1.index) =
      max (level ntk m.index) (level ntk o.index) := by
    rcases hn01 with ⟨rfl, rfl⟩ | ⟨rfl, rfl⟩
    · rfl
    · exact max_comm _ _
  have hl1 := levels_consistent_create_and hl0 n0 n1 hn0r.1 hn0r.2
  have b1 := create_and_level_le hl0 n0 n1
  have hlen1 := length_create_and_le ntk n0 n1
  have b2 := create_and_level_le hl1 c0 (create_and ntk n0 n1).1
  have hl2 := levels_consistent_create_and hl1 c0 (create_and ntk n0 n1).1
    (lt_of_lt_of_le hc0r hlen1) (create_and_index_lt ntk n0 n1)
  rw [level_create_and_old ntk n0 n1 _ hc0r] at b2
  have h1 : subNode = (create_and (create_and ntk n0 n1).2 c0 (create_and ntk n0 n1).1).1 := by
    rw [← hr]
  have h2 : ntk1 = (create_and (create_and ntk n0 n1).2 c0 (create_and ntk n0 n1).1).2 := by
    rw [← hr]
  subst h1
  subst h2
  refine ⟨hl2, ?_⟩
  omega

theorem distributivity_level (is_or : Nat → Bool) (ntk : Ntk) (n : Nat) (subNode : signal)
    (ntk1 : Ntk) (hc : consistent ntk)
    (hsub : distributivity_replacement is_or ntk n = some (subNode, ntk1)) :
    levels_consistent ntk1 ∧ level ntk1 subNode.index < level ntk n := by
  obtain ⟨p, q, s, -, -, hcl, hr⟩ := distributivity_replacement_some is_or ntk n _ hsub
  obtain ⟨a, b, hn, hacrit, -, hbcrit, -, hs, -, hp, hq, hshape⟩ :=
    distributivity_classify_shape ntk n p q s s hcl
  have hl0 := consistent_levels hc
  have hnl := level_gate hc hn
  have hsr := crit_in_range hs
  have key : level ntk s.index + 1 ≤ max (level ntk a.index) (level ntk b.index) ∧
      level ntk p.index + 2 ≤ max (level ntk a.index) (level ntk b.index) ∧
      level ntk q.index + 2 ≤ max (level ntk a.index) (level ntk b.index) ∧
      p.index < ntk.nodes.length ∧ q.index < ntk.nodes.length := by
    rcases hshape with ⟨ha, hb⟩ | ⟨-, hb⟩ | ⟨ha, -⟩
    · have hpa := noncrit_fanin_level hc hacrit ha hp
      have hqb := noncrit_fanin_level hc hbcrit hb hq
      have hal : level ntk a.index = 1 + max (level ntk s.index) (level ntk p.index) ∧
          p.index < ntk.nodes.length := by
        rcases ha with ha | ha
        · exact ⟨(level_gate hc ha).2.2, (level_gate hc ha).2.1⟩
        · refine ⟨?_, (level_gate hc ha).1⟩
          rw [(level_gate hc ha).2.2, max_comm]
      have hbl : q.index < ntk.nodes.length := by
        rcases hb with hb | hb
        · exact (level_gate hc hb).2.1
        · exact (level_gate hc hb).1
      refine ⟨?_, ?_, ?_, hal.2, hbl⟩ <;> omega
    · exfalso
      have h1 := noncrit_fanin_level hc hbcrit (Or.inl hb) hq
      have h2 := noncrit_fanin_level hc hbcrit (Or.inr hb) hp
      have h3 := (level_gate hc hb).2.2
      omega
    · exfalso
      have h1 := noncrit_fanin_level hc hacrit (Or.inl ha) hq
      have h2 := noncrit_fanin_level hc hacrit (Or.inr ha) hp
      have h3 := (level_gate hc ha).2.2
      omega
  obtain ⟨ks, kp, kq, hpr, hqr⟩ := key
  have b1 := create_and_level_le hl0 (create_not p) (create_not q)
  have hl1 := levels_consistent_create_and hl0 (create_not p) (create_not q) hpr hqr
  have hlen1 := length_create_and_le ntk (create_not p) (create_not q)
  have b2 := create_and_level_le hl1 s
    (create_not (create_and ntk (create_not p) (create_not q)).1)
  have hl2 := levels_consistent_create_and hl1 s
    (create_not (create_and ntk (create_not p) (create_not q)).1)
    (lt_of_lt_of_le hsr hlen1) (create_and_index_lt ntk (create_not p) (create_not q))
  rw [level_create_and_old ntk _ _ _ hsr] at b2
  have hidx : subNode.index =
      (create_and (create_and ntk (create_not p) (create_not q)).2 s
        (create_not (create_and ntk (create_not p) (create_not q)).1)).1.index := by
    have := congrArg (fun r : signal × Ntk => r.1.index) hr
    simp only [create_nand, create_or] at this
    rw [this]
    split <;> rfl
  have hntk : ntk1 =
      (create_and (create_and ntk (create_not p) (create_not q)).2 s
        (create_not (create_and ntk (create_not p) (create_not q)).1)).2 := by
    have := congrArg (fun r : signal × Ntk => r.2) hr
    simpa only [create_nand, create_or] using this
  rw [hidx, hntk]
  refine ⟨hl2, ?_⟩
  have e1 : (create_not p).index = p.index := rfl
  have e2 : (create_not q).index = q.index := rfl
  have e3 : (create_not (create_and ntk (create_not p) (create_not q)).1).index =
      (create_and ntk (create_not p) (create_not q)).1.index := rfl
  rw [e1, e2] at b1
  rw [e3] at b2
  omega

theorem three_layer_level (ntk : Ntk) (n : Nat) (subNode : signal) (ntk1 : Ntk)
    (ncc cc ncgc cgc ncggc cggc : signal) (hc : consistent ntk)
    (hcl : three_layer_classify ntk n = ⟨[ncc], [cc], [ncgc], [cgc], [ncggc], [cggc]⟩)
    (hsub : three_layer_replacement ntk n = some (subNode, ntk1)) :
    levels_consistent ntk1 ∧
    (level ntk ncc.index + 2 ≤ level ntk cc.index → level ntk1 subNode.index ≤ level ntk n) ∧
    (level ntk ncc.index + 3 ≤ level ntk cc.index →
      level ntk ncgc.index + 2 ≤ level ntk cc.index →
      level ntk1 subNode.index < level ntk n) := by
  obtain ⟨ncc', cc', ncgc', cgc', ncggc', cggc', -, hcl', -, hr⟩ :=
    three_layer_replacement_some ntk n _ hsub
  rw [hcl] at hcl'
  simp only [three_layer_sets.mk.injEq, List.cons.injEq, and_true] at hcl'
  obtain ⟨rfl, rfl, rfl, rfl, rfl, rfl⟩ := hcl'
  obtain ⟨hn, hccrit, -, -, hcd, hcgcrit, -, -, hgd, hcggcrit, hncgg⟩ :=
    three_layer_classify_shape ntk n ncc cc ncgc cgc ncggc cggc hcl
  have hl0 := consistent_levels hc
  have hgg := noncrit_fanin_level hc hcgcrit hgd hncgg
  have hnl : level ntk n = 1 + max (level ntk cc.index) (level ntk ncc.index) ∧
      ncc.index < ntk.nodes.length := by
    rcases hn with hn | hn
    · exact ⟨(level_gate hc hn).2.2, (level_gate hc hn).2.1⟩
    · refine ⟨?_, (level_gate hc hn).1⟩
      rw [(level_gate hc hn).2.2, max_comm]
  have hcl2 : level ntk cc.index = 1 + max (level ntk cgc.index) (level ntk ncgc.index) ∧
      ncgc.index < ntk.nodes.length := by
    rcases hcd with hcd | hcd
    · exact ⟨(level_gate hc hcd).2.2, (level_gate hc hcd).2.1⟩
    · refine ⟨?_, (level_gate hc hcd).1⟩
      rw [(level_gate hc hcd).2.2, max_comm]
  have hgl : level ntk cgc.index = 1 + max (level ntk cggc.index) (level ntk ncggc.index) ∧
      ncggc.index < ntk.nodes.length := by
    rcases hgd with hgd | hgd
    · exact ⟨(level_gate hc hgd).2.2, (level_gate hc hgd).2.1⟩
    · refine ⟨?_, (level_gate hc hgd).1⟩
      rw [(level_gate hc hgd).2.2, max_comm]
  have hcggr := crit_in_range hcggcrit
  -- the four gate creations
  have b1 := create_and_level_le hl0 ncc ncggc
  have hl1 := levels_consistent_create_and hl0 ncc ncggc hnl.2 hgl.2
  have len1 := length_create_and_le ntk ncc ncggc
  have b2 := create_and_level_le hl1 cggc (create_and ntk ncc ncggc).1
  have hl2 := levels_consistent_create_and hl1 cggc (create_and ntk ncc ncggc).1
    (lt_of_lt_of_le hcggr len1) (create_and_index_lt ntk ncc ncggc)
  have len2 := length_create_and_le (create_and ntk ncc ncggc).2 cggc (create_and ntk ncc ncggc).1
  rw [level_create_and_old ntk ncc ncggc _ hcggr] at b2
  have hncc1 : ncc.index < (create_and ntk ncc ncggc).2.nodes.length := lt_of_lt_of_le hnl.2 len1
  have hncgc1 : ncgc.index < (create_and ntk ncc ncggc).2.nodes.length :=
    lt_of_lt_of_le hcl2.2 len1
  have b3 := create_and_level_le hl2 ncc (create_not ncgc)
  have hl3 := levels_consistent_create_and hl2 ncc (create_not ncgc)
    (lt_of_lt_of_le hncc1 len2) (lt_of_lt_of_le hncgc1 len2)
  have e1 : (create_not ncgc).index = ncgc.index := rfl
  rw [e1, level_create_and_old _ cggc _ _ hncc1, level_create_and_old ntk ncc ncggc _ hnl.2,
    level_create_and_old _ cggc _ _ hncgc1, level_create_and_old ntk ncc ncggc _ hcl2.2] at b3
  have len3 := length_create_and_le
    (create_and (create_and ntk ncc ncggc).2 cggc (create_and ntk ncc ncggc).1).2
    ncc (create_not ncgc)
  have i2 := create_and_index_lt (create_and ntk ncc ncggc).2 cggc (create_and ntk ncc ncggc).1
  have i3 := create_and_index_lt
    (create_and (create_and ntk ncc ncggc).2 cggc (create_and ntk ncc ncggc).1).2
    ncc (create_not ncgc)
  have b4 := create_and_level_le hl3
    (create_not (create_and (create_and ntk ncc ncggc).2 cggc (create_and ntk ncc ncggc).1).1)
    (create_not (create_and
      (create_and (create_and ntk ncc ncggc).2 cggc (create_and ntk ncc ncggc).1).2
      ncc (create_not ncgc)).1)
  have hl4 := levels_consistent_create_and hl3
    (create_not (create_and (create_and ntk ncc ncggc).2 cggc (create_and ntk ncc ncggc).1).1)
    (create_not (create_and
      (create_and (create_and ntk ncc ncggc).2 cggc (create_and ntk ncc ncggc).1).2
      ncc (create_not ncgc)).1)
    (lt_of_lt_of_le i2 len3) i3
  have e2 : (create_not
      (create_and (create_and ntk ncc ncggc).2 cggc (create_and ntk ncc ncggc).1).1).index =
      (create_and (create_and ntk ncc ncggc).2 cggc (create_and ntk ncc ncggc).1).1.index := rfl
  have e3 : (create_not (create_and
      (create_and (create_and ntk ncc ncggc).2 cggc (create_and ntk ncc ncggc).1).2
      ncc (create_not ncgc)).1).index =
      (create_and
        (create_and (create_and ntk ncc ncggc).2 cggc (create_and ntk ncc ncggc).1).2
        ncc (create_not ncgc)).1.index := rfl
  rw [e2, e3, level_create_and_old _ ncc (create_not ncgc) _ i2] at b4
  unfold create_nand at hr
  simp only [Prod.mk.injEq] at hr
  obtain ⟨h1, h2⟩ := hr
  have e4 : subNode.index = (create_and
      (create_and (create_and (create_and ntk ncc ncggc).2 cggc (create_and ntk ncc ncggc).1).2
        ncc (create_not ncgc)).2
      (create_not (create_and (create_and ntk ncc ncggc).2 cggc (create_and ntk ncc ncggc).1).1)
      (create_not (create_and
        (create_and (create_and ntk ncc ncggc).2 cggc (create_and ntk ncc ncggc).1).2
        ncc (create_not ncgc)).1)).1.index := by
    rw [h1]; rfl
  rw [e4, h2]
  refine ⟨hl4, ?_, ?_⟩
  · intro hs
    omega
  · intro hs hx
    omega

/-! ## The driver at a fixpoint -/

theorem associativity_replacement_journal (ntk : Ntk) (j : List call) (n : Nat) :
    (associativity_replacement { ntk with journal := j } n).isSome =
      (associativity_replacement ntk n).isSome := by
  have e1 : is_on_critical_path { ntk with journal := j } = is_on_critical_path ntk := rfl
  have e2 : level { ntk with journal := j } = level ntk := rfl
  have e3 : associativity_classify { ntk with journal := j } n = associativity_classify ntk n :=
    rfl
  unfold associativity_replacement
  rw [e1, e2, e3]
  split
  · split
    · split <;> rfl
    · rfl
  · rfl

theorem distributivity_replacement_journal (is_or : Nat → Bool) (ntk : Ntk) (j : List call)
    (n : Nat) :
    (distributivity_replacement is_or { ntk with journal := j } n).isSome =
      (distributivity_replacement is_or ntk n).isSome := by
  have e1 : is_on_critical_path { ntk with journal := j } = is_on_critical_path ntk := rfl
  have e2 : level { ntk with journal := j } = level ntk := rfl
  have e3 : distributivity_classify { ntk with journal := j } n =
      distributivity_classify ntk n := rfl
  unfold distributivity_replacement
  rw [e1, e2, e3]
  split
  · split
    · split <;> rfl
    · rfl
  · rfl

theorem three_layer_replacement_journal (ntk : Ntk) (j : List call) (n : Nat) :
    (three_layer_replacement { ntk with journal := j } n).isSome =
      (three_layer_replacement ntk n).isSome := by
  have e1 : is_on_critical_path { ntk with journal := j } = is_on_critical_path ntk := rfl
  have e2 : level { ntk with journal := j } = level ntk := rfl
  have e3 : three_layer_classify { ntk with journal := j } n = three_layer_classify ntk n := rfl
  unfold three_layer_replacement
  rw [e1, e2, e3]
  split
  · split
    · split <;> rfl
    · rfl
  · rfl

theorem try_associativity_eq (ntk : Ntk) (n : Nat) :
    (try_associativity ntk n).1 = (associativity_replacement ntk n).isSome ∧
    ((try_associativity ntk n).1 = false → (try_associativity ntk n).2 = ntk) := by
  unfold try_associativity
  cases associativity_replacement ntk n <;> simp

theorem try_distributivity_eq (is_or : Nat → Bool) (ntk : Ntk) (n : Nat) :
    (try_distributivity is_or ntk n).1 = (distributivity_replacement is_or ntk n).isSome ∧
    ((try_distributivity is_or ntk n).1 = false → (try_distributivity is_or ntk n).2 = ntk) := by
  unfold try_distributivity
  cases distributivity_replacement is_or ntk n <;> simp

theorem try_three_layer_distributivity_eq (ntk : Ntk) (n : Nat) :
    (try_three_layer_distributivity ntk n).1 = (three_layer_replacement ntk n).isSome ∧
    ((try_three_layer_distributivity ntk n).1 = false →
      (try_three_layer_distributivity ntk n).2 = ntk) := by
  unfold try_three_layer_distributivity
  cases three_layer_replacement ntk n <;> simp

/-- When no rule matches, the dispatcher hands back the network it was given. -/
theorem try_algebraic_rules_false (is_or : Nat → Bool) (ntk : Ntk) (n : Nat)
    (h : (try_algebraic_rules is_or ntk n).1 = false) :
    (try_algebraic_rules is_or ntk n).2 = ntk := by
  unfold try_algebraic_rules at h ⊢
  simp only at h ⊢
  by_cases h1 : (try_associativity ntk n).1 = true
  · simp [h1] at h
  · have h1' : (try_associativity ntk n).1 = false := by simpa using h1
    have s1 := (try_associativity_eq ntk n).2 h1'
    simp only [h1', Bool.false_eq_true, if_false, s1] at h ⊢
    by_cases h2 : (try_distributivity is_or ntk n).1 = true
    · simp [h2] at h
    · have h2' : (try_distributivity is_or ntk n).1 = false := by simpa using h2
      have s2 := (try_distributivity_eq is_or ntk n).2 h2'
      simp only [h2', Bool.false_eq_true, if_false, s2] at h ⊢
      by_cases h3 : (try_three_layer_distributivity ntk n).1 = true
      · simp [h3] at h
      · have h3' : (try_three_layer_distributivity ntk n).1 = false := by simpa using h3
        have s3 := (try_three_layer_distributivity_eq ntk n).2 h3'
        simp only [h3', Bool.false_eq_true, if_false, s3]

/-- Whether the dispatcher reports an update does not depend on the journal. -/
theorem try_algebraic_rules_journal (is_or : Nat → Bool) (ntk : Ntk) (j : List call) (n : Nat) :
    (try_algebraic_rules is_or { ntk with journal := j } n).1 =
      (try_algebraic_rules is_or ntk n).1 := by
  have key : ∀ m : Ntk, (try_algebraic_rules is_or m n).1 =
      ((associativity_replacement m n).isSome || (distributivity_replacement is_or m n).isSome ||
        (three_layer_replacement m n).isSome) := by
    intro m
    unfold try_algebraic_rules
    simp only
    by_cases h1 : (try_associativity m n).1 = true
    · simp [h1, ← (try_associativity_eq m n).1]
    · have h1' : (try_associativity m n).1 = false := by simpa using h1
      have s1 := (try_associativity_eq m n).2 h1'
      simp only [h1', Bool.false_eq_true, if_false, s1]
      by_cases h2 : (try_distributivity is_or m n).1 = true
      · simp [h2, ← (try_distributivity_eq is_or m n).1]
      · have h2' : (try_distributivity is_or m n).1 = false := by simpa using h2
        have s2 := (try_distributivity_eq is_or m n).2 h2'
        simp only [h2', Bool.false_eq_true, if_false, s2]
        rw [← (try_associativity_eq m n).1, ← (try_distributivity_eq is_or m n).1,
          ← (try_three_layer_distributivity_eq m n).1, h1', h2']
        cases (try_three_layer_distributivity m n).1 <;> rfl
  rw [key, key, associativity_replacement_journal, distributivity_replacement_journal,
    three_layer_replacement_journal]

/-- A pass over a network on which no rule matches only records its attempts. -/
theorem run_pass_fixpoint (is_or : Nat → Bool) (ntk : Ntk)
    (hfix : is_fixpoint is_or ntk) (handles : List Nat) (j : List call) (cont : Bool) :
    run_pass is_or handles { ntk with journal := j } cont =
      ({ ntk with
         journal := ((handles.filter (is_gate ntk)).map call.try_algebraic_rules).reverse ++ j },
       cont) := by
  induction handles generalizing j with
  | nil => rfl
  | cons n rest ih =>
    unfold run_pass
    have eg : is_gate { ntk with journal := j } n = is_gate ntk n := rfl
    rw [eg]
    by_cases hg : is_gate ntk n = true
    · have hin : n < ntk.nodes.length := by
        unfold is_gate at hg
        cases hd : (entry ntk n).data with
        | gate a b => exact gate_in_range hd
        | _ => simp [hd] at hg
      have hf : (try_algebraic_rules is_or
          { ntk with journal := call.try_algebraic_rules n :: j } n).1 = false := by
        rw [try_algebraic_rules_journal]
        exact hfix n hin hg
      have hs := try_algebraic_rules_false is_or _ n hf
      simp only [hg, if_true, hf, Bool.false_eq_true, if_false, hs]
      rw [ih]
      simp [List.filter, hg]
    · simp only [hg, Bool.false_eq_true, if_false]
      rw [ih]
      simp [List.filter, hg]

theorem eval_node_stable {ntk : Ntk} (hl : levels_consistent ntk) (assignment : Nat → Bool) :
    ∀ (bound i f : Nat), level ntk i ≤ bound → level ntk i < f →
      eval_node f ntk assignment i = eval_node (level ntk i + 1) ntk assignment i := by
  intro bound
  induction bound with
  | zero =>
    intro i f h0 hf
    obtain ⟨f', rfl⟩ : ∃ f', f = f' + 1 := ⟨f - 1, by omega⟩
    unfold eval_node
    cases hd : (entry ntk i).data with
    | gate a b =>
      have := (levels_consistent_gate hl hd).2.2
      omega
    | _ => rfl
  | succ bound ih =>
    intro i f hb hf
    obtain ⟨f', rfl⟩ : ∃ f', f = f' + 1 := ⟨f - 1, by omega⟩
    unfold eval_node
    cases hd : (entry ntk i).data with
    | gate a b =>
      have hlev := (levels_consistent_gate hl hd).2.2
      simp only
      rw [ih a.index f' (by omega) (by omega), ih b.index f' (by omega) (by omega),
        ih a.index (level ntk i) (by omega) (by omega),
        ih b.index (level ntk i) (by omega) (by omega)]
    | _ => rfl

/-- On a network whose levels are consistent with its structure (in particular
an acyclic one), every input assignment has a simulation. -/
theorem simulates_simulate {ntk : Ntk} (hl : levels_consistent ntk) (assignment : Nat → Bool) :
    simulates ntk assignment (simulate ntk assignment) := by
  intro i _
  unfold node_value_ok
  cases hd : (entry ntk i).data with
  | gate a b =>
    have hlev := (levels_consistent_gate hl hd).2.2
    simp only [beq_iff_eq, signal_value]
    have e : simulate ntk assignment i =
        ((xor (eval_node (level ntk i) ntk assignment a.index) a.complement) &&
         (xor (eval_node (level ntk i) ntk assignment b.index) b.complement)) := by
      unfold simulate
      rw [eval_node]
      simp only [hd]
    rw [e, eval_node_stable hl assignment (level ntk a.index) a.index (level ntk i) le_rfl
      (by omega), eval_node_stable hl assignment (level ntk b.index) b.index (level ntk i) le_rfl
      (by omega)]
    rfl
  | constant => simp [simulate, eval_node, hd]
  | pi => simp [simulate, eval_node, hd]
  | dead => rfl

theorem run_fuel_mono (is_or : Nat → Bool) (fuel k : Nat) (ntk r : Ntk)
    (h : run is_or fuel ntk = some r) : run is_or (fuel + k) ntk = some r := by
  induction fuel generalizing ntk with
  | zero => simp [run] at h
  | succ fuel ih =>
    have e : fuel + 1 + k = (fuel + k) + 1 := by omega
    rw [e]
    unfold run at h ⊢
    simp only at h ⊢
    split at h
    · rename_i hc
      simp only [hc, if_true]
      exact ih _ h
    · rename_i hc
      simp only [hc, if_false]
      exact h

/-- For the three rules alike: in a consistent network the network holding
the new gates has a simulation for every input assignment, and in it the
replacement signal and node `n` agree. -/
theorem replacement_simulated (is_or : Nat → Bool) (ntk : Ntk) (n : Nat) (subNode : signal)
    (ntk1 : Ntk) (assignment : Nat → Bool) (hc : consistent ntk)
    (haig : is_or n = false) (hdist : distinct_fanins ntk)
    (hsub : associativity_replacement ntk n = some (subNode, ntk1) ∨
      distributivity_replacement is_or ntk n = some (subNode, ntk1) ∨
      three_layer_replacement ntk n = some (subNode, ntk1)) :
    simulates ntk1 assignment (simulate ntk1 assignment) ∧
    signal_value (simulate ntk1 assignment) subNode = simulate ntk1 assignment n := by
  rcases hsub with h | h | h
  · have hl := (associativity_level ntk n subNode ntk1 hc h).1
    exact ⟨simulates_simulate hl assignment,
      associativity_value ntk n subNode ntk1 assignment _ h (simulates_simulate hl assignment)⟩
  · have hl := (distributivity_level is_or ntk n subNode ntk1 hc h).1
    exact ⟨simulates_simulate hl assignment,
      distributivity_value is_or ntk n subNode ntk1 assignment _ haig hdist h
        (simulates_simulate hl assignment)⟩
  · obtain ⟨ncc, cc, ncgc, cgc, ncggc, cggc, -, hcl, -, -⟩ :=
      three_layer_replacement_some ntk n _ h
    have hl := (three_layer_level ntk n subNode ntk1 ncc cc ncgc cgc ncggc cggc hc hcl h).1
    exact ⟨simulates_simulate hl assignment,
      three_layer_value ntk n subNode ntk1 assignment _ h (simulates_simulate hl assignment)⟩

/-! ## The examples -/

/-- The simulation of the associativity example exists: the valuation
`assoc_example_val` simulates the network with the new gates. -/
theorem assoc_example_simulated :
    associativity_replacement assoc_example 7 = some (⟨9, false⟩, assoc_example_built) ∧
    simulates assoc_example_built example_assignment assoc_example_val ∧
    consistent assoc_example ∧
    (update_levels assoc_example).nodes = assoc_example.nodes := by
  decide

/-- The simulation of the distributivity example exists, and the example is a
state the oracle produces. -/
theorem distr_example_simulated :
    distributivity_replacement aig_is_or distr_example 8 =
      some (⟨10, true⟩, distr_example_built) ∧
    simulates distr_example_built example_assignment distr_example_val ∧
    consistent distr_example ∧
    (update_levels distr_example).nodes = distr_example.nodes := by
  decide

/-- The simulation of the three-layer example exists, and the example is a
state the oracle produces. -/
theorem three_layer_example_simulated :
    three_layer_replacement three_layer_example 9 =
      some (⟨13, true⟩, three_layer_example_built) ∧
    simulates three_layer_example_built example_assignment three_layer_example_val ∧
    consistent three_layer_example ∧
    (update_levels three_layer_example).nodes = three_layer_example.nodes := by
  decide

/-- The three further examples are states the oracle produces: their levels
and flags are consistent and `update_levels` reproduces them. -/
theorem examples_consistent :
    consistent wrap_example ∧ (update_levels wrap_example).nodes = wrap_example.nodes ∧
    consistent slack_two_example ∧
    (update_levels slack_two_example).nodes = slack_two_example.nodes ∧
    consistent critical_grandchild_example ∧
    (update_levels critical_grandchild_example).nodes = critical_grandchild_example.nodes := by
  decide

theorem level_out_of_range (ntk : Ntk) (i : Nat) (hi : ntk.nodes.length ≤ i) :
    level ntk i = 0 := by
  unfold level
  rw [entry_out_of_range ntk i hi]

theorem shallow_no_associativity (ntk : Ntk) (n : Nat)
    (hs : ∀ i, i < ntk.nodes.length → level ntk i ≤ 1) :
    associativity_replacement ntk n = none := by
  have h1 : level ntk n ≤ 1 := by
    by_cases hn : n < ntk.nodes.length
    · exact hs n hn
    · rw [level_out_of_range ntk n (not_lt.mp hn)]; omega
  unfold associativity_replacement
  have : decide (level ntk n > 1) = false := by simp; omega
  simp [this]

theorem shallow_no_distributivity (is_or : Nat → Bool) (ntk : Ntk) (n : Nat)
    (hs : ∀ i, i < ntk.nodes.length → level ntk i ≤ 1) :
    distributivity_replacement is_or ntk n = none := by
  have h1 : level ntk n ≤ 1 := by
    by_cases hn : n < ntk.nodes.length
    · exact hs n hn
    · rw [level_out_of_range ntk n (not_lt.mp hn)]; omega
  unfold distributivity_replacement
  have : decide (level ntk n > 1) = false := by simp; omega
  simp [this]

theorem shallow_no_three_layer (ntk : Ntk) (n : Nat)
    (hl : levels_consistent ntk)
    (hs : ∀ i, i < ntk.nodes.length → level ntk i ≤ 1) :
    three_layer_replacement ntk n = none := by
  cases h : three_layer_replacement ntk n with
  | none => rfl
  | some r =>
    exfalso
    obtain ⟨ncc, cc, ncgc, cgc, ncggc, cggc, -, hcl, -, -⟩ := three_layer_replacement_some ntk n r h
    obtain ⟨hn, -, -, -, hc, -⟩ := three_layer_classify_shape ntk n ncc cc ncgc cgc ncggc cggc hcl
    have hc1 : 1 ≤ level ntk cc.index := by
      rcases hc with hc | hc <;> have := (levels_consistent_gate hl hc).2.2 <;> omega
    have hn1 : 2 ≤ level ntk n ∧ n < ntk.nodes.length := by
      rcases hn with hn | hn <;> have := (levels_consistent_gate hl hn).2.2 <;>
        exact ⟨by omega, gate_in_range hn⟩
    have := hs n hn1.2
    omega

/-! ## The journal of the store operations -/

theorem create_and_journal (ntk : Ntk) (a b : signal) :
    (create_and ntk a b).2.journal = call.create_and a b :: ntk.journal := by
  obtain ⟨x, y, -, h | h⟩ := create_and_cases ntk a b
  · obtain ⟨j, -, h⟩ := h
    rw [h]
  · rw [h]

theorem replace_in_node_journal (ntk : Ntk) (idx old : Nat) (new : signal) :
    (replace_in_node ntk idx old new).1.journal = ntk.journal := by
  unfold replace_in_node
  cases (entry ntk idx).data with
  | gate a b =>
    simp only
    split
    · cases strash_find ntk.nodes
        (if signal_le (redirect old new a) (redirect old new b) = true then redirect old new a
          else redirect old new b)
        (if signal_le (redirect old new a) (redirect old new b) = true then redirect old new b
          else redirect old new a) 0 <;> rfl
    · rfl
  | _ => rfl

theorem take_out_node_journal (fuel : Nat) (ntk : Ntk) (l : List Nat) :
    (take_out_node fuel ntk l).journal = ntk.journal := by
  induction fuel generalizing ntk l with
  | zero => simp [take_out_node]
  | succ fuel ih =>
    cases l with
    | nil => simp [take_out_node]
    | cons n rest =>
      unfold take_out_node
      split
      · simp only
        rw [ih]
        rfl
      · rw [ih]

theorem substitute_fold_journal (old : Nat) (new : signal) (l : List Nat)
    (acc : Ntk × List (Nat × signal)) :
    (l.foldl (fun (acc : Ntk × List (Nat × signal)) idx =>
        let q := replace_in_node acc.1 idx old new
        (q.1, match q.2 with
              | some p => p :: acc.2
              | none => acc.2)) acc).1.journal = acc.1.journal := by
  induction l generalizing acc with
  | nil => rfl
  | cons i rest ih =>
    rw [List.foldl_cons, ih]
    exact replace_in_node_journal _ _ _ _

theorem substitute_loop_journal (fuel : Nat) (ntk : Ntk) (l : List (Nat × signal)) :
    (substitute_loop fuel ntk l).journal = ntk.journal := by
  induction fuel generalizing ntk l with
  | zero => simp [substitute_loop]
  | succ fuel ih =>
    cases l with
    | nil => simp [substitute_loop]
    | cons p rest =>
      obtain ⟨old, new⟩ := p
      unfold substitute_loop
      simp only
      rw [ih, take_out_node_journal]
      exact substitute_fold_journal old new _ _

theorem substitute_node_journal (ntk : Ntk) (old : Nat) (new : signal) :
    (substitute_node ntk old new).journal = call.substitute_node old new :: ntk.journal := by
  unfold substitute_node
  rw [substitute_loop_journal]

theorem update_levels_journal (ntk : Ntk) :
    (update_levels ntk).journal = call.update_levels :: ntk.journal := rfl

theorem only_create_and_step (ntk : Ntk) (a b : signal) (base : List call)
    (h : ∃ creates, ntk.journal = creates ++ base ∧ only_create_and creates) :
    ∃ creates, (create_and ntk a b).2.journal = creates ++ base ∧ only_create_and creates := by
  obtain ⟨creates, h1, h2⟩ := h
  refine ⟨call.create_and a b :: creates, ?_, ?_⟩
  · rw [create_and_journal, h1]
    rfl
  · intro e he
    rcases List.mem_cons.mp he with rfl | he
    · exact ⟨a, b, rfl⟩
    · exact h2 e he

theorem only_create_and_start (ntk : Ntk) :
    ∃ creates, ntk.journal = creates ++ ntk.journal ∧ only_create_and creates :=
  ⟨[], rfl, fun _ he => absurd he (List.not_mem_nil _)⟩

theorem try_associativity_journal (ntk : Ntk) (n : Nat)
    (h : (try_associativity ntk n).1 = true) :
    ∃ s creates, (try_associativity ntk n).2.journal =
      call.substitute_node n s :: (creates ++ ntk.journal) ∧ only_create_and creates := by
  obtain ⟨⟨subNode, ntk1⟩, hsub⟩ := try_associativity_fires ntk n h
  obtain ⟨c0, n0, n1, l, -, -, -, -, hr⟩ := associativity_replacement_some ntk n _ hsub
  have h2 : ntk1 = (create_and (create_and ntk n0 n1).2 c0 (create_and ntk n0 n1).1).2 := by
    rw [← hr]
  obtain ⟨creates, hj, hc⟩ := only_create_and_step _ c0 (create_and ntk n0 n1).1 ntk.journal
    (only_create_and_step ntk n0 n1 ntk.journal (only_create_and_start ntk))
  refine ⟨subNode, creates, ?_, hc⟩
  simp only [try_associativity, hsub]
  rw [substitute_node_journal, h2, hj]

theorem try_distributivity_journal (is_or : Nat → Bool) (ntk : Ntk) (n : Nat)
    (h : (try_distributivity is_or ntk n).1 = true) :
    ∃ s creates, (try_distributivity is_or ntk n).2.journal =
      call.substitute_node n s :: (creates ++ ntk.journal) ∧ only_create_and creates := by
  obtain ⟨⟨subNode, ntk1⟩, hsub⟩ := try_distributivity_fires is_or ntk n h
  obtain ⟨p, q, s, -, -, -, hr⟩ := distributivity_replacement_some is_or ntk n _ hsub
  have h2 : ntk1 = (create_and (create_and ntk (create_not p) (create_not q)).2 s
      (create_not (create_and ntk (create_not p) (create_not q)).1)).2 := by
    have := congrArg (fun r : signal × Ntk => r.2) hr
    simpa only [create_nand, create_or] using this
  obtain ⟨creates, hj, hc⟩ := only_create_and_step _ s
    (create_not (create_and ntk (create_not p) (create_not q)).1) ntk.journal
    (only_create_and_step ntk (create_not p) (create_not q) ntk.journal
      (only_create_and_start ntk))
  refine ⟨subNode, creates, ?_, hc⟩
  simp only [try_distributivity, hsub]
  rw [substitute_node_journal, h2, hj]

theorem try_three_layer_distributivity_journal (ntk : Ntk) (n : Nat)
    (h : (try_three_layer_distributivity ntk n).1 = true) :
    ∃ s creates, (try_three_layer_distributivity ntk n).2.journal =
      call.substitute_node n s :: (creates ++ ntk.journal) ∧ only_create_and creates := by
  obtain ⟨⟨subNode, ntk1⟩, hsub⟩ := try_three_layer_distributivity_fires ntk n h
  obtain ⟨ncc, cc, ncgc, cgc, ncggc, cggc, -, -, -, hr⟩ :=
    three_layer_replacement_some ntk n _ hsub
  unfold create_nand at hr
  simp only [Prod.mk.injEq] at hr
  obtain ⟨-, h2⟩ := hr
  obtain ⟨creates, hj, hc⟩ := only_create_and_step _
    (create_not (create_and (create_and ntk ncc ncggc).2 cggc (create_and ntk ncc ncggc).1).1)
    (create_not (create_and
      (create_and (create_and ntk ncc ncggc).2 cggc (create_and ntk ncc ncggc).1).2
      ncc (create_not ncgc)).1) ntk.journal
    (only_create_and_step _ ncc (create_not ncgc) ntk.journal
      (only_create_and_step _ cggc (create_and ntk ncc ncggc).1 ntk.journal
        (only_create_and_step ntk ncc ncggc ntk.journal (only_create_and_start ntk))))
  refine ⟨subNode, creates, ?_, hc⟩
  simp only [try_three_layer_distributivity, hsub]
  rw [substitute_node_journal, h2, hj]

/-! ## The three-layer classification as filters -/

theorem three_layer_grander_foldl (ntk : Ntk) (l : List signal) (st : three_layer_sets) :
    l.foldl (three_layer_granderchild ntk) st =
      { st with
        nonCriticalGranderChildren := st.nonCriticalGranderChildren ++
          l.filter fun s => !critical_node ntk s,
        criticalGranderChildren := st.criticalGranderChildren ++
          l.filter (critical_node ntk) } := by
  induction l generalizing st with
  | nil => simp
  | cons s rest ih =>
    rw [List.foldl_cons, ih]
    unfold three_layer_granderchild
    by_cases h : is_on_critical_path ntk (get_node s) = true
    · simp [h, critical_node, List.filter]
    · simp [h, critical_node, List.filter]

theorem three_layer_grand_foldl (ntk : Ntk) (l : List signal) (st : three_layer_sets) :
    l.foldl (three_layer_grandchild ntk) st =
      { st with
        nonCriticalGrandChildren := st.nonCriticalGrandChildren ++
          l.filter fun s => !critical_and_complemented ntk s,
        criticalGrandChildren := st.criticalGrandChildren ++
          l.filter (critical_and_complemented ntk),
        nonCriticalGranderChildren := st.nonCriticalGranderChildren ++
          (l.filter (critical_and_complemented ntk)).flatMap fun g =>
            (foreach_fanin ntk (get_node g)).filter fun s => !critical_node ntk s,
        criticalGranderChildren := st.criticalGranderChildren ++
          (l.filter (critical_and_complemented ntk)).flatMap fun g =>
            (foreach_fanin ntk (get_node g)).filter (critical_node ntk) } := by
  induction l generalizing st with
  | nil => simp
  | cons s rest ih =>
    rw [List.foldl_cons, ih]
    unfold three_layer_grandchild
    by_cases h : (is_on_critical_path ntk (get_node s) && is_complemented s) = true
    · simp [h, critical_and_complemented, List.filter, three_layer_grander_foldl]
    · simp [h, critical_and_complemented, List.filter]

theorem three_layer_child_foldl (ntk : Ntk) (l : List signal) (st : three_layer_sets) :
    l.foldl (three_layer_child ntk) st =
      { nonCriticalChildren := st.nonCriticalChildren ++
          l.filter fun s => !critical_and_complemented ntk s,
        criticalChildren := st.criticalChildren ++ l.filter (critical_and_complemented ntk),
        nonCriticalGrandChildren := st.nonCriticalGrandChildren ++
          (l.filter (critical_and_complemented ntk)).flatMap fun c =>
            (foreach_fanin ntk (get_node c)).filter fun s => !critical_and_complemented ntk s,
        criticalGrandChildren := st.criticalGrandChildren ++
          (l.filter (critical_and_complemented ntk)).flatMap fun c =>
            (foreach_fanin ntk (get_node c)).filter (critical_and_complemented ntk),
        nonCriticalGranderChildren := st.nonCriticalGranderChildren ++
          (l.filter (critical_and_complemented ntk)).flatMap fun c =>
            ((foreach_fanin ntk (get_node c)).filter (critical_and_complemented ntk)).flatMap fun g =>
              (foreach_fanin ntk (get_node g)).filter fun s => !critical_node ntk s,
        criticalGranderChildren := st.criticalGranderChildren ++
          (l.filter (critical_and_complemented ntk)).flatMap fun c =>
            ((foreach_fanin ntk (get_node c)).filter (critical_and_complemented ntk)).flatMap fun g =>
              (foreach_fanin ntk (get_node g)).filter (critical_node ntk) } := by
  induction l generalizing st with
  | nil => simp
  | cons s rest ih =>
    rw [List.foldl_cons, ih]
    unfold three_layer_child
    by_cases h : (is_on_critical_path ntk (get_node s) && is_complemented s) = true
    · simp [h, critical_and_complemented, List.filter, three_layer_grand_foldl]
    · simp [h, critical_and_complemented, List.filter]

/-! ## Order independence of the associativity rule -/

theorem associativity_pattern_classify (ntk : Ntk) (n : Nat) (h : associativity_pattern ntk n) :
    ∃ c0 n0 n1 l, associativity_classify ntk n = ⟨[c0], [n0, n1], some l⟩ ∧
      l < level ntk (get_node c0) := by
  obtain ⟨d, o, c0, m, hn, hd, hdc, hdd, hc0, hm, ho, hlt⟩ := h
  have hdesc : (is_on_critical_path ntk d.index && !d.complement) = true := by simp [hd, hdc]
  rcases hn with hn | hn <;> rcases hdd with hdd | hdd
  · refine ⟨c0, m, o, level ntk o.index, ?_, hlt⟩
    simp [associativity_classify, foreach_fanin, hn, hdd, List.foldl, associativity_child,
      associativity_grandchild, get_node, is_complemented, hdesc, ho, hc0, hm]
  · refine ⟨c0, m, o, level ntk o.index, ?_, hlt⟩
    simp [associativity_classify, foreach_fanin, hn, hdd, List.foldl, associativity_child,
      associativity_grandchild, get_node, is_complemented, hdesc, ho, hc0, hm]
  · refine ⟨c0, o, m, level ntk o.index, ?_, hlt⟩
    simp [associativity_classify, foreach_fanin, hn, hdd, List.foldl, associativity_child,
      associativity_grandchild, get_node, is_complemented, hdesc, ho, hc0, hm]
  · refine ⟨c0, o, m, level ntk o.index, ?_, hlt⟩
    simp [associativity_classify, foreach_fanin, hn, hdd, List.foldl, associativity_child,
      associativity_grandchild, get_node, is_complemented, hdesc, ho, hc0, hm]

/-- The associativity rule fires exactly on its pattern. -/
theorem associativity_fires_iff (ntk : Ntk) (n : Nat) :
    (try_associativity ntk n).1 = true ↔
      (is_on_critical_path ntk n = true ∧ 1 < level ntk n ∧ associativity_pattern ntk n) := by
  constructor
  · intro h
    obtain ⟨r, hsub⟩ := try_associativity_fires ntk n h
    obtain ⟨c0, n0, n1, l, hc, hl, hcl, hlt, -⟩ := associativity_replacement_some ntk n r hsub
    obtain ⟨d, o, m, hn, hd, hdc, hdd, hc0, hm, ho, hleq, -⟩ :=
      associativity_classify_shape ntk n c0 n0 n1 _ hcl
    simp only [Option.some.injEq] at hleq
    subst hleq
    exact ⟨hc, hl, d, o, c0, m, hn, hd, hdc, hdd, hc0, hm, ho, hlt⟩
  · rintro ⟨hc, hl, hp⟩
    obtain ⟨c0, n0, n1, l, hcl, hlt⟩ := associativity_pattern_classify ntk n hp
    rw [(try_associativity_eq ntk n).1]
    unfold associativity_replacement
    have hg : (is_on_critical_path ntk n && decide (level ntk n > 1)) = true := by
      simp [hc, hl]
    simp [hg, hcl, hlt]

theorem entry_set_data (ntk : Ntk) (n : Nat) (d : node_data) (i : Nat) :
    entry (set_data ntk n d) i =
      if i = n ∧ n < ntk.nodes.length then { entry ntk n with data := d } else entry ntk i := by
  unfold set_data entry
  simp only [List.getD_eq_getElem?_getD, List.getElem?_set]
  by_cases h : n = i
  · subst h
    by_cases hlt : n < ntk.nodes.length
    · simp [hlt]
    · have hnone : ntk.nodes[n]? = none := List.getElem?_eq_none (Nat.le_of_not_lt hlt)
      simp [hlt, hnone]
  · have h' : ¬ i = n := fun e => h e.symm
    simp [h, h']

theorem swap_fanins_entry (ntk : Ntk) (n i : Nat) :
    (entry (swap_fanins ntk n) i).level = (entry ntk i).level ∧
    (entry (swap_fanins ntk n) i).crit = (entry ntk i).crit ∧
    (∀ x y, (entry ntk i).data = node_data.gate x y →
      (entry (swap_fanins ntk n) i).data = node_data.gate x y ∨
      (entry (swap_fanins ntk n) i).data = node_data.gate y x) ∧
    (∀ x y, (entry (swap_fanins ntk n) i).data = node_data.gate x y →
      (entry ntk i).data = node_data.gate x y ∨ (entry ntk i).data = node_data.gate y x) := by
  unfold swap_fanins
  cases hd : (entry ntk n).data with
  | gate a b =>
    simp only
    rw [entry_set_data]
    by_cases h : i = n ∧ n < ntk.nodes.length
    · obtain ⟨rfl, hlt⟩ := h
      simp only [hlt, and_self, if_true, hd]
      refine ⟨trivial, trivial, ?_, ?_⟩
      · intro x y hxy
        simp only [node_data.gate.injEq] at hxy ⊢
        right
        exact ⟨hxy.2, hxy.1⟩
      · intro x y hxy
        simp only [node_data.gate.injEq] at hxy ⊢
        right
        exact ⟨hxy.2, hxy.1⟩
    · simp only [h, if_false]
      exact ⟨trivial, trivial, fun x y hxy => Or.inl hxy, fun x y hxy => Or.inl hxy⟩
  | _ =>
    simp only
    exact ⟨trivial, trivial, fun x y hxy => Or.inl hxy, fun x y hxy => Or.inl hxy⟩

theorem associativity_pattern_transfer (a b : Ntk) (n : Nat)
    (hlev : ∀ i, level a i = level b i)
    (hcrit : ∀ i, is_on_critical_path a i = is_on_critical_path b i)
    (hdata : ∀ i x y, (entry a i).data = node_data.gate x y →
      (entry b i).data = node_data.gate x y ∨ (entry b i).data = node_data.gate y x)
    (h : associativity_pattern a n) : associativity_pattern b n := by
  obtain ⟨d, o, c0, m, hn, hd, hdc, hdd, hc0, hm, ho, hlt⟩ := h
  refine ⟨d, o, c0, m, ?_, by rw [← hcrit]; exact hd, hdc, ?_, by rw [← hcrit]; exact hc0,
    by rw [← hcrit]; exact hm, by rw [← hcrit]; exact ho, by rw [← hlev, ← hlev]; exact hlt⟩
  · rcases hn with hn | hn
    · exact hdata n _ _ hn
    · exact (hdata n _ _ hn).symm
  · rcases hdd with hdd | hdd
    · exact hdata _ _ _ hdd
    · exact (hdata _ _ _ hdd).symm

theorem try_associativity_swap (ntk : Ntk) (n : Nat) :
    (try_associativity (swap_fanins ntk n) n).1 = (try_associativity ntk n).1 := by
  have hl : ∀ i, level (swap_fanins ntk n) i = level ntk i :=
    fun i => (swap_fanins_entry ntk n i).1
  have hc : ∀ i, is_on_critical_path (swap_fanins ntk n) i = is_on_critical_path ntk i :=
    fun i => (swap_fanins_entry ntk n i).2.1
  have key : (try_associativity (swap_fanins ntk n) n).1 = true ↔
      (try_associativity ntk n).1 = true := by
    rw [associativity_fires_iff, associativity_fires_iff, hl, hc]
    constructor
    · rintro ⟨h1, h2, h3⟩
      exact ⟨h1, h2, associativity_pattern_transfer _ _ n hl hc
        (fun i => (swap_fanins_entry ntk n i).2.2.2) h3⟩
    · rintro ⟨h1, h2, h3⟩
      exact ⟨h1, h2, associativity_pattern_transfer _ _ n (fun i => (hl i).symm)
        (fun i => (hc i).symm) (fun i => (swap_fanins_entry ntk n i).2.2.1) h3⟩
  cases h1 : (try_associativity (swap_fanins ntk n) n).1 <;>
    cases h2 : (try_associativity ntk n).1 <;> simp_all

theorem associativity_one_descent (ntk : Ntk) (n : Nat) (c0 n0 n1 : signal) (l : Option Nat)
    (h : associativity_classify ntk n = ⟨[c0], [n0, n1], l⟩) :
    ∃ d o m : signal,
      (foreach_fanin ntk n = [d, o] ∨ foreach_fanin ntk n = [o, d]) ∧
      associativity_descends ntk d = true ∧ associativity_descends ntk o = false ∧
      (foreach_fanin ntk (get_node d) = [c0, m] ∨ foreach_fanin ntk (get_node d) = [m, c0]) ∧
      is_on_critical_path ntk (get_node c0) = true ∧
      is_on_critical_path ntk (get_node m) = false ∧
      ((n0 = m ∧ n1 = o) ∨ (n0 = o ∧ n1 = m)) ∧
      l = some (level ntk (get_node o)) ∧
      ((foreach_fanin ntk n).filter (associativity_descends ntk)).length = 1 ∧
      ((foreach_fanin ntk n).filter (fun c => !associativity_descends ntk c)).length = 1 := by
  obtain ⟨d, o, m, hn, hd, hdc, hdd, hc0, hm, ho, hleq, hn01⟩ :=
    associativity_classify_shape ntk n c0 n0 n1 l h
  have h1 : associativity_descends ntk d = true := by
    simp [associativity_descends, get_node, is_complemented, hd, hdc]
  have h2 : associativity_descends ntk o = false := by
    simpa [associativity_descends, get_node, is_complemented] using ho
  have hfd : foreach_fanin ntk (get_node d) = [c0, m] ∨ foreach_fanin ntk (get_node d) = [m, c0] := by
    unfold foreach_fanin get_node
    rcases hdd with hdd | hdd <;> simp [hdd]
  have hfn : foreach_fanin ntk n = [d, o] ∨ foreach_fanin ntk n = [o, d] := by
    unfold foreach_fanin
    rcases hn with hn | hn <;> simp [hn]
  refine ⟨d, o, m, hfn, h1, h2, hfd, hc0, hm, hn01, hleq, ?_, ?_⟩
  · rcases hfn with e | e <;> simp [e, List.filter, h1, h2]
  · rcases hfn with e | e <;> simp [e, List.filter, h1, h2]

/-! ## The journal along a pass -/

/-- A successful dispatch journals `create_and` calls and then one
`substitute_node` of the gate. -/
theorem try_algebraic_rules_success_journal (is_or : Nat → Bool) (ntk : Ntk) (n : Nat)
    (h : (try_algebraic_rules is_or ntk n).1 = true) :
    ∃ s creates, (try_algebraic_rules is_or ntk n).2.journal =
      call.substitute_node n s :: (creates ++ ntk.journal) ∧ only_create_and creates := by
  unfold try_algebraic_rules at h ⊢
  simp only at h ⊢
  by_cases h1 : (try_associativity ntk n).1 = true
  · simp only [h1, if_true]
    exact try_associativity_journal ntk n h1
  · have h1' : (try_associativity ntk n).1 = false := by simpa using h1
    have s1 := (try_associativity_eq ntk n).2 h1'
    simp only [h1', s1, Bool.false_eq_true, if_false] at h ⊢
    by_cases h2 : (try_distributivity is_or ntk n).1 = true
    · simp only [h2, if_true]
      exact try_distributivity_journal is_or ntk n h2
    · have h2' : (try_distributivity is_or ntk n).1 = false := by simpa using h2
      have s2 := (try_distributivity_eq is_or ntk n).2 h2'
      simp only [h2', s2, Bool.false_eq_true, if_false] at h ⊢
      by_cases h3 : (try_three_layer_distributivity ntk n).1 = true
      · simp only [h3, if_true]
        exact try_three_layer_distributivity_journal ntk n h3
      · simp [h3] at h

theorem only_create_and_no_foreach (l : List call) (h : only_create_and l) :
    call.foreach_gate ∉ l := by
  intro hm
  obtain ⟨a, b, e⟩ := h _ hm
  cases e

/-- A pass extends the journal, and starts no new enumeration. -/
theorem run_pass_journal (is_or : Nat → Bool) (handles : List Nat) (ntk : Ntk) (cont : Bool) :
    ∃ later, (run_pass is_or handles ntk cont).1.journal = later ++ ntk.journal ∧
      call.foreach_gate ∉ later := by
  induction handles generalizing ntk cont with
  | nil => exact ⟨[], rfl, List.not_mem_nil _⟩
  | cons n rest ih =>
    unfold run_pass
    by_cases hg : is_gate ntk n = true
    · simp only [hg, if_true]
      by_cases hf : (try_algebraic_rules is_or
          { ntk with journal := call.try_algebraic_rules n :: ntk.journal } n).1 = true
      · simp only [hf, if_true]
        obtain ⟨s, creates, hj, hc⟩ := try_algebraic_rules_success_journal is_or _ n hf
        obtain ⟨later, hl, hn⟩ := ih (update_levels (try_algebraic_rules is_or
          { ntk with journal := call.try_algebraic_rules n :: ntk.journal } n).2) true
        refine ⟨later ++ call.update_levels :: call.substitute_node n s ::
          (creates ++ [call.try_algebraic_rules n]), ?_, ?_⟩
        · rw [hl, update_levels_journal, hj]
          simp
        · intro hm
          rcases List.mem_append.1 hm with hm | hm
          · exact hn hm
          · simp at hm
            exact only_create_and_no_foreach creates hc hm
      · have hf' : (try_algebraic_rules is_or
            { ntk with journal := call.try_algebraic_rules n :: ntk.journal } n).1 = false := by
          simpa using hf
        simp only [hf', Bool.false_eq_true, if_false]
        rw [try_algebraic_rules_false is_or _ n hf']
        obtain ⟨later, hl, hn⟩ := ih
          { ntk with journal := call.try_algebraic_rules n :: ntk.journal } cont
        refine ⟨later ++ [call.try_algebraic_rules n], ?_, ?_⟩
        · rw [hl]
          simp
        · intro hm
          rcases List.mem_append.1 hm with hm | hm
          · exact hn hm
          · simp only [List.mem_singleton] at hm
            cases hm
    · simp only [hg, Bool.false_eq_true, if_false]
      exact ih ntk cont

/-- A pass that has seen a rewrite reports it. -/
theorem run_pass_flag (is_or : Nat → Bool) (handles : List Nat) (ntk : Ntk) :
    (run_pass is_or handles ntk true).2 = true := by
  induction handles generalizing ntk with
  | nil => rfl
  | cons n rest ih =>
    unfold run_pass
    by_cases hg : is_gate ntk n = true
    · simp only [hg, if_true]
      by_cases hf : (try_algebraic_rules is_or
          { ntk with journal := call.try_algebraic_rules n :: ntk.journal } n).1 = true
      · simp only [hf, if_true]
        exact ih _
      · simp only [hf, Bool.false_eq_true, if_false]
        exact ih _
    · simp only [hg, Bool.false_eq_true, if_false]
      exact ih _

/-! ## The traced engine -/

theorem quiet_nil : quiet [] := fun _ he => absurd he (List.not_mem_nil _)

theorem quiet_append (a b : List event) (ha : quiet a) (hb : quiet b) : quiet (a ++ b) := by
  intro e he
  rcases List.mem_append.1 he with h | h
  · exact ha e h
  · exact hb e h

theorem quiet_level (n : Nat) (a : List event) (ha : quiet a) : quiet (event.level n :: a) := by
  intro e he
  rcases List.mem_cons.1 he with h | h
  · exact Or.inl ⟨n, h⟩
  · exact ha e h

theorem quiet_crit (n : Nat) (a : List event) (ha : quiet a) :
    quiet (event.is_on_critical_path n :: a) := by
  intro e he
  rcases List.mem_cons.1 he with h | h
  · exact Or.inr (Or.inl ⟨n, h⟩)
  · exact ha e h

theorem quiet_create (x y : signal) (a : List event) (ha : quiet a) :
    quiet (event.store (call.create_and x y) :: a) := by
  intro e he
  rcases List.mem_cons.1 he with h | h
  · exact Or.inr (Or.inr ⟨x, y, h⟩)
  · exact ha e h

theorem queries_since_refl (t : traced) : queries_since t t :=
  ⟨rfl, [], rfl, quiet_nil⟩

theorem queries_since_trans (a b c : traced) (h1 : queries_since a b) (h2 : queries_since b c) :
    queries_since a c := by
  obtain ⟨e1, m1, t1, q1⟩ := h1
  obtain ⟨e2, m2, t2, q2⟩ := h2
  refine ⟨e2.trans e1, m2 ++ m1, ?_, quiet_append _ _ q2 q1⟩
  rw [t2, t1, List.append_assoc]

theorem queries_since_level (t : traced) (n : Nat) :
    queries_since t (traced_level t n).2 :=
  ⟨rfl, [event.level n], rfl, quiet_level n [] quiet_nil⟩

theorem queries_since_crit (t : traced) (n : Nat) :
    queries_since t (traced_is_on_critical_path t n).2 :=
  ⟨rfl, [event.is_on_critical_path n], rfl, quiet_crit n [] quiet_nil⟩

/-- A traced loop computes what the untraced loop computes, with queries only. -/
theorem foldl_traced_spec {σ : Type} (f : Ntk → σ → signal → σ)
    (g : σ × traced → signal → σ × traced)
    (h : ∀ acc x, (g acc x).1 = f acc.2.ntk acc.1 x ∧ queries_since acc.2 (g acc x).2)
    (l : List signal) (acc : σ × traced) :
    (l.foldl g acc).1 = l.foldl (f acc.2.ntk) acc.1 ∧ queries_since acc.2 (l.foldl g acc).2 := by
  induction l generalizing acc with
  | nil => exact ⟨rfl, queries_since_refl _⟩
  | cons x rest ih =>
    simp only [List.foldl_cons]
    obtain ⟨h1, h2⟩ := h acc x
    obtain ⟨i1, i2⟩ := ih (g acc x)
    refine ⟨?_, queries_since_trans _ _ _ h2 i2⟩
    rw [i1, h1, h2.1]

theorem associativity_grandchild_traced_spec (acc : associativity_sets × traced) (x : signal) :
    (associativity_grandchild_traced acc x).1 = associativity_grandchild acc.2.ntk acc.1 x ∧
    queries_since acc.2 (associativity_grandchild_traced acc x).2 := by
  unfold associativity_grandchild_traced associativity_grandchild
  simp only [traced_is_on_critical_path]
  by_cases h : is_on_critical_path acc.2.ntk (get_node x) = true
  · simp only [h, if_true]
    exact ⟨trivial, queries_since_crit _ _⟩
  · simp only [h, Bool.false_eq_true, if_false]
    exact ⟨trivial, queries_since_crit _ _⟩

theorem associativity_child_traced_spec (acc : associativity_sets × traced) (x : signal) :
    (associativity_child_traced acc x).1 = associativity_child acc.2.ntk acc.1 x ∧
    queries_since acc.2 (associativity_child_traced acc x).2 := by
  unfold associativity_child_traced associativity_child
  simp only
  have hc : (traced_is_on_critical_path acc.2 (get_node x)).1 =
      is_on_critical_path acc.2.ntk (get_node x) := rfl
  rw [hc]
  by_cases h : (is_on_critical_path acc.2.ntk (get_node x) && !is_complemented x) = true
  · simp only [h, if_true]
    obtain ⟨f1, f2⟩ := foldl_traced_spec associativity_grandchild associativity_grandchild_traced
      associativity_grandchild_traced_spec
      (foreach_fanin (traced_is_on_critical_path acc.2 (get_node x)).2.ntk (get_node x))
      (acc.1, (traced_is_on_critical_path acc.2 (get_node x)).2)
    exact ⟨f1, queries_since_trans _ _ _ (queries_since_crit _ _) f2⟩
  · simp only [h, Bool.false_eq_true, if_false]
    exact ⟨rfl, queries_since_trans _ _ _ (queries_since_crit _ _) (queries_since_level _ _)⟩

theorem distributivity_grandchild_traced_spec (acc : distributivity_sets × traced)
    (x : signal) :
    (distributivity_grandchild_traced acc x).1 =
      distributivity_grandchild acc.2.ntk acc.1 x ∧
    queries_since acc.2 (distributivity_grandchild_traced acc x).2 := by
  unfold distributivity_grandchild_traced distributivity_grandchild
  simp only [traced_is_on_critical_path]
  by_cases h : is_on_critical_path acc.2.ntk (get_node x) = true
  · simp only [h, if_true]
    exact ⟨trivial, queries_since_crit _ _⟩
  · simp only [h, Bool.false_eq_true, if_false]
    exact ⟨trivial, queries_since_crit _ _⟩

theorem distributivity_child_traced_spec (acc : distributivity_sets × traced) (x : signal) :
    (distributivity_child_traced acc x).1 = distributivity_child acc.2.ntk acc.1 x ∧
    queries_since acc.2 (distributivity_child_traced acc x).2 := by
  unfold distributivity_child_traced distributivity_child
  simp only
  have hc : (traced_is_on_critical_path acc.2 (get_node x)).1 =
      is_on_critical_path acc.2.ntk (get_node x) := rfl
  rw [hc]
  by_cases h : (is_on_critical_path acc.2.ntk (get_node x) && is_complemented x) = true
  · simp only [h, if_true]
    obtain ⟨f1, f2⟩ := foldl_traced_spec distributivity_grandchild
      distributivity_grandchild_traced distributivity_grandchild_traced_spec
      (foreach_fanin (traced_is_on_critical_path acc.2 (get_node x)).2.ntk (get_node x))
      (acc.1, (traced_is_on_critical_path acc.2 (get_node x)).2)
    exact ⟨f1, queries_since_trans _ _ _ (queries_since_crit _ _) f2⟩
  · simp only [h, Bool.false_eq_true, if_false]
    exact ⟨trivial, queries_since_crit _ _⟩

theorem three_layer_granderchild_traced_spec (acc : three_layer_sets × traced) (x : signal) :
    (three_layer_granderchild_traced acc x).1 = three_layer_granderchild acc.2.ntk acc.1 x ∧
    queries_since acc.2 (three_layer_granderchild_traced acc x).2 := by
  unfold three_layer_granderchild_traced three_layer_granderchild
  simp only [traced_is_on_critical_path]
  by_cases h : is_on_critical_path acc.2.ntk (get_node x) = true
  · simp only [h, if_true]
    exact ⟨trivial, queries_since_crit _ _⟩
  · simp only [h, Bool.false_eq_true, if_false]
    exact ⟨trivial, queries_since_crit _ _⟩

theorem three_layer_grandchild_traced_spec (acc : three_layer_sets × traced) (x : signal) :
    (three_layer_grandchild_traced acc x).1 = three_layer_grandchild acc.2.ntk acc.1 x ∧
    queries_since acc.2 (three_layer_grandchild_traced acc x).2 := by
  unfold three_layer_grandchild_traced three_layer_grandchild
  simp only
  have hc : (traced_is_on_critical_path acc.2 (get_node x)).1 =
      is_on_critical_path acc.2.ntk (get_node x) := rfl
  rw [hc]
  by_cases h : (is_on_critical_path acc.2.ntk (get_node x) && is_complemented x) = true
  · simp only [h, if_true]
    obtain ⟨f1, f2⟩ := foldl_traced_spec three_layer_granderchild
      three_layer_granderchild_traced three_layer_granderchild_traced_spec
      (foreach_fanin (traced_is_on_critical_path acc.2 (get_node x)).2.ntk (get_node x))
      ({ acc.1 with criticalGrandChildren := acc.1.criticalGrandChildren ++ [x] },
        (traced_is_on_critical_path acc.2 (get_node x)).2)
    exact ⟨f1, queries_since_trans _ _ _ (queries_since_crit _ _) f2⟩
  · simp only [h, Bool.false_eq_true, if_false]
    exact ⟨trivial, queries_since_crit _ _⟩

theorem three_layer_child_traced_spec (acc : three_layer_sets × traced) (x : signal) :
    (three_layer_child_traced acc x).1 = three_layer_child acc.2.ntk acc.1 x ∧
    queries_since acc.2 (three_layer_child_traced acc x).2 := by
  unfold three_layer_child_traced three_layer_child
  simp only
  have hc : (traced_is_on_critical_path acc.2 (get_node x)).1 =
      is_on_critical_path acc.2.ntk (get_node x) := rfl
  rw [hc]
  by_cases h : (is_on_critical_path acc.2.ntk (get_node x) && is_complemented x) = true
  · simp only [h, if_true]
    obtain ⟨f1, f2⟩ := foldl_traced_spec three_layer_grandchild
      three_layer_grandchild_traced three_layer_grandchild_traced_spec
      (foreach_fanin (traced_is_on_critical_path acc.2 (get_node x)).2.ntk (get_node x))
      ({ acc.1 with criticalChildren := acc.1.criticalChildren ++ [x] },
        (traced_is_on_critical_path acc.2 (get_node x)).2)
    exact ⟨f1, queries_since_trans _ _ _ (queries_since_crit _ _) f2⟩
  · simp only [h, Bool.false_eq_true, if_false]
    exact ⟨trivial, queries_since_crit _ _⟩

theorem try_associativity_traced_spec (t : traced) (n : Nat) :
    rule_traced_ok n t (try_associativity t.ntk n) (try_associativity_traced t n) := by
  obtain ⟨f1, f2, mid, f3, f4⟩ := foldl_traced_spec associativity_child
    associativity_child_traced associativity_child_traced_spec (foreach_fanin t.ntk n)
    (⟨[], [], none⟩, (traced_level (traced_is_on_critical_path t n).2 n).2)
  have f1' : ((foreach_fanin t.ntk n).foldl associativity_child_traced
      (⟨[], [], none⟩, (traced_level (traced_is_on_critical_path t n).2 n).2)).1 =
      associativity_classify t.ntk n := f1
  have f2' : ((foreach_fanin t.ntk n).foldl associativity_child_traced
      (⟨[], [], none⟩, (traced_level (traced_is_on_critical_path t n).2 n).2)).2.ntk =
      t.ntk := f2
  have f3' : ((foreach_fanin t.ntk n).foldl associativity_child_traced
      (⟨[], [], none⟩, (traced_level (traced_is_on_critical_path t n).2 n).2)).2.trace =
      mid ++ event.level n :: event.is_on_critical_path n :: t.trace := f3
  unfold try_associativity_traced try_associativity associativity_replacement rule_traced_ok
  simp only
  have e1 : (traced_is_on_critical_path t n).1 = is_on_critical_path t.ntk n := rfl
  have e2 : (traced_level (traced_is_on_critical_path t n).2 n).1 = level t.ntk n := rfl
  have e3 : (traced_level (traced_is_on_critical_path t n).2 n).2.ntk = t.ntk := rfl
  rw [e1, e2, e3]
  generalize (foreach_fanin t.ntk n).foldl associativity_child_traced
      (⟨[], [], none⟩, (traced_level (traced_is_on_critical_path t n).2 n).2) = r at f1' f2' f3'
  rw [← f1']
  by_cases hc : is_on_critical_path t.ntk n = true
  · by_cases hl : level t.ntk n > 1
    · simp only [hc, hl, if_true, Bool.true_and, decide_True]
      obtain ⟨⟨cr, nc, lv⟩, ⟨tn, tt⟩⟩ := r
      simp only at f2' f3' ⊢
      subst f2' f3'
      have hfail : (false = false ∧ t.ntk = t.ntk) ∧ ∃ mid1, quiet mid1 ∧
          ((false = false ∧
              mid ++ event.level n :: event.is_on_critical_path n :: t.trace = mid1 ++ t.trace) ∨
            (false = true ∧ ∃ s,
              mid ++ event.level n :: event.is_on_critical_path n :: t.trace =
              event.store (call.substitute_node n s) :: (mid1 ++ t.trace))) :=
        ⟨⟨rfl, rfl⟩, mid ++ [event.level n, event.is_on_critical_path n],
          quiet_append _ _ f4 (quiet_level _ _ (quiet_crit _ _ quiet_nil)),
          Or.inl ⟨rfl, by simp⟩⟩
      clear f1 f2 f3 f1'
      rcases cr with _ | ⟨c0, _ | ⟨c1, cr⟩⟩ <;>
        rcases nc with _ | ⟨n0, _ | ⟨n1, _ | ⟨n2, nc⟩⟩⟩ <;>
        cases lv <;>
        try exact ⟨hfail.1.1, hfail.1.2, hfail.2⟩
      · exact ⟨rfl, rfl, event.level (get_node c0) ::
          (mid ++ [event.level n, event.is_on_critical_path n]),
          quiet_level _ _ (quiet_append _ _ f4 (quiet_level _ _ (quiet_crit _ _ quiet_nil))),
          Or.inl ⟨rfl, by simp [traced_level]⟩⟩
      · rename_i v
        have e4 : (traced_level ⟨t.ntk, mid ++ event.level n :: event.is_on_critical_path n ::
            t.trace⟩ (get_node c0)).1 = level t.ntk (get_node c0) := rfl
        simp only [e4]
        by_cases hv : v < level t.ntk (get_node c0)
        · simp only [hv, if_true]
          refine ⟨trivial, rfl, event.store (call.create_and c0 (create_and t.ntk n0 n1).1) ::
            event.store (call.create_and n0 n1) :: event.level (get_node c0) ::
            (mid ++ [event.level n, event.is_on_critical_path n]), ?_, Or.inr ⟨trivial,
              (create_and (create_and t.ntk n0 n1).2 c0 (create_and t.ntk n0 n1).1).1, ?_⟩⟩
          · exact quiet_create _ _ _ (quiet_create _ _ _ (quiet_level _ _
              (quiet_append _ _ f4 (quiet_level _ _ (quiet_crit _ _ quiet_nil)))))
          · simp [traced_substitute_node, traced_create_and, traced_level]
        · simp only [hv, if_false]
          exact ⟨trivial, rfl, event.level (get_node c0) ::
            (mid ++ [event.level n, event.is_on_critical_path n]),
            quiet_level _ _ (quiet_append _ _ f4 (quiet_level _ _ (quiet_crit _ _ quiet_nil))),
            Or.inl ⟨trivial, by simp [traced_level]⟩⟩
    · simp only [hc, hl, if_true, if_false, Bool.true_and, decide_False, Bool.false_eq_true]
      exact ⟨trivial, rfl, [event.level n, event.is_on_critical_path n],
        quiet_level _ _ (quiet_crit _ _ quiet_nil), Or.inl ⟨trivial, rfl⟩⟩
  · simp only [hc, if_false, Bool.false_and, Bool.false_eq_true]
    exact ⟨trivial, rfl, [event.is_on_critical_path n], quiet_crit _ _ quiet_nil,
      Or.inl ⟨trivial, rfl⟩⟩

theorem try_distributivity_traced_spec (is_or : Nat → Bool) (t : traced) (n : Nat) :
    rule_traced_ok n t (try_distributivity is_or t.ntk n)
      (try_distributivity_traced is_or t n) := by
  obtain ⟨f1, f2, mid, f3, f4⟩ := foldl_traced_spec distributivity_child
    distributivity_child_traced distributivity_child_traced_spec (foreach_fanin t.ntk n)
    (⟨[], []⟩, (traced_level (traced_is_on_critical_path t n).2 n).2)
  have f1' : ((foreach_fanin t.ntk n).foldl distributivity_child_traced
      (⟨[], []⟩, (traced_level (traced_is_on_critical_path t n).2 n).2)).1 =
      distributivity_classify t.ntk n := f1
  have f2' : ((foreach_fanin t.ntk n).foldl distributivity_child_traced
      (⟨[], []⟩, (traced_level (traced_is_on_critical_path t n).2 n).2)).2.ntk =
      t.ntk := f2
  have f3' : ((foreach_fanin t.ntk n).foldl distributivity_child_traced
      (⟨[], []⟩, (traced_level (traced_is_on_critical_path t n).2 n).2)).2.trace =
      mid ++ event.level n :: event.is_on_critical_path n :: t.trace := f3
  unfold try_distributivity_traced try_distributivity distributivity_replacement rule_traced_ok
  simp only
  have e1 : (traced_is_on_critical_path t n).1 = is_on_critical_path t.ntk n := rfl
  have e2 : (traced_level (traced_is_on_critical_path t n).2 n).1 = level t.ntk n := rfl
  have e3 : (traced_level (traced_is_on_critical_path t n).2 n).2.ntk = t.ntk := rfl
  rw [e1, e2, e3]
  generalize (foreach_fanin t.ntk n).foldl distributivity_child_traced
      (⟨[], []⟩, (traced_level (traced_is_on_critical_path t n).2 n).2) = r at f1' f2' f3'
  rw [← f1']
  by_cases hc : is_on_critical_path t.ntk n = true
  · by_cases hl : level t.ntk n > 1
    · simp only [hc, hl, if_true, Bool.true_and, decide_True]
      obtain ⟨⟨nc, cr⟩, ⟨tn, tt⟩⟩ := r
      simp only at f2' f3' ⊢
      subst f2' f3'
      have hq : quiet (mid ++ [event.level n, event.is_on_critical_path n]) :=
        quiet_append _ _ f4 (quiet_level _ _ (quiet_crit _ _ quiet_nil))
      have hfail : (false = false ∧ t.ntk = t.ntk) ∧ ∃ mid1, quiet mid1 ∧
          ((false = false ∧
              mid ++ event.level n :: event.is_on_critical_path n :: t.trace = mid1 ++ t.trace) ∨
            (false = true ∧ ∃ s,
              mid ++ event.level n :: event.is_on_critical_path n :: t.trace =
              event.store (call.substitute_node n s) :: (mid1 ++ t.trace))) :=
        ⟨⟨rfl, rfl⟩, mid ++ [event.level n, event.is_on_critical_path n], hq,
          Or.inl ⟨rfl, by simp⟩⟩
      clear f1 f2 f3 f1'
      rcases cr with _ | ⟨s0, _ | ⟨s1, _ | ⟨s2, cr⟩⟩⟩ <;>
        rcases nc with _ | ⟨p, _ | ⟨q, _ | ⟨n2, nc⟩⟩⟩ <;>
        try exact ⟨hfail.1.1, hfail.1.2, hfail.2⟩
      by_cases hs : s0 = s1
      · simp only [hs, if_true]
        refine ⟨trivial, rfl,
          event.store (call.create_and s1 (create_or t.ntk p q).1) ::
          event.store (call.create_and (create_not p) (create_not q)) ::
          (mid ++ [event.level n, event.is_on_critical_path n]), ?_, Or.inr ⟨trivial,
            (if is_or n then create_not (create_nand (create_or t.ntk p q).2 s1
                (create_or t.ntk p q).1).1
              else (create_nand (create_or t.ntk p q).2 s1 (create_or t.ntk p q).1).1), ?_⟩⟩
        · exact quiet_create _ _ _ (quiet_create _ _ _ hq)
        · simp [traced_substitute_node, traced_create_and, traced_create_nand, traced_create_or,
            create_nand, create_or]
      · simp only [hs, if_false]
        exact ⟨trivial, trivial, mid ++ [event.level n, event.is_on_critical_path n], hq,
          Or.inl ⟨trivial, by simp⟩⟩
    · simp only [hc, hl, if_true, if_false, Bool.true_and, decide_False, Bool.false_eq_true]
      exact ⟨trivial, rfl, [event.level n, event.is_on_critical_path n],
        quiet_level _ _ (quiet_crit _ _ quiet_nil), Or.inl ⟨trivial, rfl⟩⟩
  · simp only [hc, if_false, Bool.false_and, Bool.false_eq_true]
    exact ⟨trivial, rfl, [event.is_on_critical_path n], quiet_crit _ _ quiet_nil,
      Or.inl ⟨trivial, rfl⟩⟩

theorem try_three_layer_distributivity_traced_spec (t : traced) (n : Nat) :
    rule_traced_ok n t (try_three_layer_distributivity t.ntk n)
      (try_three_layer_distributivity_traced t n) := by
  obtain ⟨f1, f2, mid, f3, f4⟩ := foldl_traced_spec three_layer_child
    three_layer_child_traced three_layer_child_traced_spec (foreach_fanin t.ntk n)
    (⟨[], [], [], [], [], []⟩, (traced_is_on_critical_path t n).2)
  have f1' : ((foreach_fanin t.ntk n).foldl three_layer_child_traced
      (⟨[], [], [], [], [], []⟩, (traced_is_on_critical_path t n).2)).1 =
      three_layer_classify t.ntk n := f1
  have f2' : ((foreach_fanin t.ntk n).foldl three_layer_child_traced
      (⟨[], [], [], [], [], []⟩, (traced_is_on_critical_path t n).2)).2.ntk = t.ntk := f2
  have f3' : ((foreach_fanin t.ntk n).foldl three_layer_child_traced
      (⟨[], [], [], [], [], []⟩, (traced_is_on_critical_path t n).2)).2.trace =
      mid ++ event.is_on_critical_path n :: t.trace := f3
  unfold try_three_layer_distributivity_traced try_three_layer_distributivity
    three_layer_replacement rule_traced_ok
  simp only
  have e1 : (traced_is_on_critical_path t n).1 = is_on_critical_path t.ntk n := rfl
  have e3 : (traced_is_on_critical_path t n).2.ntk = t.ntk := rfl
  rw [e1, e3]
  generalize (foreach_fanin t.ntk n).foldl three_layer_child_traced
      (⟨[], [], [], [], [], []⟩, (traced_is_on_critical_path t n).2) = r at f1' f2' f3'
  rw [← f1']
  by_cases hc : is_on_critical_path t.ntk n = true
  · simp only [hc, if_true]
    obtain ⟨⟨l1, l2, l3, l4, l5, l6⟩, ⟨tn, tt⟩⟩ := r
    simp only at f2' f3' ⊢
    subst f2' f3'
    have hq : quiet (mid ++ [event.is_on_critical_path n]) :=
      quiet_append _ _ f4 (quiet_crit _ _ quiet_nil)
    have hfail : (false = false ∧ t.ntk = t.ntk) ∧ ∃ mid1, quiet mid1 ∧
        ((false = false ∧
            mid ++ event.is_on_critical_path n :: t.trace = mid1 ++ t.trace) ∨
          (false = true ∧ ∃ s,
            mid ++ event.is_on_critical_path n :: t.trace =
            event.store (call.substitute_node n s) :: (mid1 ++ t.trace))) :=
      ⟨⟨rfl, rfl⟩, mid ++ [event.is_on_critical_path n], hq, Or.inl ⟨rfl, by simp⟩⟩
    clear f1 f2 f3 f1'
    rcases l1 with _ | ⟨ncc, _ | ⟨x1, l1⟩⟩ <;>
      try exact ⟨hfail.1.1, hfail.1.2, hfail.2⟩
    rcases l2 with _ | ⟨cc, _ | ⟨x2, l2⟩⟩ <;>
      try exact ⟨hfail.1.1, hfail.1.2, hfail.2⟩
    rcases l3 with _ | ⟨ncgc, _ | ⟨x3, l3⟩⟩ <;>
      try exact ⟨hfail.1.1, hfail.1.2, hfail.2⟩
    rcases l4 with _ | ⟨cgc, _ | ⟨x4, l4⟩⟩ <;>
      try exact ⟨hfail.1.1, hfail.1.2, hfail.2⟩
    rcases l5 with _ | ⟨ncggc, _ | ⟨x5, l5⟩⟩ <;>
      try exact ⟨hfail.1.1, hfail.1.2, hfail.2⟩
    rcases l6 with _ | ⟨cggc, _ | ⟨x6, l6⟩⟩ <;>
      try exact ⟨hfail.1.1, hfail.1.2, hfail.2⟩
    have hq2 : quiet (event.level (get_node ncc) :: event.level (get_node cc) ::
        (mid ++ [event.is_on_critical_path n])) := quiet_level _ _ (quiet_level _ _ hq)
    simp only [traced_level]
    by_cases hs : sub_u32 (level t.ntk (get_node cc)) (level t.ntk (get_node ncc)) ≥ 2
    · simp only [hs, if_true]
      refine ⟨trivial, rfl,
        event.store (call.create_and
          (create_not (create_and (create_and t.ntk ncc ncggc).2 cggc
            (create_and t.ntk ncc ncggc).1).1)
          (create_not (create_and (create_and (create_and t.ntk ncc ncggc).2 cggc
            (create_and t.ntk ncc ncggc).1).2 ncc (create_not ncgc)).1)) ::
        event.store (call.create_and ncc (create_not ncgc)) ::
        event.store (call.create_and cggc (create_and t.ntk ncc ncggc).1) ::
        event.store (call.create_and ncc ncggc) ::
        event.level (get_node ncc) :: event.level (get_node cc) ::
        (mid ++ [event.is_on_critical_path n]), ?_, Or.inr ⟨trivial, ?_⟩⟩
      · exact quiet_create _ _ _ (quiet_create _ _ _ (quiet_create _ _ _
          (quiet_create _ _ _ hq2)))
      · simp [traced_substitute_node, traced_create_and, traced_create_nand, create_nand]
    · simp only [hs, if_false]
      exact ⟨trivial, trivial, event.level (get_node ncc) :: event.level (get_node cc) ::
        (mid ++ [event.is_on_critical_path n]), hq2, Or.inl ⟨trivial, by simp⟩⟩
  · simp only [hc, if_false, Bool.false_eq_true]
    exact ⟨trivial, rfl, [event.is_on_critical_path n], quiet_crit _ _ quiet_nil,
      Or.inl ⟨trivial, rfl⟩⟩

theorem try_algebraic_rules_traced_spec (is_or : Nat → Bool) (t : traced) (n : Nat) :
    rule_traced_ok n t (try_algebraic_rules is_or t.ntk n)
      (try_algebraic_rules_traced is_or t n) := by
  obtain ⟨a1, a2, m1, q1, a3⟩ := try_associativity_traced_spec t n
  unfold try_algebraic_rules_traced try_algebraic_rules rule_traced_ok
  simp only
  rw [← a1]
  by_cases h1 : (try_associativity_traced t n).1 = true
  · simp only [h1, if_true]
    refine ⟨trivial, a2, m1, q1, ?_⟩
    rcases a3 with ⟨hf, _⟩ | ⟨_, s, hs⟩
    · rw [h1] at hf
      cases hf
    · exact Or.inr ⟨trivial, s, hs⟩
  · have h1' : (try_associativity_traced t n).1 = false := by simpa using h1
    have hp1 : (try_associativity t.ntk n).2 = t.ntk :=
      (try_associativity_eq t.ntk n).2 (by rw [← a1]; exact h1')
    have ht1 : (try_associativity_traced t n).2.trace = m1 ++ t.trace := by
      rcases a3 with ⟨_, ht⟩ | ⟨hf, _⟩
      · exact ht
      · rw [h1'] at hf
        cases hf
    have hn1 : (try_associativity_traced t n).2.ntk = t.ntk := a2.trans hp1
    obtain ⟨b1, b2, m2, q2, b3⟩ :=
      try_distributivity_traced_spec is_or (try_associativity_traced t n).2 n
    rw [hn1] at b1 b2
    simp only [h1', hp1, Bool.false_eq_true, if_false]
    rw [← b1]
    by_cases h2 : (try_distributivity_traced is_or (try_associativity_traced t n).2 n).1 = true
    · simp only [h2, if_true]
      refine ⟨trivial, b2, m2 ++ m1, quiet_append _ _ q2 q1, ?_⟩
      rcases b3 with ⟨hf, _⟩ | ⟨_, s, hs⟩
      · rw [h2] at hf
        cases hf
      · refine Or.inr ⟨trivial, s, ?_⟩
        rw [hs, ht1, List.append_assoc]
    · have h2' : (try_distributivity_traced is_or (try_associativity_traced t n).2 n).1 =
          false := by simpa using h2
      have hp2 : (try_distributivity is_or t.ntk n).2 = t.ntk :=
        (try_distributivity_eq is_or t.ntk n).2 (by rw [← b1]; exact h2')
      have ht2 : (try_distributivity_traced is_or (try_associativity_traced t n).2 n).2.trace =
          m2 ++ (m1 ++ t.trace) := by
        rcases b3 with ⟨_, ht⟩ | ⟨hf, _⟩
        · rw [ht, ht1]
        · rw [h2'] at hf
          cases hf
      have hn2 : (try_distributivity_traced is_or (try_associativity_traced t n).2 n).2.ntk =
          t.ntk := b2.trans hp2
      obtain ⟨c1, c2, m3, q3, c3⟩ := try_three_layer_distributivity_traced_spec
        (try_distributivity_traced is_or (try_associativity_traced t n).2 n).2 n
      rw [hn2] at c1 c2
      simp only [h2', hp2, Bool.false_eq_true, if_false]
      rw [← c1]
      by_cases h3 : (try_three_layer_distributivity_traced
          (try_distributivity_traced is_or (try_associativity_traced t n).2 n).2 n).1 = true
      · simp only [h3, if_true]
        refine ⟨trivial, c2, m3 ++ (m2 ++ m1), quiet_append _ _ q3 (quiet_append _ _ q2 q1), ?_⟩
        rcases c3 with ⟨hf, _⟩ | ⟨_, s, hs⟩
        · rw [h3] at hf
          cases hf
        · refine Or.inr ⟨trivial, s, ?_⟩
          rw [hs, ht2]
          simp
      · have h3' : (try_three_layer_distributivity_traced
            (try_distributivity_traced is_or (try_associativity_traced t n).2 n).2 n).1 =
            false := by simpa using h3
        simp only [h3', Bool.false_eq_true, if_false]
        refine ⟨trivial, c2, m3 ++ (m2 ++ m1), quiet_append _ _ q3 (quiet_append _ _ q2 q1), ?_⟩
        rcases c3 with ⟨_, ht⟩ | ⟨hf, _⟩
        · refine Or.inl ⟨trivial, ?_⟩
          rw [ht, ht2]
          simp
        · rw [h3'] at hf
          cases hf

theorem quiet_no_substitute (l : List event) (h : quiet l) : l.filter is_substitute = [] := by
  rw [List.filter_eq_nil_iff]
  intro e he
  rcases h e he with ⟨n, rfl⟩ | ⟨n, rfl⟩ | ⟨a, b, rfl⟩ <;> simp [is_substitute]

theorem settled_nil : settled [] := by
  intro later earlier n s h
  cases later <;> simp at h

theorem settled_cons (e : event) (l : List event) (h : settled l)
    (he : is_substitute e = false) : settled (e :: l) := by
  intro later earlier n s hl
  cases later with
  | nil =>
    simp only [List.nil_append, List.cons.injEq] at hl
    rw [hl.1] at he
    simp [is_substitute] at he
  | cons x later1 =>
    simp only [List.cons_append, List.cons.injEq] at hl
    obtain ⟨l1, h1⟩ := h later1 earlier n s hl.2
    exact ⟨x :: l1, by rw [h1]; rfl⟩

theorem settled_quiet (mid l : List event) (h : settled l) (hq : quiet mid) :
    settled (mid ++ l) := by
  induction mid with
  | nil => exact h
  | cons e rest ih =>
    have hr : quiet rest := fun x hx => hq x (List.mem_cons_of_mem _ hx)
    refine settled_cons e (rest ++ l) (ih hr) ?_
    rcases hq e (List.mem_cons_self _ _) with ⟨n, rfl⟩ | ⟨n, rfl⟩ | ⟨a, b, rfl⟩ <;> rfl

theorem settled_update (n : Nat) (s : signal) (l : List event) (h : settled l) :
    settled (event.store call.update_levels :: event.store (call.substitute_node n s) :: l) := by
  intro later earlier m s1 hl
  cases later with
  | nil => simp at hl
  | cons x later1 =>
    simp only [List.cons_append, List.cons.injEq] at hl
    obtain ⟨rfl, hl2⟩ := hl
    cases later1 with
    | nil => exact ⟨[], rfl⟩
    | cons y later2 =>
      simp only [List.cons_append, List.cons.injEq] at hl2
      obtain ⟨l1, h1⟩ := h later2 earlier m s1 hl2.2
      exact ⟨event.store call.update_levels :: y :: l1, by rw [h1]; rfl⟩

/-- The traced pass computes what the untraced pass computes and keeps the
trace settled. -/
theorem run_pass_traced_spec (is_or : Nat → Bool) (handles : List Nat) (t : traced)
    (cont : Bool) :
    (run_pass_traced is_or handles t cont).2 = (run_pass is_or handles t.ntk cont).2 ∧
    (run_pass_traced is_or handles t cont).1.ntk = (run_pass is_or handles t.ntk cont).1 ∧
    (settled t.trace → settled (run_pass_traced is_or handles t cont).1.trace) := by
  induction handles generalizing t cont with
  | nil => exact ⟨rfl, rfl, fun h => h⟩
  | cons n rest ih =>
    unfold run_pass_traced run_pass
    by_cases hg : is_gate t.ntk n = true
    · simp only [hg, if_true]
      obtain ⟨a1, a2, mid, q, a3⟩ := try_algebraic_rules_traced_spec is_or
        ⟨{ t.ntk with journal := call.try_algebraic_rules n :: t.ntk.journal },
          event.store (call.try_algebraic_rules n) :: t.trace⟩ n
      simp only at a1 a2 a3
      rw [← a1]
      by_cases hf : (try_algebraic_rules_traced is_or
          ⟨{ t.ntk with journal := call.try_algebraic_rules n :: t.ntk.journal },
            event.store (call.try_algebraic_rules n) :: t.trace⟩ n).1 = true
      · simp only [hf, if_true]
        obtain ⟨i1, i2, i3⟩ := ih (traced_update_levels (try_algebraic_rules_traced is_or
          ⟨{ t.ntk with journal := call.try_algebraic_rules n :: t.ntk.journal },
            event.store (call.try_algebraic_rules n) :: t.trace⟩ n).2) true
        have hu : (traced_update_levels (try_algebraic_rules_traced is_or
            ⟨{ t.ntk with journal := call.try_algebraic_rules n :: t.ntk.journal },
              event.store (call.try_algebraic_rules n) :: t.trace⟩ n).2).ntk =
            update_levels (try_algebraic_rules is_or
              { t.ntk with journal := call.try_algebraic_rules n :: t.ntk.journal } n).2 := by
          simp only [traced_update_levels, a2]
        rw [hu] at i1 i2
        refine ⟨i1, i2, fun hs => i3 ?_⟩
        rcases a3 with ⟨hff, _⟩ | ⟨_, s, hs2⟩
        · rw [hf] at hff
          cases hff
        · simp only [traced_update_levels, hs2]
          exact settled_update n s _ (settled_quiet mid _ (settled_cons _ _ hs rfl) q)
      · have hf' : (try_algebraic_rules_traced is_or
            ⟨{ t.ntk with journal := call.try_algebraic_rules n :: t.ntk.journal },
              event.store (call.try_algebraic_rules n) :: t.trace⟩ n).1 = false := by
          simpa using hf
        simp only [hf', Bool.false_eq_true, if_false]
        obtain ⟨i1, i2, i3⟩ := ih (try_algebraic_rules_traced is_or
          ⟨{ t.ntk with journal := call.try_algebraic_rules n :: t.ntk.journal },
            event.store (call.try_algebraic_rules n) :: t.trace⟩ n).2 cont
        rw [a2] at i1 i2
        refine ⟨i1, i2, fun hs => i3 ?_⟩
        rcases a3 with ⟨_, ht⟩ | ⟨hff, _⟩
        · rw [ht]
          exact settled_quiet mid _ (settled_cons _ _ hs rfl) q
        · rw [hf'] at hff
          cases hff
    · simp only [hg, Bool.false_eq_true, if_false]
      exact ih t cont

/-- The traced driver computes what the untraced driver computes and keeps
the trace settled. -/
theorem run_traced_spec (is_or : Nat → Bool) (fuel : Nat) (t : traced) :
    run is_or fuel t.ntk =
      (if (run_traced is_or fuel t).1 then some (run_traced is_or fuel t).2.ntk else none) ∧
    (settled t.trace → settled (run_traced is_or fuel t).2.trace) := by
  induction fuel generalizing t with
  | zero => exact ⟨rfl, fun h => h⟩
  | succ fuel ih =>
    unfold run_traced run
    obtain ⟨p1, p2, p3⟩ := run_pass_traced_spec is_or (List.range t.ntk.nodes.length)
      ⟨{ t.ntk with journal := call.foreach_gate :: t.ntk.journal },
        event.store call.foreach_gate :: t.trace⟩ false
    simp only at p1 p2 p3 ⊢
    rw [← p1, ← p2]
    by_cases hc : (run_pass_traced is_or (List.range t.ntk.nodes.length)
        ⟨{ t.ntk with journal := call.foreach_gate :: t.ntk.journal },
          event.store call.foreach_gate :: t.trace⟩ false).2 = true
    · simp only [hc, if_true]
      obtain ⟨i1, i2⟩ := ih (run_pass_traced is_or (List.range t.ntk.nodes.length)
        ⟨{ t.ntk with journal := call.foreach_gate :: t.ntk.journal },
          event.store call.foreach_gate :: t.trace⟩ false).1
      exact ⟨i1, fun hs => i2 (p3 (settled_cons _ _ hs rfl))⟩
    · simp only [hc, Bool.false_eq_true, if_false, if_true]
      exact ⟨trivial, fun hs => p3 (settled_cons _ _ hs rfl)⟩

/-! ## Padding: handles and slots -/

theorem shift_inj (p c i j : Nat) : shift p c i = shift p c j ↔ i = j := by
  unfold shift
  split_ifs <;> omega

theorem shift_lt (p c i j : Nat) : shift p c i < shift p c j ↔ i < j := by
  unfold shift
  split_ifs <;> omega

theorem shift_not_gap (p c i : Nat) (h1 : p ≤ shift p c i) (h2 : shift p c i < p + c) :
    False := by
  unfold shift at h1 h2
  split_ifs at h1 h2 <;> omega

theorem shift_ne_gap (p c i j : Nat) (h1 : p ≤ j) (h2 : j < p + c) : shift p c i ≠ j := by
  intro h
  subst h
  exact shift_not_gap p c i h1 h2

theorem shift_comp (p c1 c2 i : Nat) : shift p c2 (shift p c1 i) = shift p (c1 + c2) i := by
  unfold shift
  split_ifs <;> omega

theorem shift_zero (p i : Nat) : shift p 0 i = i := by
  unfold shift
  split_ifs <;> rfl

theorem shift_of_lt (p c i : Nat) (h : i < p) : shift p c i = i := by
  unfold shift
  simp [h]

theorem shift_of_ge (p c i : Nat) (h : p ≤ i) : shift p c i = i + c := by
  unfold shift
  simp [Nat.not_lt.2 h]

theorem shift_signal_inj (p c : Nat) (x y : signal) :
    shift_signal p c x = shift_signal p c y ↔ x = y := by
  cases x
  cases y
  simp [shift_signal, shift_inj]

theorem shift_signal_index (p c : Nat) (x : signal) :
    (shift_signal p c x).index = shift p c x.index := rfl

theorem shift_signal_complement (p c : Nat) (x : signal) :
    (shift_signal p c x).complement = x.complement := rfl

theorem shift_signal_comp (p c1 c2 : Nat) (x : signal) :
    shift_signal p c2 (shift_signal p c1 x) = shift_signal p (c1 + c2) x := by
  simp [shift_signal, shift_comp]

theorem shift_signal_zero (p : Nat) (x : signal) : shift_signal p 0 x = x := by
  simp [shift_signal, shift_zero]

theorem signal_le_shift (p c : Nat) (x y : signal) :
    signal_le (shift_signal p c x) (shift_signal p c y) = signal_le x y := by
  unfold signal_le
  simp only [shift_signal_index, shift_signal_complement, shift_lt, shift_inj]

theorem create_not_shift (p c : Nat) (x : signal) :
    create_not (shift_signal p c x) = shift_signal p c (create_not x) := rfl

theorem shift_entry_dead (p c : Nat) : shift_entry p c dead_entry = dead_entry := rfl

theorem shift_entry_comp (p c1 c2 : Nat) (e : node_entry) :
    shift_entry p c2 (shift_entry p c1 e) = shift_entry p (c1 + c2) e := by
  obtain ⟨d, l, k⟩ := e
  cases d <;> simp [shift_entry, shift_data, shift_signal_comp]

theorem shift_entry_zero (p : Nat) (e : node_entry) : shift_entry p 0 e = e := by
  obtain ⟨d, l, k⟩ := e
  cases d <;> simp [shift_entry, shift_data, shift_signal_zero]

theorem length_pad_nodes (p c : Nat) (l : List node_entry) :
    (pad_nodes p c l).length = l.length + c := by
  unfold pad_nodes
  simp only [List.length_append, List.length_map, List.length_take, List.length_drop,
    List.length_replicate]
  omega

theorem pad_nodes_shift (p c : Nat) (l : List node_entry) (hp : p ≤ l.length) (i : Nat) :
    (pad_nodes p c l)[shift p c i]? = l[i]?.map (shift_entry p c) := by
  unfold pad_nodes
  by_cases hi : i < p
  · rw [shift_of_lt p c i hi, List.append_assoc, List.getElem?_append_left]
    · rw [List.getElem?_map, List.getElem?_take_of_lt hi]
    · simp only [List.length_map, List.length_take]
      omega
  · have hge : p ≤ i := Nat.le_of_not_lt hi
    rw [shift_of_ge p c i hge, List.getElem?_append_right]
    · simp only [List.length_append, List.length_map, List.length_take,
        List.length_replicate, List.getElem?_map, List.getElem?_drop]
      congr 2
      omega
    · simp only [List.length_append, List.length_map, List.length_take,
        List.length_replicate]
      omega

theorem pad_nodes_gap (p c : Nat) (l : List node_entry) (hp : p ≤ l.length) (j : Nat)
    (h1 : p ≤ j) (h2 : j < p + c) : (pad_nodes p c l)[j]? = some dead_entry := by
  unfold pad_nodes
  rw [List.getElem?_append_left]
  · rw [List.getElem?_append_right]
    · simp only [List.length_map, List.length_take]
      rw [List.getElem?_replicate]
      have : j - min p l.length < c := by omega
      simp [this]
    · simp only [List.length_map, List.length_take]
      omega
  · simp only [List.length_append, List.length_map, List.length_take, List.length_replicate]
    omega

/-- A list that reads like the padded arena at every handle is the padded
arena. -/
theorem pad_nodes_ext (p c : Nat) (l b : List node_entry) (hp : p ≤ l.length)
    (hs : ∀ i, b[shift p c i]? = l[i]?.map (shift_entry p c))
    (hg : ∀ j, p ≤ j → j < p + c → b[j]? = some dead_entry) :
    b = pad_nodes p c l := by
  apply List.ext_getElem?
  intro k
  by_cases h1 : k < p
  · have e := hs k
    rw [shift_of_lt p c k h1] at e
    rw [e, ← pad_nodes_shift p c l hp k, shift_of_lt p c k h1]
  · by_cases h2 : k < p + c
    · rw [hg k (Nat.le_of_not_lt h1) h2, pad_nodes_gap p c l hp k (Nat.le_of_not_lt h1) h2]
    · have e := hs (k - c)
      have hk : shift p c (k - c) = k := by
        rw [shift_of_ge p c (k - c) (by omega)]
        omega
      rw [hk] at e
      rw [e, ← pad_nodes_shift p c l hp (k - c), hk]

theorem entry_eq (ntk : Ntk) (i : Nat) : entry ntk i = (ntk.nodes[i]?).getD dead_entry := by
  unfold entry dead_entry
  rw [List.getD_eq_getElem?_getD]

theorem padded_entry (p c : Nat) (a b : Ntk) (h : padded p c a b) (i : Nat) :
    entry b (shift p c i) = shift_entry p c (entry a i) := by
  rw [entry_eq, entry_eq, h.2.1, pad_nodes_shift p c a.nodes h.1 i]
  cases a.nodes[i]? <;> rfl

theorem padded_entry_gap (p c : Nat) (a b : Ntk) (h : padded p c a b) (j : Nat)
    (h1 : p ≤ j) (h2 : j < p + c) : entry b j = dead_entry := by
  rw [entry_eq, h.2.1, pad_nodes_gap p c a.nodes h.1 j h1 h2]
  rfl

theorem padded_length (p c : Nat) (a b : Ntk) (h : padded p c a b) :
    b.nodes.length = a.nodes.length + c := by
  rw [h.2.1, length_pad_nodes]

theorem padded_level (p c : Nat) (a b : Ntk) (h : padded p c a b) (i : Nat) :
    level b (shift p c i) = level a i := by
  unfold level
  rw [padded_entry p c a b h i]
  rfl

theorem padded_crit (p c : Nat) (a b : Ntk) (h : padded p c a b) (i : Nat) :
    is_on_critical_path b (shift p c i) = is_on_critical_path a i := by
  unfold is_on_critical_path
  rw [padded_entry p c a b h i]
  rfl

theorem padded_foreach_fanin (p c : Nat) (a b : Ntk) (h : padded p c a b) (i : Nat) :
    foreach_fanin b (shift p c i) = (foreach_fanin a i).map (shift_signal p c) := by
  unfold foreach_fanin
  rw [padded_entry p c a b h i]
  show (match shift_data p c (entry a i).data with
    | node_data.gate a b => [a, b]
    | _ => []) = _
  cases (entry a i).data <;> rfl

theorem padded_is_gate (p c : Nat) (a b : Ntk) (h : padded p c a b) (i : Nat) :
    is_gate b (shift p c i) = is_gate a i := by
  unfold is_gate
  rw [padded_entry p c a b h i]
  show (match shift_data p c (entry a i).data with
    | node_data.gate _ _ => true
    | _ => false) = _
  cases (entry a i).data <;> rfl

theorem padded_is_gate_gap (p c : Nat) (a b : Ntk) (h : padded p c a b) (j : Nat)
    (h1 : p ≤ j) (h2 : j < p + c) : is_gate b j = false := by
  unfold is_gate
  rw [padded_entry_gap p c a b h j h1 h2]
  rfl

theorem padded_journal (p c : Nat) (a b : Ntk) (h : padded p c a b) (ja jb : List call) :
    padded p c { a with journal := ja } { b with journal := jb } := h

theorem padded_refl (p : Nat) (a : Ntk) (h : p ≤ a.nodes.length) : padded p 0 a a := by
  refine ⟨h, ?_, ?_⟩
  · apply pad_nodes_ext p 0 a.nodes a.nodes h
    · intro i
      rw [shift_zero]
      cases a.nodes[i]? with
      | none => rfl
      | some e => simp [shift_entry_zero]
    · intro j h1 h2
      omega
  · have : shift_signal p 0 = id := funext fun x => shift_signal_zero p x
    rw [this, List.map_id]

theorem padded_trans (p c1 c2 : Nat) (a b d : Ntk) (h1 : padded p c1 a b)
    (h2 : padded p c2 b d) : padded p (c1 + c2) a d := by
  refine ⟨h1.1, ?_, ?_⟩
  · apply pad_nodes_ext p (c1 + c2) a.nodes d.nodes h1.1
    · intro i
      rw [← shift_comp, h2.2.1, pad_nodes_shift p c2 b.nodes h2.1, h1.2.1,
        pad_nodes_shift p c1 a.nodes h1.1]
      cases a.nodes[i]? with
      | none => rfl
      | some e => simp [shift_entry_comp]
    · intro j hj1 hj2
      rw [h2.2.1]
      by_cases hj : j < p + c2
      · exact pad_nodes_gap p c2 b.nodes h2.1 j hj1 hj
      · have hk : shift p c2 (j - c2) = j := by
          rw [shift_of_ge p c2 (j - c2) (by omega)]
          omega
        rw [← hk, pad_nodes_shift p c2 b.nodes h2.1, h1.2.1,
          pad_nodes_gap p c1 a.nodes h1.1 (j - c2) (by omega) (by omega)]
        rfl
  · rw [h2.2.2, h1.2.2, List.map_map]
    congr 1
    funext x
    exact shift_signal_comp p c1 c2 x

/-! ## Padding: classification and gate creation -/

theorem foldl_shift {τ : Type} (fa fb : τ → signal → τ) (m : τ → τ) (sh : signal → signal)
    (h : ∀ st x, fb (m st) (sh x) = m (fa st x)) (l : List signal) (st : τ) :
    (l.map sh).foldl fb (m st) = m (l.foldl fa st) := by
  induction l generalizing st with
  | nil => rfl
  | cons x rest ih =>
    simp only [List.map_cons, List.foldl_cons]
    rw [h, ih]

theorem padded_associativity_grandchild (p c : Nat) (a b : Ntk) (h : padded p c a b)
    (st : associativity_sets) (x : signal) :
    associativity_grandchild b (shift_associativity_sets p c st) (shift_signal p c x) =
      shift_associativity_sets p c (associativity_grandchild a st x) := by
  unfold associativity_grandchild get_node
  rw [shift_signal_index, padded_crit p c a b h]
  by_cases hc : is_on_critical_path a x.index = true
  · simp [hc, shift_associativity_sets]
  · simp [hc, shift_associativity_sets]

theorem padded_associativity_child (p c : Nat) (a b : Ntk) (h : padded p c a b)
    (st : associativity_sets) (x : signal) :
    associativity_child b (shift_associativity_sets p c st) (shift_signal p c x) =
      shift_associativity_sets p c (associativity_child a st x) := by
  unfold associativity_child get_node is_complemented
  rw [shift_signal_index, shift_signal_complement, padded_crit p c a b h,
    padded_foreach_fanin p c a b h, padded_level p c a b h]
  by_cases hc : (is_on_critical_path a x.index && !x.complement) = true
  · simp only [hc, if_true]
    exact foldl_shift _ _ _ _ (padded_associativity_grandchild p c a b h) _ _
  · simp [hc, shift_associativity_sets]

theorem padded_associativity_classify (p c : Nat) (a b : Ntk) (h : padded p c a b) (n : Nat) :
    associativity_classify b (shift p c n) =
      shift_associativity_sets p c (associativity_classify a n) := by
  unfold associativity_classify
  rw [padded_foreach_fanin p c a b h]
  exact foldl_shift _ _ _ _ (padded_associativity_child p c a b h) _ ⟨[], [], none⟩

theorem padded_distributivity_grandchild (p c : Nat) (a b : Ntk) (h : padded p c a b)
    (st : distributivity_sets) (x : signal) :
    distributivity_grandchild b (shift_distributivity_sets p c st) (shift_signal p c x) =
      shift_distributivity_sets p c (distributivity_grandchild a st x) := by
  unfold distributivity_grandchild get_node
  rw [shift_signal_index, padded_crit p c a b h]
  by_cases hc : is_on_critical_path a x.index = true
  · simp [hc, shift_distributivity_sets]
  · simp [hc, shift_distributivity_sets]

theorem padded_distributivity_child (p c : Nat) (a b : Ntk) (h : padded p c a b)
    (st : distributivity_sets) (x : signal) :
    distributivity_child b (shift_distributivity_sets p c st) (shift_signal p c x) =
      shift_distributivity_sets p c (distributivity_child a st x) := by
  unfold distributivity_child get_node is_complemented
  rw [shift_signal_index, shift_signal_complement, padded_crit p c a b h,
    padded_foreach_fanin p c a b h]
  by_cases hc : (is_on_critical_path a x.index && x.complement) = true
  · simp only [hc, if_true]
    exact foldl_shift _ _ _ _ (padded_distributivity_grandchild p c a b h) _ _
  · simp [hc]

theorem padded_distributivity_classify (p c : Nat) (a b : Ntk) (h : padded p c a b) (n : Nat) :
    distributivity_classify b (shift p c n) =
      shift_distributivity_sets p c (distributivity_classify a n) := by
  unfold distributivity_classify
  rw [padded_foreach_fanin p c a b h]
  exact foldl_shift _ _ _ _ (padded_distributivity_child p c a b h) _ ⟨[], []⟩

theorem padded_three_layer_granderchild (p c : Nat) (a b : Ntk) (h : padded p c a b)
    (st : three_layer_sets) (x : signal) :
    three_layer_granderchild b (shift_three_layer_sets p c st) (shift_signal p c x) =
      shift_three_layer_sets p c (three_layer_granderchild a st x) := by
  unfold three_layer_granderchild get_node
  rw [shift_signal_index, padded_crit p c a b h]
  by_cases hc : is_on_critical_path a x.index = true
  · simp [hc, shift_three_layer_sets]
  · simp [hc, shift_three_layer_sets]

theorem padded_three_layer_grandchild (p c : Nat) (a b : Ntk) (h : padded p c a b)
    (st : three_layer_sets) (x : signal) :
    three_layer_grandchild b (shift_three_layer_sets p c st) (shift_signal p c x) =
      shift_three_layer_sets p c (three_layer_grandchild a st x) := by
  unfold three_layer_grandchild get_node is_complemented
  rw [shift_signal_index, shift_signal_complement, padded_crit p c a b h,
    padded_foreach_fanin p c a b h]
  by_cases hc : (is_on_critical_path a x.index && x.complement) = true
  · simp only [hc, if_true]
    rw [← foldl_shift _ _ _ _ (padded_three_layer_granderchild p c a b h) _
      { st with criticalGrandChildren := st.criticalGrandChildren ++ [x] }]
    simp [shift_three_layer_sets]
  · simp [hc, shift_three_layer_sets]

theorem padded_three_layer_child (p c : Nat) (a b : Ntk) (h : padded p c a b)
    (st : three_layer_sets) (x : signal) :
    three_layer_child b (shift_three_layer_sets p c st) (shift_signal p c x) =
      shift_three_layer_sets p c (three_layer_child a st x) := by
  unfold three_layer_child get_node is_complemented
  rw [shift_signal_index, shift_signal_complement, padded_crit p c a b h,
    padded_foreach_fanin p c a b h]
  by_cases hc : (is_on_critical_path a x.index && x.complement) = true
  · simp only [hc, if_true]
    rw [← foldl_shift _ _ _ _ (padded_three_layer_grandchild p c a b h) _
      { st with criticalChildren := st.criticalChildren ++ [x] }]
    simp [shift_three_layer_sets]
  · simp [hc, shift_three_layer_sets]

theorem padded_three_layer_classify (p c : Nat) (a b : Ntk) (h : padded p c a b) (n : Nat) :
    three_layer_classify b (shift p c n) =
      shift_three_layer_sets p c (three_layer_classify a n) := by
  unfold three_layer_classify
  rw [padded_foreach_fanin p c a b h]
  exact foldl_shift _ _ _ _ (padded_three_layer_child p c a b h) _ ⟨[], [], [], [], [], []⟩

/-! ## Padding: structural hashing and `create_and` -/

theorem same_fanins_shift (p c : Nat) (d : node_data) (x y : signal) :
    same_fanins (shift_data p c d) (shift_signal p c x) (shift_signal p c y) =
      same_fanins d x y := by
  cases d <;> simp [same_fanins, shift_data, shift_signal_inj]

theorem strash_find_append (l1 l2 : List node_entry) (x y : signal) (i : Nat) :
    strash_find (l1 ++ l2) x y i =
      (strash_find l1 x y i).or (strash_find l2 x y (i + l1.length)) := by
  induction l1 generalizing i with
  | nil => simp [strash_find]
  | cons e rest ih =>
    simp only [List.cons_append, strash_find, List.length_cons]
    by_cases h : same_fanins e.data x y = true
    · simp [h]
    · simp only [h, Bool.false_eq_true, if_false]
      rw [show rest.append l2 = rest ++ l2 from rfl, ih]
      congr 2
      omega

theorem strash_find_map_shift (p c : Nat) (l : List node_entry) (x y : signal) (i : Nat) :
    strash_find (l.map (shift_entry p c)) (shift_signal p c x) (shift_signal p c y) i =
      strash_find l x y i := by
  induction l generalizing i with
  | nil => rfl
  | cons e rest ih =>
    simp only [List.map_cons, strash_find]
    have : (shift_entry p c e).data = shift_data p c e.data := rfl
    rw [this, same_fanins_shift, ih]

theorem strash_find_replicate_dead (c : Nat) (x y : signal) (i : Nat) :
    strash_find (List.replicate c dead_entry) x y i = none := by
  induction c generalizing i with
  | zero => rfl
  | succ c ih =>
    simp only [List.replicate_succ, strash_find]
    have : same_fanins dead_entry.data x y = false := rfl
    simp [this, ih]

theorem strash_find_offset (l : List node_entry) (x y : signal) (i k : Nat) :
    strash_find l x y (i + k) = (strash_find l x y i).map (· + k) := by
  induction l generalizing i with
  | nil => rfl
  | cons e rest ih =>
    simp only [strash_find]
    by_cases h : same_fanins e.data x y = true
    · simp [h]
    · simp only [h, Bool.false_eq_true, if_false]
      have : i + k + 1 = (i + 1) + k := by omega
      rw [this, ih]

theorem strash_find_bounds (l : List node_entry) (x y : signal) (i j : Nat)
    (h : strash_find l x y i = some j) : i ≤ j ∧ j < i + l.length := by
  induction l generalizing i with
  | nil => simp [strash_find] at h
  | cons e rest ih =>
    simp only [strash_find] at h
    by_cases hs : same_fanins e.data x y = true
    · simp only [hs, if_true, Option.some.injEq] at h
      subst h
      simp
    · simp only [hs, Bool.false_eq_true, if_false] at h
      have := ih (i + 1) h
      simp only [List.length_cons]
      omega

theorem strash_find_pad (p c : Nat) (l : List node_entry) (hp : p ≤ l.length) (x y : signal) :
    strash_find (pad_nodes p c l) (shift_signal p c x) (shift_signal p c y) 0 =
      (strash_find l x y 0).map (shift p c) := by
  have hl : strash_find l x y 0 =
      (strash_find (l.take p) x y 0).or (strash_find (l.drop p) x y p) := by
    conv_lhs => rw [← List.take_append_drop p l]
    rw [strash_find_append]
    simp [List.length_take, Nat.min_eq_left hp]
  unfold pad_nodes
  rw [hl, strash_find_append, strash_find_append, strash_find_map_shift, strash_find_map_shift]
  have hrep : strash_find (List.replicate c dead_entry) (shift_signal p c x)
      (shift_signal p c y) (0 + (List.map (shift_entry p c) (List.take p l)).length) = none :=
    strash_find_replicate_dead c _ _ _
  have hlen : 0 + (List.map (shift_entry p c) (List.take p l) ++
      List.replicate c dead_entry).length = p + c := by
    simp [List.length_take, Nat.min_eq_left hp]
  rw [hlen]
  cases h1 : strash_find (List.take p l) x y 0 with
  | some j =>
    have hb := strash_find_bounds _ _ _ _ _ h1
    simp only [List.length_take, Nat.min_eq_left hp] at hb
    simp [Option.or, shift_of_lt p c j (by omega)]
  | none =>
    rw [hrep] at *
    simp only [Option.or]
    rw [strash_find_offset]
    cases h2 : strash_find (List.drop p l) x y p with
    | none => rfl
    | some j =>
      have hb := strash_find_bounds _ _ _ _ _ h2
      simp [shift_of_ge p c j hb.1]

theorem pad_nodes_append (p c : Nat) (l : List node_entry) (hp : p ≤ l.length)
    (e : node_entry) :
    pad_nodes p c (l ++ [e]) = pad_nodes p c l ++ [shift_entry p c e] := by
  unfold pad_nodes
  rw [List.take_append_of_le_length hp, List.drop_append_of_le_length hp]
  simp

theorem padded_create_and (p c : Nat) (a b : Ntk) (h : padded p c a b) (x y : signal) :
    (create_and b (shift_signal p c x) (shift_signal p c y)).1 =
      shift_signal p c (create_and a x y).1 ∧
    padded p c (create_and a x y).2 (create_and b (shift_signal p c x) (shift_signal p c y)).2 := by
  unfold create_and
  simp only [signal_le_shift]
  have e1 : (if signal_le x y = true then shift_signal p c x else shift_signal p c y) =
      shift_signal p c (if signal_le x y = true then x else y) := by
    split <;> rfl
  have e2 : (if signal_le x y = true then shift_signal p c y else shift_signal p c x) =
      shift_signal p c (if signal_le x y = true then y else x) := by
    split <;> rfl
  rw [e1, e2, h.2.1, strash_find_pad p c a.nodes h.1]
  cases hf : strash_find a.nodes (if signal_le x y = true then x else y)
      (if signal_le x y = true then y else x) 0 with
  | some j =>
    simp only [Option.map_some']
    exact ⟨rfl, h.1, rfl, h.2.2⟩
  | none =>
    simp only [Option.map_none']
    refine ⟨?_, ?_, ?_, h.2.2⟩
    · simp only [shift_signal, length_pad_nodes]
      rw [shift_of_ge p c _ h.1]
    · simp only [List.length_append, List.length_singleton]
      have := h.1
      omega
    · simp only
      rw [pad_nodes_append p c a.nodes h.1]
      congr 2
      simp only [shift_entry, shift_data, node_entry.mk.injEq, true_and, and_true]
      rw [shift_signal_index, shift_signal_index, padded_level p c a b h,
        padded_level p c a b h]

/-! ## Padding: the rules before `substitute_node` -/

theorem padded_create_nand (p c : Nat) (a b : Ntk) (h : padded p c a b) (x y : signal) :
    (create_nand b (shift_signal p c x) (shift_signal p c y)).1 =
      shift_signal p c (create_nand a x y).1 ∧
    padded p c (create_nand a x y).2
      (create_nand b (shift_signal p c x) (shift_signal p c y)).2 := by
  obtain ⟨h1, h2⟩ := padded_create_and p c a b h x y
  unfold create_nand
  simp only
  rw [h1]
  exact ⟨rfl, h2⟩

theorem padded_create_or (p c : Nat) (a b : Ntk) (h : padded p c a b) (x y : signal) :
    (create_or b (shift_signal p c x) (shift_signal p c y)).1 =
      shift_signal p c (create_or a x y).1 ∧
    padded p c (create_or a x y).2
      (create_or b (shift_signal p c x) (shift_signal p c y)).2 := by
  obtain ⟨h1, h2⟩ := padded_create_and p c a b h (create_not x) (create_not y)
  unfold create_or
  simp only
  rw [create_not_shift, create_not_shift, h1]
  exact ⟨rfl, h2⟩

theorem padded_associativity_replacement (p c : Nat) (a b : Ntk) (h : padded p c a b)
    (n : Nat) :
    padded_result p c (associativity_replacement a n)
      (associativity_replacement b (shift p c n)) := by
  unfold associativity_replacement
  rw [padded_crit p c a b h, padded_level p c a b h, padded_associativity_classify p c a b h]
  by_cases hg : (is_on_critical_path a n && decide (level a n > 1)) = true
  · simp only [hg, if_true]
    rcases associativity_classify a n with ⟨cr, nc, lv⟩
    rcases cr with _ | ⟨c0, _ | ⟨c1, cr⟩⟩ <;>
      rcases nc with _ | ⟨n0, _ | ⟨n1, _ | ⟨n2, nc⟩⟩⟩ <;>
      cases lv <;>
      try exact trivial
    rename_i v
    simp only [shift_associativity_sets, List.map_cons, List.map_nil, get_node,
      shift_signal_index]
    simp only [padded_level p c a b h]
    by_cases hv : v < level a c0.index
    · simp only [hv, if_true]
      obtain ⟨h1, h2⟩ := padded_create_and p c a b h n0 n1
      rw [h1]
      exact padded_create_and p c _ _ h2 c0 (create_and a n0 n1).1
    · simp only [hv, if_false]
      exact trivial
  · simp only [hg, Bool.false_eq_true, if_false]
    exact trivial

theorem padded_distributivity_replacement (is_or : Nat → Bool) (p c : Nat) (a b : Ntk)
    (h : padded p c a b) (n : Nat) (his : is_or (shift p c n) = is_or n) :
    padded_result p c (distributivity_replacement is_or a n)
      (distributivity_replacement is_or b (shift p c n)) := by
  unfold distributivity_replacement
  rw [padded_crit p c a b h, padded_level p c a b h, padded_distributivity_classify p c a b h,
    his]
  by_cases hg : (is_on_critical_path a n && decide (level a n > 1)) = true
  · simp only [hg, if_true]
    rcases distributivity_classify a n with ⟨nc, cr⟩
    rcases cr with _ | ⟨s0, _ | ⟨s1, _ | ⟨s2, cr⟩⟩⟩ <;>
      rcases nc with _ | ⟨x, _ | ⟨y, _ | ⟨n2, nc⟩⟩⟩ <;>
      try exact trivial
    simp only [shift_distributivity_sets, List.map_cons, List.map_nil, shift_signal_inj]
    by_cases hs : s0 = s1
    · simp only [hs, if_true]
      obtain ⟨h1, h2⟩ := padded_create_or p c a b h x y
      rw [h1]
      obtain ⟨h3, h4⟩ := padded_create_nand p c _ _ h2 s1 (create_or a x y).1
      refine ⟨?_, h4⟩
      simp only
      rw [h3]
      split <;> rfl
    · simp only [hs, if_false]
      exact trivial
  · simp only [hg, Bool.false_eq_true, if_false]
    exact trivial

theorem padded_three_layer_replacement (p c : Nat) (a b : Ntk) (h : padded p c a b) (n : Nat) :
    padded_result p c (three_layer_replacement a n)
      (three_layer_replacement b (shift p c n)) := by
  unfold three_layer_replacement
  rw [padded_crit p c a b h, padded_three_layer_classify p c a b h]
  by_cases hg : is_on_critical_path a n = true
  · simp only [hg, if_true]
    rcases three_layer_classify a n with ⟨l1, l2, l3, l4, l5, l6⟩
    rcases l1 with _ | ⟨ncc, _ | ⟨x1, l1⟩⟩ <;> try exact trivial
    rcases l2 with _ | ⟨cc, _ | ⟨x2, l2⟩⟩ <;> try exact trivial
    rcases l3 with _ | ⟨ncgc, _ | ⟨x3, l3⟩⟩ <;> try exact trivial
    rcases l4 with _ | ⟨cgc, _ | ⟨x4, l4⟩⟩ <;> try exact trivial
    rcases l5 with _ | ⟨ncggc, _ | ⟨x5, l5⟩⟩ <;> try exact trivial
    rcases l6 with _ | ⟨cggc, _ | ⟨x6, l6⟩⟩ <;> try exact trivial
    simp only [shift_three_layer_sets, List.map_cons, List.map_nil, get_node,
      shift_signal_index]
    simp only [padded_level p c a b h]
    by_cases hs : sub_u32 (level a cc.index) (level a ncc.index) ≥ 2
    · simp only [hs, if_true]
      obtain ⟨h1, h2⟩ := padded_create_and p c a b h ncc ncggc
      rw [h1]
      obtain ⟨h3, h4⟩ := padded_create_and p c _ _ h2 cggc (create_and a ncc ncggc).1
      rw [h3, create_not_shift, create_not_shift]
      obtain ⟨h5, h6⟩ := padded_create_and p c _ _ h4 ncc (create_not ncgc)
      rw [h5, create_not_shift]
      exact padded_create_nand p c _ _ h6 _ _
    · simp only [hs, if_false]
      exact trivial
  · simp only [hg, Bool.false_eq_true, if_false]
    exact trivial

/-! ## Padding: `substitute_node` -/

theorem redirect_shift (p c old : Nat) (new s : signal) :
    redirect (shift p c old) (shift_signal p c new) (shift_signal p c s) =
      shift_signal p c (redirect old new s) := by
  unfold redirect
  simp only [shift_signal_index, shift_inj]
  split <;> rfl

theorem padded_set_data (p c : Nat) (a b : Ntk) (h : padded p c a b) (i : Nat)
    (d : node_data) :
    padded p c (set_data a i d) (set_data b (shift p c i) (shift_data p c d)) := by
  unfold set_data
  refine ⟨by simpa using h.1, ?_, h.2.2⟩
  simp only
  apply pad_nodes_ext p c _ _ (by simpa using h.1)
  · intro k
    rw [List.getElem?_set, List.getElem?_set, padded_entry p c a b h, padded_length p c a b h]
    have hb := h.2.1
    by_cases hik : i = k
    · subst hik
      have hlt : shift p c i < a.nodes.length + c ↔ i < a.nodes.length := by
        have := h.1
        unfold shift
        split_ifs <;> omega
      by_cases hl : i < a.nodes.length
      · simp [hl, hlt.2 hl, shift_entry]
      · simp [hl, mt hlt.1 hl]
    · have hne : ¬ shift p c i = shift p c k := fun e => hik ((shift_inj p c i k).1 e)
      simp only [hik, hne, if_false]
      rw [hb, pad_nodes_shift p c a.nodes h.1]
  · intro j h1 h2
    rw [List.getElem?_set]
    have hne : ¬ shift p c i = j := shift_ne_gap p c i j h1 h2
    simp only [hne, if_false]
    rw [h.2.1, pad_nodes_gap p c a.nodes h.1 j h1 h2]

theorem padded_replace_in_node (p c : Nat) (a b : Ntk) (h : padded p c a b)
    (idx old : Nat) (new : signal) :
    padded p c (replace_in_node a idx old new).1
      (replace_in_node b (shift p c idx) (shift p c old) (shift_signal p c new)).1 ∧
    (replace_in_node b (shift p c idx) (shift p c old) (shift_signal p c new)).2 =
      (replace_in_node a idx old new).2.map (shift_pending p c) := by
  unfold replace_in_node
  rw [padded_entry p c a b h]
  have hsd : ∀ e : node_entry, (shift_entry p c e).data = shift_data p c e.data :=
    fun _ => rfl
  rw [hsd]
  cases hd : (entry a idx).data with
  | gate x y =>
    simp only [shift_data, shift_signal_index, shift_inj, redirect_shift, signal_le_shift]
    by_cases ho : x.index = old ∨ y.index = old
    · simp only [ho, if_true]
      have e1 : (if signal_le (redirect old new x) (redirect old new y) = true
          then shift_signal p c (redirect old new x)
          else shift_signal p c (redirect old new y)) =
          shift_signal p c (if signal_le (redirect old new x) (redirect old new y) = true
            then redirect old new x else redirect old new y) := by
        split <;> rfl
      have e2 : (if signal_le (redirect old new x) (redirect old new y) = true
          then shift_signal p c (redirect old new y)
          else shift_signal p c (redirect old new x)) =
          shift_signal p c (if signal_le (redirect old new x) (redirect old new y) = true
            then redirect old new y else redirect old new x) := by
        split <;> rfl
      rw [e1, e2, h.2.1, strash_find_pad p c a.nodes h.1]
      cases strash_find a.nodes
          (if signal_le (redirect old new x) (redirect old new y) = true
            then redirect old new x else redirect old new y)
          (if signal_le (redirect old new x) (redirect old new y) = true
            then redirect old new y else redirect old new x) 0 with
      | some j => exact ⟨h, rfl⟩
      | none => exact ⟨padded_set_data p c a b h idx _, rfl⟩
    · simp only [ho, if_false]
      exact ⟨h, rfl⟩
  | constant => exact ⟨h, rfl⟩
  | pi => exact ⟨h, rfl⟩
  | dead => exact ⟨h, rfl⟩

theorem padded_replace_in_node_gap (p c : Nat) (a b : Ntk) (h : padded p c a b)
    (j old : Nat) (new : signal) (h1 : p ≤ j) (h2 : j < p + c) :
    replace_in_node b j old new = (b, none) := by
  unfold replace_in_node
  rw [padded_entry_gap p c a b h j h1 h2]
  rfl

/-! ## Padding: the enumeration of handles -/

theorem range_split (p n : Nat) (hp : p ≤ n) :
    List.range n = List.range p ++ List.range' p (n - p) := by
  rw [List.range_eq_range', List.range_eq_range']
  have := List.range'_append_1 0 p (n - p)
  simp only [Nat.zero_add] at this
  rw [this]
  congr 1
  omega

theorem map_shift_range (p c : Nat) : (List.range p).map (shift p c) = List.range p := by
  conv_rhs => rw [← List.map_id (List.range p)]
  apply List.map_congr_left
  intro i hi
  exact shift_of_lt p c i (List.mem_range.1 hi)

theorem map_shift_range' (p c k : Nat) :
    (List.range' p k).map (shift p c) = List.range' (p + c) k := by
  have e : (List.range' p k).map (shift p c) = (List.range' p k).map (fun x => c + x) := by
    apply List.map_congr_left
    intro i hi
    rw [shift_of_ge p c i (List.mem_range'_1.1 hi).1]
    omega
  rw [e, List.map_add_range', Nat.add_comm]

/-- The handles of the padded arena are those of the arena, moved, with the
inserted handles in between. -/
theorem range_pad (p c n : Nat) (hp : p ≤ n) :
    List.range (n + c) = (List.range p).map (shift p c) ++
      (List.range' p c ++ (List.range' p (n - p)).map (shift p c)) := by
  rw [map_shift_range, map_shift_range', List.range'_append_1,
    range_split p (n + c) (by omega)]
  congr 2
  omega

theorem foldl_related {α β : Type} (R : α → β → Prop) (fa : α → Nat → α) (fb : β → Nat → β)
    (sh : Nat → Nat) (h : ∀ x y i, R x y → R (fa x i) (fb y (sh i)))
    (l : List Nat) (x : α) (y : β) (hxy : R x y) :
    R (l.foldl fa x) ((l.map sh).foldl fb y) := by
  induction l generalizing x y with
  | nil => exact hxy
  | cons i rest ih =>
    simp only [List.map_cons, List.foldl_cons]
    exact ih _ _ (h x y i hxy)

theorem foldl_skipped {α β : Type} (R : α → β → Prop) (fb : β → Nat → β) (ok : Nat → Prop)
    (h : ∀ x y i, R x y → ok i → fb y i = y)
    (l : List Nat) (hl : ∀ i, i ∈ l → ok i) (x : α) (y : β) (hxy : R x y) :
    l.foldl fb y = y := by
  induction l with
  | nil => rfl
  | cons i rest ih =>
    simp only [List.foldl_cons]
    rw [h x y i hxy (hl i (List.mem_cons_self _ _))]
    exact ih fun j hj => hl j (List.mem_cons_of_mem _ hj)

/-! ## Padding: the consumer loop -/

theorem padded_rewire_step (p c : Nat) (old : Nat) (new : signal)
    (x y : Ntk × List (Nat × signal)) (i : Nat)
    (h : padded p c x.1 y.1 ∧ y.2 = x.2.map (shift_pending p c)) :
    padded p c (rewire_step old new x i).1
      (rewire_step (shift p c old) (shift_signal p c new) y (shift p c i)).1 ∧
    (rewire_step (shift p c old) (shift_signal p c new) y (shift p c i)).2 =
      (rewire_step old new x i).2.map (shift_pending p c) := by
  obtain ⟨h1, h2⟩ := padded_replace_in_node p c x.1 y.1 h.1 i old new
  unfold rewire_step
  simp only
  refine ⟨h1, ?_⟩
  rw [h2, h.2]
  cases (replace_in_node x.1 i old new).2 <;> rfl

theorem rewire_step_gap (p c : Nat) (old : Nat) (new : signal)
    (x y : Ntk × List (Nat × signal)) (j : Nat)
    (h : padded p c x.1 y.1 ∧ y.2 = x.2.map (shift_pending p c))
    (hj : p ≤ j ∧ j < p + c) : rewire_step old new y j = y := by
  unfold rewire_step
  simp only
  rw [padded_replace_in_node_gap p c x.1 y.1 h.1 j old new hj.1 hj.2]

theorem padded_rewire (p c : Nat) (a b : Ntk) (h : padded p c a b) (old : Nat) (new : signal)
    (pa pb : List (Nat × signal)) (hp : pb = pa.map (shift_pending p c)) :
    padded p c ((List.range a.nodes.length).foldl (rewire_step old new) (a, pa)).1
      ((List.range b.nodes.length).foldl
        (rewire_step (shift p c old) (shift_signal p c new)) (b, pb)).1 ∧
    ((List.range b.nodes.length).foldl
        (rewire_step (shift p c old) (shift_signal p c new)) (b, pb)).2 =
      ((List.range a.nodes.length).foldl (rewire_step old new) (a, pa)).2.map
        (shift_pending p c) := by
  rw [padded_length p c a b h, range_pad p c a.nodes.length h.1]
  conv =>
    congr
    · arg 3
      rw [range_split p a.nodes.length h.1]
    · rhs
      rw [range_split p a.nodes.length h.1]
  simp only [List.foldl_append]
  have s1 := foldl_related
    (fun (x y : Ntk × List (Nat × signal)) =>
      padded p c x.1 y.1 ∧ y.2 = x.2.map (shift_pending p c))
    (rewire_step old new) (rewire_step (shift p c old) (shift_signal p c new)) (shift p c)
    (fun x y i hxy => padded_rewire_step p c old new x y i hxy)
    (List.range p) (a, pa) (b, pb) ⟨h, hp⟩
  have s2 := foldl_skipped
    (fun (x y : Ntk × List (Nat × signal)) =>
      padded p c x.1 y.1 ∧ y.2 = x.2.map (shift_pending p c))
    (rewire_step (shift p c old) (shift_signal p c new)) (fun j => p ≤ j ∧ j < p + c)
    (fun x y j hxy hj => rewire_step_gap p c _ _ x y j hxy hj)
    (List.range' p c) (fun j hj => List.mem_range'_1.1 hj) _ _ s1
  rw [s2]
  exact foldl_related
    (fun (x y : Ntk × List (Nat × signal)) =>
      padded p c x.1 y.1 ∧ y.2 = x.2.map (shift_pending p c))
    (rewire_step old new) (rewire_step (shift p c old) (shift_signal p c new)) (shift p c)
    (fun x y i hxy => padded_rewire_step p c old new x y i hxy)
    (List.range' p (a.nodes.length - p)) _ _ s1

/-! ## Padding: reclaiming nodes -/

theorem fanout_size_eq (ntk : Ntk) (n : Nat) :
    fanout_size ntk n = (ntk.nodes.map (references n)).sum +
      (ntk.outputs.filter fun o => decide (o.index = n)).length := rfl

theorem references_shift (p c n : Nat) (e : node_entry) :
    references (shift p c n) (shift_entry p c e) = references n e := by
  obtain ⟨d, l, k⟩ := e
  cases d <;> simp [references, shift_entry, shift_data, shift_signal_index, shift_inj]

theorem sum_references_pad (p c n : Nat) (l : List node_entry) :
    ((pad_nodes p c l).map (references (shift p c n))).sum = (l.map (references n)).sum := by
  have e : ∀ l1 : List node_entry,
      ((l1.map (shift_entry p c)).map (references (shift p c n))).sum =
        (l1.map (references n)).sum := by
    intro l1
    rw [List.map_map]
    congr 1
    apply List.map_congr_left
    intro x _
    exact references_shift p c n x
  have z : ((List.replicate c dead_entry).map (references (shift p c n))).sum = 0 := by
    rw [List.map_replicate]
    simp [references, dead_entry]
  unfold pad_nodes
  rw [List.map_append, List.map_append, List.sum_append, List.sum_append, e, e, z,
    Nat.add_zero, ← List.sum_append, ← List.map_append, List.take_append_drop]

theorem padded_fanout_size (p c : Nat) (a b : Ntk) (h : padded p c a b) (n : Nat) :
    fanout_size b (shift p c n) = fanout_size a n := by
  rw [fanout_size_eq, fanout_size_eq, h.2.1, sum_references_pad, h.2.2, List.filter_map,
    List.length_map]
  congr 3
  funext o
  simp [Function.comp, shift_signal_index, shift_inj]

theorem take_out_node_nil (fuel : Nat) (ntk : Ntk) : take_out_node fuel ntk [] = ntk := by
  cases fuel <;> rfl

theorem padded_take_out_node (p c : Nat) (fuel : Nat) (a b : Ntk) (h : padded p c a b)
    (l : List Nat) :
    padded p c (take_out_node fuel a l) (take_out_node fuel b (l.map (shift p c))) := by
  induction fuel generalizing a b l with
  | zero => simpa [take_out_node] using h
  | succ fuel ih =>
    cases l with
    | nil => simpa [take_out_node] using h
    | cons n rest =>
      simp only [List.map_cons, take_out_node]
      rw [padded_entry p c a b h]
      have hsd : ∀ e : node_entry, (shift_entry p c e).data = shift_data p c e.data :=
        fun _ => rfl
      rw [hsd]
      cases hd : (entry a n).data with
      | gate x y =>
        simp only [shift_data]
        have h1 : padded p c (set_data a n node_data.dead)
            (set_data b (shift p c n) node_data.dead) :=
          padded_set_data p c a b h n node_data.dead
        have e : List.filter (fun i => decide (fanout_size
              (set_data b (shift p c n) node_data.dead) i = 0))
              [(shift_signal p c x).index, (shift_signal p c y).index] ++
              List.map (shift p c) rest =
            List.map (shift p c) (List.filter (fun i => decide (fanout_size
              (set_data a n node_data.dead) i = 0)) [x.index, y.index] ++ rest) := by
          have e2 : [(shift_signal p c x).index, (shift_signal p c y).index] =
              List.map (shift p c) [x.index, y.index] := rfl
          rw [List.map_append, e2, List.filter_map]
          congr 2
          apply List.filter_congr
          intro i _
          simp [Function.comp, padded_fanout_size p c _ _ h1]
        rw [e]
        exact ih _ _ h1 _
      | constant => exact ih a b h rest
      | pi => exact ih a b h rest
      | dead => exact ih a b h rest

theorem gate_count_set_dead (l : List node_entry) (n : Nat) (e : node_entry) (x y : signal)
    (hn : l[n]? = some e) (he : e.data = node_data.gate x y) :
    gate_count (l.set n { e with data := node_data.dead }) + 1 = gate_count l := by
  induction l generalizing n with
  | nil => simp at hn
  | cons z rest ih =>
    cases n with
    | zero =>
      simp only [List.getElem?_cons_zero, Option.some.injEq] at hn
      subst hn
      simp [gate_count, List.set, List.countP_cons, he]
    | succ n =>
      simp only [List.getElem?_cons_succ] at hn
      have := ih n hn
      simp only [gate_count, List.set, List.countP_cons] at this ⊢
      omega

theorem gate_count_set_data_dead (ntk : Ntk) (n : Nat) (x y : signal)
    (h : (entry ntk n).data = node_data.gate x y) :
    gate_count (set_data ntk n node_data.dead).nodes + 1 = gate_count ntk.nodes := by
  unfold set_data
  simp only
  have hn : ntk.nodes[n]? = some (entry ntk n) := by
    rw [entry_eq] at h ⊢
    cases hh : ntk.nodes[n]? with
    | none =>
      rw [hh] at h
      simp [dead_entry] at h
    | some e => rfl
  exact gate_count_set_dead ntk.nodes n (entry ntk n) x y hn h

/-- With enough fuel the result of `take_out_node` does not depend on the
fuel. -/
theorem take_out_node_fuel (f1 f2 : Nat) (ntk : Ntk) (l : List Nat)
    (h1 : 2 * gate_count ntk.nodes + l.length ≤ f1)
    (h2 : 2 * gate_count ntk.nodes + l.length ≤ f2) :
    take_out_node f1 ntk l = take_out_node f2 ntk l := by
  induction f1 generalizing f2 ntk l with
  | zero =>
    cases l with
    | nil => rw [take_out_node_nil, take_out_node_nil]
    | cons n rest => simp at h1
  | succ f1 ih =>
    cases l with
    | nil => rw [take_out_node_nil, take_out_node_nil]
    | cons n rest =>
      cases f2 with
      | zero => simp at h2
      | succ f2 =>
        simp only [take_out_node]
        simp only [List.length_cons] at h1 h2
        cases hd : (entry ntk n).data with
        | gate x y =>
          simp only
          have hg := gate_count_set_data_dead ntk n x y hd
          have hlen : (List.filter (fun c => decide (fanout_size
              (set_data ntk n node_data.dead) c = 0)) [x.index, y.index]).length ≤ 2 :=
            (List.length_filter_le _ _).trans (by simp)
          apply ih
          · simp only [List.length_append]
            omega
          · simp only [List.length_append]
            omega
        | constant => exact ih f2 ntk rest (by omega) (by omega)
        | pi => exact ih f2 ntk rest (by omega) (by omega)
        | dead => exact ih f2 ntk rest (by omega) (by omega)

theorem gate_count_pad (p c : Nat) (l : List node_entry) :
    gate_count (pad_nodes p c l) = gate_count l := by
  have e : ∀ l1 : List node_entry, gate_count (l1.map (shift_entry p c)) = gate_count l1 := by
    intro l1
    unfold gate_count
    rw [List.countP_map]
    congr 1
    funext x
    obtain ⟨d, lv, k⟩ := x
    cases d <;> rfl
  have z : gate_count (List.replicate c dead_entry) = 0 := by
    unfold gate_count
    rw [List.countP_eq_zero]
    intro x hx
    rw [List.eq_of_mem_replicate hx]
    simp [dead_entry]
  unfold pad_nodes
  unfold gate_count at e z ⊢
  rw [List.countP_append, List.countP_append, e, e, z, Nat.add_zero, ← List.countP_append,
    List.take_append_drop]

theorem gate_count_le (l : List node_entry) : gate_count l ≤ l.length :=
  List.countP_le_length _

theorem substitute_loop_nil (fuel : Nat) (ntk : Ntk) : substitute_loop fuel ntk [] = ntk := by
  cases fuel <;> rfl

theorem substitute_loop_succ (fuel : Nat) (ntk : Ntk) (old : Nat) (new : signal)
    (rest : List (Nat × signal)) :
    substitute_loop (fuel + 1) ntk ((old, new) :: rest) =
      substitute_loop fuel
        (take_out_node
          (3 * ((List.range ntk.nodes.length).foldl (rewire_step old new)
            (ntk, rest)).1.nodes.length + 2)
          { ((List.range ntk.nodes.length).foldl (rewire_step old new) (ntk, rest)).1 with
            outputs := ((List.range ntk.nodes.length).foldl (rewire_step old new)
              (ntk, rest)).1.outputs.map (redirect old new) } [old])
        ((List.range ntk.nodes.length).foldl (rewire_step old new) (ntk, rest)).2 := rfl

/-- A substitution that schedules no merge commutes with the insertion. -/
theorem padded_substitute_node (p c : Nat) (a b : Ntk) (h : padded p c a b) (old : Nat)
    (new : signal) (hplain : substitute_plain a old new) :
    padded p c (substitute_node a old new)
      (substitute_node b (shift p c old) (shift_signal p c new)) ∧
    substitute_plain b (shift p c old) (shift_signal p c new) := by
  unfold substitute_plain at hplain
  obtain ⟨r1, r2⟩ := padded_rewire p c
    { a with journal := call.substitute_node old new :: a.journal }
    { b with journal := call.substitute_node (shift p c old) (shift_signal p c new) ::
        b.journal } h old new [] [] rfl
  simp only at r1 r2 hplain
  rw [hplain] at r2
  simp only [List.map_nil] at r2
  refine ⟨?_, r2⟩
  unfold substitute_node
  rw [substitute_loop_succ, substitute_loop_succ]
  simp only
  rw [hplain, r2, substitute_loop_nil, substitute_loop_nil]
  generalize (List.range a.nodes.length).foldl (rewire_step old new)
    ({ a with journal := call.substitute_node old new :: a.journal }, []) = ra at r1
  generalize (List.range b.nodes.length).foldl
    (rewire_step (shift p c old) (shift_signal p c new))
    ({ b with journal := call.substitute_node (shift p c old) (shift_signal p c new) ::
        b.journal }, []) = rb at r1
  have h3 : padded p c { ra.1 with outputs := ra.1.outputs.map (redirect old new) }
      { rb.1 with
        outputs := rb.1.outputs.map (redirect (shift p c old) (shift_signal p c new)) } := by
    refine ⟨r1.1, r1.2.1, ?_⟩
    simp only
    rw [r1.2.2, List.map_map, List.map_map]
    apply List.map_congr_left
    intro o _
    exact redirect_shift p c old new o
  have hfuel : take_out_node (3 * rb.1.nodes.length + 2)
      { rb.1 with
        outputs := rb.1.outputs.map (redirect (shift p c old) (shift_signal p c new)) } [shift p c old] =
      take_out_node (3 * ra.1.nodes.length + 2)
      { rb.1 with
        outputs := rb.1.outputs.map (redirect (shift p c old) (shift_signal p c new)) } [shift p c old] := by
    apply take_out_node_fuel
    · simp only [List.length_singleton]
      have := gate_count_le rb.1.nodes
      omega
    · simp only [List.length_singleton]
      rw [r1.2.1, gate_count_pad]
      have := gate_count_le ra.1.nodes
      omega
  rw [hfuel]
  exact padded_take_out_node p c _ _ _ h3 [old]

/-! ## Padding: `update_levels` -/

theorem update_levels_eq (ntk : Ntk) :
    update_levels ntk =
      { ntk with
        nodes := Nat.iterate propagate_crit ntk.nodes.length (marked_nodes ntk),
        journal := call.update_levels :: ntk.journal } := rfl

theorem pad_nodes_getD (p c : Nat) (l : List node_entry) (hp : p ≤ l.length) (i : Nat) :
    (pad_nodes p c l).getD (shift p c i) ⟨node_data.dead, 0, false⟩ =
      shift_entry p c (l.getD i ⟨node_data.dead, 0, false⟩) := by
  rw [List.getD_eq_getElem?_getD, List.getD_eq_getElem?_getD, pad_nodes_shift p c l hp i]
  cases l[i]? <;> rfl

theorem pad_nodes_map (p c : Nat) (f : node_entry → node_entry)
    (hf : ∀ e, f (shift_entry p c e) = shift_entry p c (f e)) (hd : f dead_entry = dead_entry)
    (l : List node_entry) : (pad_nodes p c l).map f = pad_nodes p c (l.map f) := by
  unfold pad_nodes
  simp only [List.map_append, List.map_map, List.map_replicate, hd, List.map_take,
    List.map_drop]
  have : f ∘ shift_entry p c = shift_entry p c ∘ f := funext hf
  rw [this]

theorem length_relax_levels (l : List node_entry) : (relax_levels l).length = l.length := by
  unfold relax_levels
  rw [List.length_map]

theorem length_iterate_relax (k : Nat) (l : List node_entry) :
    (Nat.iterate relax_levels k l).length = l.length := by
  induction k generalizing l with
  | zero => rfl
  | succ k ih =>
    rw [Function.iterate_succ_apply, ih, length_relax_levels]

theorem relax_levels_pad (p c : Nat) (l : List node_entry) (hp : p ≤ l.length) :
    relax_levels (pad_nodes p c l) = pad_nodes p c (relax_levels l) := by
  apply pad_nodes_ext p c _ _ (by rw [length_relax_levels]; exact hp)
  · intro i
    unfold relax_levels
    rw [List.getElem?_map, List.getElem?_map, pad_nodes_shift p c l hp i]
    cases l[i]? with
    | none => rfl
    | some e =>
      simp only [Option.map_some', Option.some.injEq]
      obtain ⟨d, lv, k⟩ := e
      cases d with
      | gate x y =>
        simp only [shift_entry, shift_data, shift_signal_index]
        rw [pad_nodes_getD p c l hp, pad_nodes_getD p c l hp]
        rfl
      | constant => rfl
      | pi => rfl
      | dead => rfl
  · intro j h1 h2
    unfold relax_levels
    rw [List.getElem?_map, pad_nodes_gap p c l hp j h1 h2]
    rfl

theorem iterate_relax_pad (p c k : Nat) (l : List node_entry) (hp : p ≤ l.length) :
    Nat.iterate relax_levels k (pad_nodes p c l) =
      pad_nodes p c (Nat.iterate relax_levels k l) := by
  induction k generalizing l with
  | zero => rfl
  | succ k ih =>
    rw [Function.iterate_succ_apply, Function.iterate_succ_apply, relax_levels_pad p c l hp,
      ih _ (by rw [length_relax_levels]; exact hp)]

theorem length_levelled_nodes (ntk : Ntk) : (levelled_nodes ntk).length = ntk.nodes.length := by
  unfold levelled_nodes
  rw [length_iterate_relax, List.length_map]

theorem padded_levelled_nodes (p c : Nat) (a b : Ntk) (h : padded p c a b)
    (hfix : relax_levels (levelled_nodes a) = levelled_nodes a) :
    levelled_nodes b = pad_nodes p c (levelled_nodes a) := by
  unfold levelled_nodes at hfix ⊢
  rw [padded_length p c a b h, h.2.1,
    pad_nodes_map p c (fun e => ({ e with level := 0, crit := false } : node_entry))
      (fun e => rfl) rfl a.nodes,
    iterate_relax_pad p c _ _ (by rw [List.length_map]; exact h.1),
    Nat.add_comm, Function.iterate_add_apply, Function.iterate_fixed hfix]

theorem padded_depth (p c : Nat) (a b : Ntk) (h : padded p c a b) : depth b = depth a := by
  unfold depth
  rw [h.2.2, List.map_map]
  congr 1
  apply List.map_congr_left
  intro o _
  exact padded_level p c a b h o.index

theorem getElem?_map_indexed (f : Nat → node_entry → node_entry) (l : List node_entry)
    (i k : Nat) : (map_indexed f l i)[k]? = l[k]?.map (f (i + k)) := by
  induction l generalizing i k with
  | nil => simp [map_indexed]
  | cons e rest ih =>
    cases k with
    | zero => simp [map_indexed]
    | succ k =>
      simp only [map_indexed, List.getElem?_cons_succ]
      rw [ih, show i + 1 + k = i + (k + 1) by omega]

theorem length_map_indexed (f : Nat → node_entry → node_entry) (l : List node_entry)
    (i : Nat) : (map_indexed f l i).length = l.length := by
  induction l generalizing i with
  | nil => rfl
  | cons e rest ih => simp [map_indexed, ih]

theorem any_output_shift (p c : Nat) (outs : List signal) (i : Nat) :
    ((outs.map (shift_signal p c)).any fun o => decide (o.index = shift p c i)) =
      outs.any fun o => decide (o.index = i) := by
  rw [List.any_map]
  congr 1
  funext o
  simp [Function.comp, shift_signal_index, shift_inj]

theorem any_output_gap (p c : Nat) (outs : List signal) (j : Nat) (h1 : p ≤ j)
    (h2 : j < p + c) :
    ((outs.map (shift_signal p c)).any fun o => decide (o.index = j)) = false := by
  rw [List.any_map, List.any_eq_false]
  intro o _
  simp [Function.comp, shift_signal_index, shift_ne_gap p c o.index j h1 h2]

theorem length_marked_nodes (ntk : Ntk) : (marked_nodes ntk).length = ntk.nodes.length := by
  unfold marked_nodes
  rw [length_map_indexed, length_levelled_nodes]

theorem padded_marked_nodes (p c : Nat) (a b : Ntk) (h : padded p c a b)
    (hfix : relax_levels (levelled_nodes a) = levelled_nodes a) :
    marked_nodes b = pad_nodes p c (marked_nodes a) := by
  have hl := padded_levelled_nodes p c a b h hfix
  have hpl : p ≤ (levelled_nodes a).length := by
    rw [length_levelled_nodes]
    exact h.1
  have hd : depth { b with nodes := levelled_nodes b } =
      depth { a with nodes := levelled_nodes a } :=
    padded_depth p c _ _ ⟨hpl, hl, h.2.2⟩
  apply pad_nodes_ext p c _ _ (by rw [length_marked_nodes]; exact h.1)
  · intro i
    unfold marked_nodes
    rw [getElem?_map_indexed, getElem?_map_indexed, hd, hl, pad_nodes_shift p c _ hpl i,
      h.2.2, Nat.zero_add, Nat.zero_add, any_output_shift]
    cases (levelled_nodes a)[i]? <;> rfl
  · intro j h1 h2
    unfold marked_nodes
    rw [getElem?_map_indexed, hl, pad_nodes_gap p c _ hpl j h1 h2, h.2.2, Nat.zero_add,
      any_output_gap p c _ j h1 h2]
    rfl

theorem propagate_crit_eq (nodes : List node_entry) :
    propagate_crit nodes =
      map_indexed (fun i e => { e with crit := e.crit || nodes.any (feeds i e.level) })
        nodes 0 := rfl

theorem feeds_shift (p c i lv : Nat) (g : node_entry) :
    feeds (shift p c i) lv (shift_entry p c g) = feeds i lv g := by
  obtain ⟨d, l, k⟩ := g
  cases d <;> simp [feeds, shift_entry, shift_data, shift_signal_index, shift_inj]

theorem feeds_gap (p c j lv : Nat) (g : node_entry) (h1 : p ≤ j) (h2 : j < p + c) :
    feeds j lv (shift_entry p c g) = false := by
  obtain ⟨d, l, k⟩ := g
  cases d <;>
    simp [feeds, shift_entry, shift_data, shift_signal_index, shift_ne_gap p c _ j h1 h2]

theorem any_feeds_dead (c i lv : Nat) :
    (List.replicate c dead_entry).any (feeds i lv) = false := by
  rw [List.any_eq_false]
  intro x hx
  rw [List.eq_of_mem_replicate hx]
  simp [feeds, dead_entry]

theorem any_feeds_pad (p c i lv : Nat) (l : List node_entry) :
    (pad_nodes p c l).any (feeds (shift p c i) lv) = l.any (feeds i lv) := by
  have e : ∀ l1 : List node_entry,
      (l1.map (shift_entry p c)).any (feeds (shift p c i) lv) = l1.any (feeds i lv) := by
    intro l1
    rw [List.any_map]
    congr 1
    funext g
    exact feeds_shift p c i lv g
  unfold pad_nodes
  rw [List.any_append, List.any_append, e, e, any_feeds_dead, Bool.or_false,
    ← List.any_append, List.take_append_drop]

theorem any_feeds_pad_gap (p c j lv : Nat) (l : List node_entry) (h1 : p ≤ j)
    (h2 : j < p + c) : (pad_nodes p c l).any (feeds j lv) = false := by
  have e : ∀ l1 : List node_entry,
      (l1.map (shift_entry p c)).any (feeds j lv) = false := by
    intro l1
    rw [List.any_map, List.any_eq_false]
    intro g _
    simp [Function.comp, feeds_gap p c j lv g h1 h2]
  unfold pad_nodes
  rw [List.any_append, List.any_append, e, e, any_feeds_dead]
  rfl

theorem length_propagate_crit (l : List node_entry) : (propagate_crit l).length = l.length := by
  rw [propagate_crit_eq, length_map_indexed]

theorem propagate_crit_pad (p c : Nat) (l : List node_entry) (hp : p ≤ l.length) :
    propagate_crit (pad_nodes p c l) = pad_nodes p c (propagate_crit l) := by
  apply pad_nodes_ext p c _ _ (by rw [length_propagate_crit]; exact hp)
  · intro i
    rw [propagate_crit_eq, propagate_crit_eq, getElem?_map_indexed, getElem?_map_indexed,
      pad_nodes_shift p c l hp i, Nat.zero_add, Nat.zero_add]
    cases l[i]? with
    | none => rfl
    | some e =>
      simp only [Option.map_some', Option.some.injEq]
      have hl : (shift_entry p c e).level = e.level := rfl
      have hc : (shift_entry p c e).crit = e.crit := rfl
      rw [hl, hc, any_feeds_pad]
      rfl
  · intro j h1 h2
    rw [propagate_crit_eq, getElem?_map_indexed, pad_nodes_gap p c l hp j h1 h2, Nat.zero_add]
    simp only [Option.map_some', Option.some.injEq]
    rw [any_feeds_pad_gap p c j _ l h1 h2]
    rfl

theorem length_iterate_propagate (k : Nat) (l : List node_entry) :
    (Nat.iterate propagate_crit k l).length = l.length := by
  induction k generalizing l with
  | zero => rfl
  | succ k ih =>
    rw [Function.iterate_succ_apply, ih, length_propagate_crit]

theorem iterate_propagate_pad (p c k : Nat) (l : List node_entry) (hp : p ≤ l.length) :
    Nat.iterate propagate_crit k (pad_nodes p c l) =
      pad_nodes p c (Nat.iterate propagate_crit k l) := by
  induction k generalizing l with
  | zero => rfl
  | succ k ih =>
    rw [Function.iterate_succ_apply, Function.iterate_succ_apply,
      propagate_crit_pad p c l hp, ih _ (by rw [length_propagate_crit]; exact hp)]

/-- When its rounds have reached their fixed points, `update_levels` commutes
with the insertion. -/
theorem padded_update_levels (p c : Nat) (a b : Ntk) (h : padded p c a b)
    (hs : update_levels_settles a) : padded p c (update_levels a) (update_levels b) := by
  have hm := padded_marked_nodes p c a b h hs.1
  rw [update_levels_eq, update_levels_eq]
  refine ⟨?_, ?_, h.2.2⟩
  · simp only
    rw [length_iterate_propagate, length_marked_nodes]
    exact h.1
  · simp only
    rw [padded_length p c a b h, hm,
      iterate_propagate_pad p c _ _ (by rw [length_marked_nodes]; exact h.1),
      Nat.add_comm, Function.iterate_add_apply, Function.iterate_fixed hs.2]

/-! ## Padding: the rules and the pass -/

theorem padded_try_rule (p c : Nat) (n : Nat) (ra rb : Option (signal × Ntk)) (a b : Ntk)
    (h : padded p c a b) (hr : padded_result p c ra rb) (hp : replacement_plain n ra) :
    (match rb with
      | some (subNode, ntk1) => (true, substitute_node ntk1 (shift p c n) subNode)
      | none => (false, b)).1 =
    (match ra with
      | some (subNode, ntk1) => (true, substitute_node ntk1 n subNode)
      | none => (false, a)).1 ∧
    padded p c
      (match ra with
        | some (subNode, ntk1) => (true, substitute_node ntk1 n subNode)
        | none => (false, a)).2
      (match rb with
        | some (subNode, ntk1) => (true, substitute_node ntk1 (shift p c n) subNode)
        | none => (false, b)).2 := by
  cases ra with
  | none =>
    cases rb with
    | none => exact ⟨rfl, h⟩
    | some y => exact absurd hr (by simp [padded_result])
  | some x =>
    cases rb with
    | none => exact absurd hr (by simp [padded_result])
    | some y =>
      obtain ⟨xs, xn⟩ := x
      obtain ⟨ys, yn⟩ := y
      simp only [padded_result] at hr
      obtain ⟨h1, h2⟩ := hr
      subst h1
      exact ⟨rfl, (padded_substitute_node p c xn yn h2 n xs hp).1⟩

theorem padded_try_associativity (p c : Nat) (a b : Ntk) (h : padded p c a b) (n : Nat)
    (hp : replacement_plain n (associativity_replacement a n)) :
    (try_associativity b (shift p c n)).1 = (try_associativity a n).1 ∧
    padded p c (try_associativity a n).2 (try_associativity b (shift p c n)).2 :=
  padded_try_rule p c n _ _ a b h (padded_associativity_replacement p c a b h n) hp

theorem padded_try_distributivity (is_or : Nat → Bool) (p c : Nat) (a b : Ntk)
    (h : padded p c a b) (n : Nat) (his : is_or (shift p c n) = is_or n)
    (hp : replacement_plain n (distributivity_replacement is_or a n)) :
    (try_distributivity is_or b (shift p c n)).1 = (try_distributivity is_or a n).1 ∧
    padded p c (try_distributivity is_or a n).2 (try_distributivity is_or b (shift p c n)).2 :=
  padded_try_rule p c n _ _ a b h (padded_distributivity_replacement is_or p c a b h n his) hp

theorem padded_try_three_layer_distributivity (p c : Nat) (a b : Ntk) (h : padded p c a b)
    (n : Nat) (hp : replacement_plain n (three_layer_replacement a n)) :
    (try_three_layer_distributivity b (shift p c n)).1 =
      (try_three_layer_distributivity a n).1 ∧
    padded p c (try_three_layer_distributivity a n).2
      (try_three_layer_distributivity b (shift p c n)).2 :=
  padded_try_rule p c n _ _ a b h (padded_three_layer_replacement p c a b h n) hp

theorem padded_try_algebraic_rules (is_or : Nat → Bool) (p c : Nat) (a b : Ntk)
    (h : padded p c a b) (n : Nat) (his : is_or (shift p c n) = is_or n)
    (hp : rewrite_plain is_or a n) :
    (try_algebraic_rules is_or b (shift p c n)).1 = (try_algebraic_rules is_or a n).1 ∧
    padded p c (try_algebraic_rules is_or a n).2 (try_algebraic_rules is_or b (shift p c n)).2 := by
  obtain ⟨a1, a2⟩ := padded_try_associativity p c a b h n hp.1
  unfold try_algebraic_rules
  simp only
  rw [a1]
  by_cases h1 : (try_associativity a n).1 = true
  · simp only [h1, if_true]
    exact ⟨trivial, a2⟩
  · have h1' : (try_associativity a n).1 = false := by simpa using h1
    have ea := (try_associativity_eq a n).2 h1'
    have eb := (try_associativity_eq b (shift p c n)).2 (a1.trans h1')
    simp only [h1', ea, eb, Bool.false_eq_true, if_false]
    obtain ⟨b1, b2⟩ := padded_try_distributivity is_or p c a b h n his hp.2.1
    rw [b1]
    by_cases h2 : (try_distributivity is_or a n).1 = true
    · simp only [h2, if_true]
      exact ⟨trivial, b2⟩
    · have h2' : (try_distributivity is_or a n).1 = false := by simpa using h2
      have ea2 := (try_distributivity_eq is_or a n).2 h2'
      have eb2 := (try_distributivity_eq is_or b (shift p c n)).2 (b1.trans h2')
      simp only [h2', ea2, eb2, Bool.false_eq_true, if_false]
      obtain ⟨c1, c2⟩ := padded_try_three_layer_distributivity p c a b h n hp.2.2
      rw [c1]
      by_cases h3 : (try_three_layer_distributivity a n).1 = true
      · simp only [h3, if_true]
        exact ⟨trivial, c2⟩
      · simp only [h3, Bool.false_eq_true, if_false]
        exact ⟨trivial, c2⟩

theorem run_pass_cons (is_or : Nat → Bool) (n : Nat) (rest : List Nat) (ntk : Ntk)
    (cont : Bool) :
    run_pass is_or (n :: rest) ntk cont =
      if is_gate ntk n then
        if (try_algebraic_rules is_or
            { ntk with journal := call.try_algebraic_rules n :: ntk.journal } n).1 then
          run_pass is_or rest (update_levels (try_algebraic_rules is_or
            { ntk with journal := call.try_algebraic_rules n :: ntk.journal } n).2) true
        else run_pass is_or rest (try_algebraic_rules is_or
            { ntk with journal := call.try_algebraic_rules n :: ntk.journal } n).2 cont
      else run_pass is_or rest ntk cont := by
  conv_lhs => unfold run_pass

/-- A pass over the padded arena does what the pass over the arena does. -/
theorem padded_run_pass (is_or : Nat → Bool) (p c : Nat)
    (his : ∀ n, is_or (shift p c n) = is_or n) (la lb : List Nat)
    (hl : handles_padded p c la lb) (a b : Ntk) (cont : Bool) (h : padded p c a b)
    (hs : pass_settles is_or la a = true) :
    padded p c (run_pass is_or la a cont).1 (run_pass is_or lb b cont).1 ∧
    (run_pass is_or lb b cont).2 = (run_pass is_or la a cont).2 := by
  induction hl generalizing a b cont with
  | nil => exact ⟨h, rfl⟩
  | live n la lb _ ih =>
    rw [run_pass_cons, run_pass_cons]
    unfold pass_settles at hs
    rw [padded_is_gate p c a b h]
    by_cases hg : is_gate a n = true
    · simp only [hg, if_true, Bool.and_eq_true, decide_eq_true_eq] at hs ⊢
      obtain ⟨t1, t2⟩ := padded_try_algebraic_rules is_or p c
        { a with journal := call.try_algebraic_rules n :: a.journal }
        { b with journal := call.try_algebraic_rules (shift p c n) :: b.journal }
        h n (his n) hs.1
      rw [t1]
      by_cases hf : (try_algebraic_rules is_or
          { a with journal := call.try_algebraic_rules n :: a.journal } n).1 = true
      · simp only [hf, if_true, Bool.and_eq_true, decide_eq_true_eq] at hs ⊢
        exact ih _ _ true (padded_update_levels p c _ _ t2 hs.2.1) hs.2.2
      · simp only [hf, Bool.false_eq_true, if_false] at hs ⊢
        exact ih _ _ cont t2 hs.2
    · simp only [hg, Bool.false_eq_true, if_false] at hs ⊢
      exact ih a b cont h hs
  | gap j la lb h1 h2 _ ih =>
    rw [run_pass_cons, padded_is_gate_gap p c a b h j h1 h2]
    simp only [Bool.false_eq_true, if_false]
    exact ih a b cont h hs

theorem handles_padded_map (p c : Nat) (l : List Nat) :
    handles_padded p c l (l.map (shift p c)) := by
  induction l with
  | nil => exact handles_padded.nil
  | cons n rest ih => exact handles_padded.live n rest _ ih

theorem handles_padded_gap (p c : Nat) (g la lb : List Nat)
    (hg : ∀ j, j ∈ g → p ≤ j ∧ j < p + c) (h : handles_padded p c la lb) :
    handles_padded p c la (g ++ lb) := by
  induction g with
  | nil => exact h
  | cons j rest ih =>
    exact handles_padded.gap j la _ (hg j (List.mem_cons_self _ _)).1
      (hg j (List.mem_cons_self _ _)).2 (ih fun k hk => hg k (List.mem_cons_of_mem _ hk))

theorem handles_padded_live_append (p c : Nat) (l la lb : List Nat)
    (h : handles_padded p c la lb) :
    handles_padded p c (l ++ la) (l.map (shift p c) ++ lb) := by
  induction l with
  | nil => exact h
  | cons n rest ih => exact handles_padded.live n _ _ ih

theorem handles_padded_range (p c n : Nat) (hp : p ≤ n) :
    handles_padded p c (List.range n) (List.range (n + c)) := by
  rw [range_pad p c n hp]
  conv =>
    arg 3
    rw [range_split p n hp]
  exact handles_padded_live_append p c _ _ _
    (handles_padded_gap p c _ _ _ (fun j hj => List.mem_range'_1.1 hj)
      (handles_padded_map p c _))

/-- One pass of `run` over the padded network. -/
theorem padded_pass (is_or : Nat → Bool) (p c : Nat)
    (his : ∀ n, is_or (shift p c n) = is_or n) (a b : Ntk) (h : padded p c a b)
    (ja jb : List call)
    (hs : pass_settles is_or (List.range a.nodes.length) { a with journal := ja } = true) :
    padded p c
      (run_pass is_or (List.range a.nodes.length) { a with journal := ja } false).1
      (run_pass is_or (List.range b.nodes.length) { b with journal := jb } false).1 ∧
    (run_pass is_or (List.range b.nodes.length) { b with journal := jb } false).2 =
      (run_pass is_or (List.range a.nodes.length) { a with journal := ja } false).2 := by
  rw [padded_length p c a b h]
  exact padded_run_pass is_or p c his _ _ (handles_padded_range p c a.nodes.length h.1)
    { a with journal := ja } { b with journal := jb } false h hs

/-! ## The run on `loop_example` -/

theorem aig_is_or_shift (p c n : Nat) : aig_is_or (shift p c n) = aig_is_or n := rfl

set_option maxRecDepth 100000 in
theorem loop_example_first_pass :
    pass_settles aig_is_or (List.range 17)
      { loop_example with journal := [call.foreach_gate] } = true ∧
    (run_pass aig_is_or (List.range 17)
      { loop_example with journal := [call.foreach_gate] } false).2 = true ∧
    (run_pass aig_is_or (List.range 17)
      { loop_example with journal := [call.foreach_gate] } false).1.nodes =
      loop_example_rewritten.nodes ∧
    (run_pass aig_is_or (List.range 17)
      { loop_example with journal := [call.foreach_gate] } false).1.outputs =
      loop_example_rewritten.outputs := by
  decide!

set_option maxRecDepth 100000 in
theorem loop_example_second_pass :
    pass_settles aig_is_or (List.range 21)
      { loop_example_rewritten with journal := [call.foreach_gate] } = true ∧
    (run_pass aig_is_or (List.range 21)
      { loop_example_rewritten with journal := [call.foreach_gate] } false).2 = true ∧
    padded 16 6 loop_example
      (run_pass aig_is_or (List.range 21)
        { loop_example_rewritten with journal := [call.foreach_gate] } false).1 := by
  decide!

theorem padded_congr (p c : Nat) (a a1 b : Ntk) (hn : a.nodes = a1.nodes)
    (ho : a.outputs = a1.outputs) (h : padded p c a b) : padded p c a1 b := by
  unfold padded at h ⊢
  rw [← hn, ← ho]
  exact h

theorem run_succ (is_or : Nat → Bool) (fuel : Nat) (ntk : Ntk) :
    run is_or (fuel + 1) ntk =
      if (run_pass is_or (List.range ntk.nodes.length)
          { ntk with journal := call.foreach_gate :: ntk.journal } false).2 then
        run is_or fuel (run_pass is_or (List.range ntk.nodes.length)
          { ntk with journal := call.foreach_gate :: ntk.journal } false).1
      else some (run_pass is_or (List.range ntk.nodes.length)
          { ntk with journal := call.foreach_gate :: ntk.journal } false).1 := rfl

/-- From `loop_example` with dead slots inserted at handle 16, and from the
network one pass later, `run` does not return, whatever the number of passes
it is given. -/
theorem loop_example_runs_on (fuel : Nat) (x : Ntk)
    (h : (∃ c, padded 16 c loop_example x) ∨ (∃ c, padded 16 c loop_example_rewritten x)) :
    run aig_is_or fuel x = none := by
  induction fuel generalizing x with
  | zero => rfl
  | succ fuel ih =>
    rw [run_succ]
    rcases h with ⟨c, hc⟩ | ⟨c, hc⟩
    · obtain ⟨q1, q2, q3, q4⟩ := loop_example_first_pass
      obtain ⟨p1, p2⟩ := padded_pass aig_is_or 16 c (aig_is_or_shift 16 c) loop_example x hc
        [call.foreach_gate] (call.foreach_gate :: x.journal) q1
      rw [p2]
      have hflag : (run_pass aig_is_or (List.range loop_example.nodes.length)
          { loop_example with journal := [call.foreach_gate] } false).2 = true := q2
      rw [hflag]
      simp only [if_true]
      exact ih _ (Or.inr ⟨c, padded_congr 16 c _ _ _ q3 q4 p1⟩)
    · obtain ⟨q1, q2, q3⟩ := loop_example_second_pass
      obtain ⟨p1, p2⟩ := padded_pass aig_is_or 16 c (aig_is_or_shift 16 c)
        loop_example_rewritten x hc
        [call.foreach_gate] (call.foreach_gate :: x.journal) q1
      rw [p2]
      have hflag : (run_pass aig_is_or (List.range loop_example_rewritten.nodes.length)
          { loop_example_rewritten with journal := [call.foreach_gate] } false).2 = true := q2
      rw [hflag]
      simp only [if_true]
      exact ih _ (Or.inl ⟨6 + c, padded_trans 16 6 c _ _ _ q3 p1⟩)

set_option maxRecDepth 100000 in
theorem loop_example_consistent :
    consistent loop_example ∧ (update_levels loop_example).nodes = loop_example.nodes ∧
    depth loop_example = 5 ∧ depth loop_example_rewritten = 7 := by
  decide!

/-- The trace of `try_associativity` on gate `7` of `continue_example`, oldest
event first: the guard, the direct fanin `4` with its level, the descended
fanin `6` with its two fanins, the level of the critical grandchild `5`, the
two gate creations and the substitution. -/
theorem continue_example_trace :
    (try_associativity_traced ⟨continue_example, []⟩ 7).2.trace.reverse =
      [event.is_on_critical_path 7, event.level 7,
        event.is_on_critical_path 4, event.level 4,
        event.is_on_critical_path 6, event.is_on_critical_path 3, event.is_on_critical_path 5,
        event.level 5,
        event.store (call.create_and ⟨4, false⟩ ⟨3, false⟩),
        event.store (call.create_and ⟨5, false⟩ ⟨9, false⟩),
        event.store (call.substitute_node 7 ⟨10, false⟩)] := by
  decide

/-! ## Properties of the engine -/

/-- C1. Associativity preserves the function: when `try_associativity` returns
true on `n`, the signal `subNode = AND(critical[0], AND(noncritical[0],
noncritical[1]))` it passes to `substitute_node` has, in the network where its
gates were created, the same value as node `n` under every input assignment. -/
theorem associativity_preserves_function (ntk : Ntk) (n : Nat)
    (hfire : (try_associativity ntk n).1 = true) :
    ∃ subNode ntk1 c0 n0 n1,
      (associativity_classify ntk n).critical = [c0] ∧
      (associativity_classify ntk n).noncritical = [n0, n1] ∧
      (subNode, ntk1) = create_and (create_and ntk n0 n1).2 c0 (create_and ntk n0 n1).1 ∧
      try_associativity ntk n = (true, substitute_node ntk1 n subNode) ∧
      ∀ assignment val : Nat → Bool, simulates ntk1 assignment val →
        signal_value val subNode = val n := by
  obtain ⟨⟨subNode, ntk1⟩, hsub⟩ := try_associativity_fires ntk n hfire
  obtain ⟨c0, n0, n1, l, -, -, hcl, -, hr⟩ := associativity_replacement_some ntk n _ hsub
  refine ⟨subNode, ntk1, c0, n0, n1, by rw [hcl], by rw [hcl], hr,
    by simp [try_associativity, hsub], ?_⟩
  intro assignment val hval
  exact associativity_value ntk n subNode ntk1 assignment val hsub hval

/-- Witness for C1: the rule fires on gate 7 of `assoc_example`. -/
theorem associativity_preserves_function_witness :
    (try_associativity assoc_example 7).1 = true ∧
    ∃ subNode ntk1 c0 n0 n1,
      (associativity_classify assoc_example 7).critical = [c0] ∧
      (associativity_classify assoc_example 7).noncritical = [n0, n1] ∧
      (subNode, ntk1) = create_and (create_and assoc_example n0 n1).2 c0
        (create_and assoc_example n0 n1).1 ∧
      try_associativity assoc_example 7 = (true, substitute_node ntk1 7 subNode) ∧
      ∀ assignment val : Nat → Bool, simulates ntk1 assignment val →
        signal_value val subNode = val 7 :=
  ⟨by decide, associativity_preserves_function assoc_example 7 (by decide)⟩

/-- C2. Distributivity preserves the function: in an AIG (`is_or` answers false
on every node and no gate has two identical fanin signals), when
`try_distributivity` returns true on `n`, the signal
`NAND(criticalGrandChildren[0], OR(nonCriticalGrandChildren[0],
nonCriticalGrandChildren[1]))`, inverted once more only when `is_or(n)`, that it
passes to `substitute_node` has the same value as node `n` under every input
assignment. -/
theorem distributivity_preserves_function (is_or : Nat → Bool) (ntk : Ntk) (n : Nat)
    (haig : ∀ m, is_or m = false) (hdist : distinct_fanins ntk)
    (hfire : (try_distributivity is_or ntk n).1 = true) :
    ∃ subNode ntk1 p q s,
      distributivity_classify ntk n = ⟨[p, q], [s, s]⟩ ∧
      (subNode, ntk1) =
        (if is_or n then
           create_not (create_nand (create_or ntk p q).2 s (create_or ntk p q).1).1
         else (create_nand (create_or ntk p q).2 s (create_or ntk p q).1).1,
         (create_nand (create_or ntk p q).2 s (create_or ntk p q).1).2) ∧
      try_distributivity is_or ntk n = (true, substitute_node ntk1 n subNode) ∧
      ∀ assignment val : Nat → Bool, simulates ntk1 assignment val →
        signal_value val subNode = val n := by
  obtain ⟨⟨subNode, ntk1⟩, hsub⟩ := try_distributivity_fires is_or ntk n hfire
  obtain ⟨p, q, s, -, -, hcl, hr⟩ := distributivity_replacement_some is_or ntk n _ hsub
  refine ⟨subNode, ntk1, p, q, s, hcl, hr, by simp [try_distributivity, hsub], ?_⟩
  intro assignment val hval
  exact distributivity_value is_or ntk n subNode ntk1 assignment val (haig n) hdist hsub hval

/-- Witness for C2: the rule fires on gate 8 of `distr_example`. -/
theorem distributivity_preserves_function_witness :
    (∀ m, aig_is_or m = false) ∧ distinct_fanins distr_example ∧
    (try_distributivity aig_is_or distr_example 8).1 = true ∧
    ∃ subNode ntk1 p q s,
      distributivity_classify distr_example 8 = ⟨[p, q], [s, s]⟩ ∧
      (subNode, ntk1) =
        (if aig_is_or 8 then
           create_not (create_nand (create_or distr_example p q).2 s
             (create_or distr_example p q).1).1
         else (create_nand (create_or distr_example p q).2 s (create_or distr_example p q).1).1,
         (create_nand (create_or distr_example p q).2 s (create_or distr_example p q).1).2) ∧
      try_distributivity aig_is_or distr_example 8 = (true, substitute_node ntk1 8 subNode) ∧
      ∀ assignment val : Nat → Bool, simulates ntk1 assignment val →
        signal_value val subNode = val 8 :=
  ⟨fun _ => rfl, by decide, by decide,
    distributivity_preserves_function aig_is_or distr_example 8 (fun _ => rfl) (by decide)
      (by decide)⟩

/-- C3. Three-layer distributivity preserves the function: when
`try_three_layer_distributivity` returns true on `n`, the substituted signal
`NAND(node1, node2)` with `node1 = NOT(AND(criticalGranderChildren[0],
AND(nonCriticalChildren[0], nonCriticalGranderChildren[0])))` and
`node2 = NOT(AND(nonCriticalChildren[0], NOT(nonCriticalGrandChildren[0])))`
has the same value as node `n` under every input assignment. -/
theorem three_layer_preserves_function (ntk : Ntk) (n : Nat)
    (hfire : (try_three_layer_distributivity ntk n).1 = true) :
    ∃ subNode ntk1 ncc cc ncgc cgc ncggc cggc,
      three_layer_classify ntk n = ⟨[ncc], [cc], [ncgc], [cgc], [ncggc], [cggc]⟩ ∧
      (subNode, ntk1) = create_nand
        (create_and (create_and (create_and ntk ncc ncggc).2 cggc (create_and ntk ncc ncggc).1).2
          ncc (create_not ncgc)).2
        (create_not (create_and (create_and ntk ncc ncggc).2 cggc (create_and ntk ncc ncggc).1).1)
        (create_not
          (create_and
            (create_and (create_and ntk ncc ncggc).2 cggc (create_and ntk ncc ncggc).1).2
            ncc (create_not ncgc)).1) ∧
      try_three_layer_distributivity ntk n = (true, substitute_node ntk1 n subNode) ∧
      ∀ assignment val : Nat → Bool, simulates ntk1 assignment val →
        signal_value val subNode = val n := by
  obtain ⟨⟨subNode, ntk1⟩, hsub⟩ := try_three_layer_distributivity_fires ntk n hfire
  obtain ⟨ncc, cc, ncgc, cgc, ncggc, cggc, -, hcl, -, hr⟩ :=
    three_layer_replacement_some ntk n _ hsub
  refine ⟨subNode, ntk1, ncc, cc, ncgc, cgc, ncggc, cggc, hcl, hr,
    by simp [try_three_layer_distributivity, hsub], ?_⟩
  intro assignment val hval
  exact three_layer_value ntk n subNode ntk1 assignment val hsub hval

/-- Witness for C3: the rule fires on gate 9 of `three_layer_example`. -/
theorem three_layer_preserves_function_witness :
    (try_three_layer_distributivity three_layer_example 9).1 = true ∧
    ∃ subNode ntk1 ncc cc ncgc cgc ncggc cggc,
      three_layer_classify three_layer_example 9 =
        ⟨[ncc], [cc], [ncgc], [cgc], [ncggc], [cggc]⟩ ∧
      (subNode, ntk1) = create_nand
        (create_and (create_and (create_and three_layer_example ncc ncggc).2 cggc
          (create_and three_layer_example ncc ncggc).1).2 ncc (create_not ncgc)).2
        (create_not (create_and (create_and three_layer_example ncc ncggc).2 cggc
          (create_and three_layer_example ncc ncggc).1).1)
        (create_not
          (create_and
            (create_and (create_and three_layer_example ncc ncggc).2 cggc
              (create_and three_layer_example ncc ncggc).1).2
            ncc (create_not ncgc)).1) ∧
      try_three_layer_distributivity three_layer_example 9 =
        (true, substitute_node ntk1 9 subNode) ∧
      ∀ assignment val : Nat → Bool, simulates ntk1 assignment val →
        signal_value val subNode = val 9 :=
  ⟨by decide, three_layer_preserves_function three_layer_example 9 (by decide)⟩

/-- C4 (the code at the failing input). On `wrap_example`, whose levels and
critical flags are consistent, `try_three_layer_distributivity` returns true on
gate 8 (level 5) and the replacement `NAND(node1, node2)` it builds is at level
7: the rewrite raises the level of the node it replaces. -/
theorem three_layer_raises_level :
    consistent wrap_example ∧
    (try_three_layer_distributivity wrap_example 8).1 = true ∧
    (three_layer_replacement wrap_example 8).map (fun r => (r.1, level r.2 r.1.index)) =
      some (⟨12, true⟩, 7) ∧
    (three_layer_replacement wrap_example 8).map (fun r => decide (levels_consistent r.2)) =
      some true ∧
    level wrap_example 8 = 5 := by
  decide

/-- C5 (the code at the failing input). On `wrap_example` the three-layer rule
fires on gate 8 although the critical child (gate 6, level 3) is below the
non-critical child (gate 7, level 4): the unsigned difference `3 - 4` is
`4294967295`, which passes the test `>= 2`. -/
theorem three_layer_fires_without_slack :
    (try_three_layer_distributivity wrap_example 8).1 = true ∧
    (three_layer_classify wrap_example 8).criticalChildren = [⟨6, true⟩] ∧
    (three_layer_classify wrap_example 8).nonCriticalChildren = [⟨7, false⟩] ∧
    level wrap_example 6 = 3 ∧ level wrap_example 7 = 4 ∧
    sub_u32 (level wrap_example 6) (level wrap_example 7) = 4294967295 ∧
    ¬ (level wrap_example 6 ≥ level wrap_example 7 + 2) := by
  decide

/-- C6. Associativity strictly lowers the rewritten node: in a network whose
levels and critical-path flags are consistent with its structure, when
`try_associativity` returns true on `n` the level of the replacement
`AND(critical[0], AND(noncritical[0], noncritical[1]))`, taken in the network
holding the new gates (where every gate, the new ones included, satisfies the
level equation), is strictly below `level(n)`. -/
theorem associativity_lowers_level (ntk : Ntk) (n : Nat)
    (hcons : consistent ntk)
    (hfire : (try_associativity ntk n).1 = true) :
    ∃ subNode ntk1,
      associativity_replacement ntk n = some (subNode, ntk1) ∧
      try_associativity ntk n = (true, substitute_node ntk1 n subNode) ∧
      levels_consistent ntk1 ∧
      level ntk1 subNode.index < level ntk n := by
  obtain ⟨⟨subNode, ntk1⟩, hsub⟩ := try_associativity_fires ntk n hfire
  obtain ⟨h1, h2⟩ := associativity_level ntk n subNode ntk1 hcons hsub
  exact ⟨subNode, ntk1, hsub, by simp [try_associativity, hsub], h1, h2⟩

/-- Witness for C6 on `assoc_example`, gate 7 (level 3, replacement at level 2). -/
theorem associativity_lowers_level_witness :
    consistent assoc_example ∧ (try_associativity assoc_example 7).1 = true ∧
    ∃ subNode ntk1,
      associativity_replacement assoc_example 7 = some (subNode, ntk1) ∧
      try_associativity assoc_example 7 = (true, substitute_node ntk1 7 subNode) ∧
      levels_consistent ntk1 ∧
      level ntk1 subNode.index < level assoc_example 7 :=
  ⟨by decide, by decide,
    associativity_lowers_level assoc_example 7 (by decide) (by decide)⟩

/-- C7. Distributivity strictly lowers the rewritten node: in a network whose
levels and critical-path flags are consistent with its structure, when
`try_distributivity` returns true on `n` the level of the replacement
`NAND(shared, OR(nonCritical0, nonCritical1))`, taken in the network holding
the new gates, is strictly below `level(n)`.  (Consistency alone is enough;
structural hashing of the network is not needed for this bound.) -/
theorem distributivity_lowers_level (is_or : Nat → Bool) (ntk : Ntk) (n : Nat)
    (hcons : consistent ntk)
    (hfire : (try_distributivity is_or ntk n).1 = true) :
    ∃ subNode ntk1,
      distributivity_replacement is_or ntk n = some (subNode, ntk1) ∧
      try_distributivity is_or ntk n = (true, substitute_node ntk1 n subNode) ∧
      levels_consistent ntk1 ∧
      level ntk1 subNode.index < level ntk n := by
  obtain ⟨⟨subNode, ntk1⟩, hsub⟩ := try_distributivity_fires is_or ntk n hfire
  obtain ⟨h1, h2⟩ := distributivity_level is_or ntk n subNode ntk1 hcons hsub
  exact ⟨subNode, ntk1, hsub, by simp [try_distributivity, hsub], h1, h2⟩

/-- Witness for C7 on `distr_example`, gate 8 (level 3, replacement at level 2). -/
theorem distributivity_lowers_level_witness :
    consistent distr_example ∧ (try_distributivity aig_is_or distr_example 8).1 = true ∧
    ∃ subNode ntk1,
      distributivity_replacement aig_is_or distr_example 8 = some (subNode, ntk1) ∧
      try_distributivity aig_is_or distr_example 8 = (true, substitute_node ntk1 8 subNode) ∧
      levels_consistent ntk1 ∧
      level ntk1 subNode.index < level distr_example 8 :=
  ⟨by decide, by decide,
    distributivity_lowers_level aig_is_or distr_example 8 (by decide) (by decide)⟩

/-- C8, counterexample. Both networks have consistent levels and flags, the
three-layer rule fires with true slack of at least 2, and the replacement is
not strictly below `level(n)`.  On `slack_two_example`, gate 11:
`level(criticalChild) = 3`, `level(nonCriticalChild) = 1` (slack exactly 2),
replacement at level 4, the level of gate 11.  On
`critical_grandchild_example`, gate 12: `level(criticalChild) = 3`,
`level(nonCriticalChild) = 0` (slack 3), but the fanin filed as non-critical
grandchild (gate 9, critical and read uncomplemented) is at level 2;
replacement at level 4, the level of gate 12. -/
theorem three_layer_not_strictly_lower :
    (consistent slack_two_example ∧
     (try_three_layer_distributivity slack_two_example 11).1 = true ∧
     (three_layer_classify slack_two_example 11).criticalChildren = [⟨9, true⟩] ∧
     (three_layer_classify slack_two_example 11).nonCriticalChildren = [⟨10, false⟩] ∧
     level slack_two_example 9 ≥ level slack_two_example 10 + 2 ∧
     (three_layer_replacement slack_two_example 11).map (fun r => (r.1, level r.2 r.1.index)) =
       some (⟨15, true⟩, 4) ∧
     (three_layer_replacement slack_two_example 11).map
       (fun r => decide (levels_consistent r.2)) = some true ∧
     level slack_two_example 11 = 4 ∧
     (three_layer_replacement slack_two_example 11).map
       (fun r => decide (level r.2 r.1.index < level slack_two_example 11)) = some false) ∧
    (consistent critical_grandchild_example ∧
     (try_three_layer_distributivity critical_grandchild_example 12).1 = true ∧
     (three_layer_classify critical_grandchild_example 12).criticalChildren = [⟨11, true⟩] ∧
     (three_layer_classify critical_grandchild_example 12).nonCriticalChildren =
       [⟨6, false⟩] ∧
     (three_layer_classify critical_grandchild_example 12).nonCriticalGrandChildren =
       [⟨9, false⟩] ∧
     level critical_grandchild_example 11 ≥ level critical_grandchild_example 6 + 3 ∧
     level critical_grandchild_example 9 + 1 = level critical_grandchild_example 11 ∧
     (three_layer_replacement critical_grandchild_example 12).map
       (fun r => (r.1, level r.2 r.1.index)) = some (⟨16, true⟩, 4) ∧
     (three_layer_replacement critical_grandchild_example 12).map
       (fun r => decide (levels_consistent r.2)) = some true ∧
     level critical_grandchild_example 12 = 4 ∧
     (three_layer_replacement critical_grandchild_example 12).map
       (fun r => decide (level r.2 r.1.index < level critical_grandchild_example 12)) =
       some false) := by
  decide

/-- C8, amended. In a network whose levels and critical-path flags are
consistent with its structure, when `try_three_layer_distributivity` returns
true on `n` with `level(criticalChild) >= level(nonCriticalChild) + 2` as
integers, the level of the replacement `NAND(node1, node2)` is at most
`level(n)`; it is strictly below `level(n)` when moreover
`level(criticalChild) >= level(nonCriticalChild) + 3` and
`level(nonCriticalGrandChild) + 2 <= level(criticalChild)`. -/
theorem three_layer_level_with_slack (ntk : Ntk) (n : Nat)
    (hcons : consistent ntk)
    (hfire : (try_three_layer_distributivity ntk n).1 = true) :
    ∃ subNode ntk1 ncc cc ncgc cgc ncggc cggc,
      three_layer_classify ntk n = ⟨[ncc], [cc], [ncgc], [cgc], [ncggc], [cggc]⟩ ∧
      three_layer_replacement ntk n = some (subNode, ntk1) ∧
      try_three_layer_distributivity ntk n = (true, substitute_node ntk1 n subNode) ∧
      levels_consistent ntk1 ∧
      (level ntk ncc.index + 2 ≤ level ntk cc.index →
        level ntk1 subNode.index ≤ level ntk n) ∧
      (level ntk ncc.index + 3 ≤ level ntk cc.index →
        level ntk ncgc.index + 2 ≤ level ntk cc.index →
        level ntk1 subNode.index < level ntk n) := by
  obtain ⟨⟨subNode, ntk1⟩, hsub⟩ := try_three_layer_distributivity_fires ntk n hfire
  obtain ⟨ncc, cc, ncgc, cgc, ncggc, cggc, -, hcl, -, -⟩ :=
    three_layer_replacement_some ntk n _ hsub
  obtain ⟨h1, h2, h3⟩ :=
    three_layer_level ntk n subNode ntk1 ncc cc ncgc cgc ncggc cggc hcons hcl hsub
  exact ⟨subNode, ntk1, ncc, cc, ncgc, cgc, ncggc, cggc, hcl, hsub,
    by simp [try_three_layer_distributivity, hsub], h1, h2, h3⟩

/-- Witness for the amended C8 on `three_layer_example`, gate 9
(`level(criticalChild) = 3`, `level(nonCriticalChild) = 0`,
`level(nonCriticalGrandChild) = 0`): the replacement is strictly below gate 9. -/
theorem three_layer_level_with_slack_witness :
    consistent three_layer_example ∧
    (try_three_layer_distributivity three_layer_example 9).1 = true ∧
    ∃ subNode ntk1,
      three_layer_replacement three_layer_example 9 = some (subNode, ntk1) ∧
      try_three_layer_distributivity three_layer_example 9 =
        (true, substitute_node ntk1 9 subNode) ∧
      levels_consistent ntk1 ∧
      level ntk1 subNode.index ≤ level three_layer_example 9 ∧
      level ntk1 subNode.index < level three_layer_example 9 := by
  refine ⟨by decide, by decide, ?_⟩
  obtain ⟨subNode, ntk1, ncc, cc, ncgc, cgc, ncggc, cggc, hcl, hsub, htry, hl, hle, hlt⟩ :=
    three_layer_level_with_slack three_layer_example 9 (by decide) (by decide)
  have hc : three_layer_classify three_layer_example 9 =
      ⟨[⟨5, false⟩], [⟨8, true⟩], [⟨4, false⟩], [⟨7, true⟩], [⟨3, false⟩], [⟨6, false⟩]⟩ := by
    decide
  rw [hc] at hcl
  simp only [three_layer_sets.mk.injEq, List.cons.injEq, and_true] at hcl
  obtain ⟨rfl, rfl, rfl, rfl, rfl, rfl⟩ := hcl
  exact ⟨subNode, ntk1, hsub, htry, hl, hle (by decide), hlt (by decide) (by decide)⟩

/-- C9 (the code at the failing input). On `wrap_example`, a finite acyclic AIG
of depth 5 with consistent levels and flags, `run` terminates after three
passes (with any bound of at least three passes) and leaves a network of
depth 6. -/
theorem run_increases_depth :
    consistent wrap_example ∧
    depth wrap_example = 5 ∧
    ∀ k, (run aig_is_or (3 + k) wrap_example).map depth = some 6 := by
  refine ⟨by decide, by decide, ?_⟩
  intro k
  have h3 : (run aig_is_or 3 wrap_example).map depth = some 6 := by decide
  cases h : run aig_is_or 3 wrap_example with
  | none => simp [h] at h3
  | some r =>
    rw [run_fuel_mono aig_is_or 3 k wrap_example r h]
    simpa [h] using h3

/-- C10. Idempotence at a fixpoint: on a network where `try_algebraic_rules`
returns false on every gate, `run` terminates (any positive bound on the number
of passes is enough) and returns the network with the same nodes and outputs;
the journal grows by exactly one `foreach_gate` (one pass) followed by one
`try_algebraic_rules` per gate, and by no `create_and`, `substitute_node` or
`update_levels`. -/
theorem run_at_fixpoint (is_or : Nat → Bool) (ntk : Ntk) (fuel : Nat)
    (hfix : is_fixpoint is_or ntk) :
    run is_or (fuel + 1) ntk =
      some { ntk with
        journal :=
          (((List.range ntk.nodes.length).filter (is_gate ntk)).map
            call.try_algebraic_rules).reverse ++ call.foreach_gate :: ntk.journal } := by
  unfold run
  simp only
  have h := run_pass_fixpoint is_or ntk hfix (List.range ntk.nodes.length)
    (call.foreach_gate :: ntk.journal) false
  rw [h]
  simp

/-- Witness for C10 on `balanced_example`. -/
theorem run_at_fixpoint_witness :
    is_fixpoint aig_is_or balanced_example ∧
    run aig_is_or 1 balanced_example =
      some { balanced_example with
        journal :=
          (((List.range balanced_example.nodes.length).filter (is_gate balanced_example)).map
            call.try_algebraic_rules).reverse ++ call.foreach_gate :: balanced_example.journal } :=
  ⟨by decide, run_at_fixpoint aig_is_or balanced_example 0 (by decide)⟩

/-- C11. No rewrite on a shallow network: when the levels are consistent with
the structure and every node has level at most 1, `try_associativity`,
`try_distributivity` and `try_three_layer_distributivity` all return false on
every gate (on every handle), the three-layer rule included although it has no
level guard. -/
theorem no_rewrite_on_shallow_network (is_or : Nat → Bool) (ntk : Ntk) (n : Nat)
    (hlev : levels_consistent ntk)
    (hshallow : ∀ i, i < ntk.nodes.length → level ntk i ≤ 1) :
    (try_associativity ntk n).1 = false ∧
    (try_distributivity is_or ntk n).1 = false ∧
    (try_three_layer_distributivity ntk n).1 = false := by
  refine ⟨?_, ?_, ?_⟩
  · rw [(try_associativity_eq ntk n).1, shallow_no_associativity ntk n hshallow]; rfl
  · rw [(try_distributivity_eq is_or ntk n).1, shallow_no_distributivity is_or ntk n hshallow]
    rfl
  · rw [(try_three_layer_distributivity_eq ntk n).1, shallow_no_three_layer ntk n hlev hshallow]
    rfl

/-- Witness for C11 on `shallow_example`, gate 5. -/
theorem no_rewrite_on_shallow_network_witness :
    levels_consistent shallow_example ∧
    (∀ i, i < shallow_example.nodes.length → level shallow_example i ≤ 1) ∧
    (try_associativity shallow_example 5).1 = false ∧
    (try_distributivity aig_is_or shallow_example 5).1 = false ∧
    (try_three_layer_distributivity shallow_example 5).1 = false :=
  ⟨by decide, by decide,
    no_rewrite_on_shallow_network aig_is_or shallow_example 5 (by decide) (by decide)⟩

/-- C15. A failed match leaves the network untouched: when a rule returns
false the network it returns is the one it was given (nodes, outputs and
journal, so no gate was created and no node substituted); when it returns
true the calls it made are `create_and` calls followed by one
`substitute_node` on `n`, which is the last call. -/
theorem failed_match_leaves_network (is_or : Nat → Bool) (ntk : Ntk) (n : Nat) :
    ((try_associativity ntk n).1 = false → (try_associativity ntk n).2 = ntk) ∧
    ((try_distributivity is_or ntk n).1 = false → (try_distributivity is_or ntk n).2 = ntk) ∧
    ((try_three_layer_distributivity ntk n).1 = false →
      (try_three_layer_distributivity ntk n).2 = ntk) ∧
    ((try_associativity ntk n).1 = true →
      ∃ s creates, (try_associativity ntk n).2.journal =
        call.substitute_node n s :: (creates ++ ntk.journal) ∧ only_create_and creates) ∧
    ((try_distributivity is_or ntk n).1 = true →
      ∃ s creates, (try_distributivity is_or ntk n).2.journal =
        call.substitute_node n s :: (creates ++ ntk.journal) ∧ only_create_and creates) ∧
    ((try_three_layer_distributivity ntk n).1 = true →
      ∃ s creates, (try_three_layer_distributivity ntk n).2.journal =
        call.substitute_node n s :: (creates ++ ntk.journal) ∧ only_create_and creates) :=
  ⟨(try_associativity_eq ntk n).2, (try_distributivity_eq is_or ntk n).2,
    (try_three_layer_distributivity_eq ntk n).2, try_associativity_journal ntk n,
    try_distributivity_journal is_or ntk n, try_three_layer_distributivity_journal ntk n⟩

/-- C16, counterexample. On `three_layer_example`, gate 9, the third layer (the
fanins `3` and `6` of the critical grandchild `7`) puts the signal `6` in the
critical set although it is read uncomplemented. -/
theorem three_layer_third_layer_ignores_polarity :
    (three_layer_classify three_layer_example 9).criticalGrandChildren = [⟨7, true⟩] ∧
    foreach_fanin three_layer_example 7 = [⟨3, false⟩, ⟨6, false⟩] ∧
    (three_layer_classify three_layer_example 9).criticalGranderChildren = [⟨6, false⟩] ∧
    is_complemented ⟨6, false⟩ = false ∧
    critical_and_complemented three_layer_example ⟨6, false⟩ = false := by
  decide

/-- C16, amended. In `try_three_layer_distributivity`, at the first two layers
(fanins of `n`, fanins of each critical child) a fanin signal is put in the
critical set if and only if its node is on the critical path and the signal is
read complemented, and in the non-critical set otherwise; at the third layer
(fanins of each critical grandchild) it is put in the critical set if and only
if its node is on the critical path, whatever its polarity, and in the
non-critical set otherwise. -/
theorem three_layer_classification (ntk : Ntk) (n : Nat) :
    (three_layer_classify ntk n).criticalChildren =
      (foreach_fanin ntk n).filter (critical_and_complemented ntk) ∧
    (three_layer_classify ntk n).nonCriticalChildren =
      (foreach_fanin ntk n).filter (fun s => !critical_and_complemented ntk s) ∧
    (three_layer_classify ntk n).criticalGrandChildren =
      (three_layer_classify ntk n).criticalChildren.flatMap (fun c =>
        (foreach_fanin ntk (get_node c)).filter (critical_and_complemented ntk)) ∧
    (three_layer_classify ntk n).nonCriticalGrandChildren =
      (three_layer_classify ntk n).criticalChildren.flatMap (fun c =>
        (foreach_fanin ntk (get_node c)).filter (fun s => !critical_and_complemented ntk s)) ∧
    (three_layer_classify ntk n).criticalGranderChildren =
      (three_layer_classify ntk n).criticalGrandChildren.flatMap (fun g =>
        (foreach_fanin ntk (get_node g)).filter (critical_node ntk)) ∧
    (three_layer_classify ntk n).nonCriticalGranderChildren =
      (three_layer_classify ntk n).criticalGrandChildren.flatMap (fun g =>
        (foreach_fanin ntk (get_node g)).filter (fun s => !critical_node ntk s)) := by
  unfold three_layer_classify
  rw [three_layer_child_foldl]
  simp only [List.nil_append, List.flatMap_assoc, and_self]

/-- C17. The associativity level comparison never reads an unset value and is
order-independent: whenever the classification ends with one critical and two
non-critical signals, exactly one fanin `d` of `n` was descended (contributing
the critical grandchild and one non-critical grandchild `m`) and exactly one
fanin `o` took the direct branch, so `nonCriticalLevel` was assigned exactly
once and holds `level(o)`; and exchanging the two fanins of `n` does not change
whether `try_associativity` fires. -/
theorem associativity_level_read_is_set (ntk : Ntk) (n : Nat) :
    (∀ (c0 n0 n1 : signal) (l : Option Nat),
      associativity_classify ntk n = ⟨[c0], [n0, n1], l⟩ →
      ∃ d o m : signal,
        (foreach_fanin ntk n = [d, o] ∨ foreach_fanin ntk n = [o, d]) ∧
        associativity_descends ntk d = true ∧ associativity_descends ntk o = false ∧
        (foreach_fanin ntk (get_node d) = [c0, m] ∨ foreach_fanin ntk (get_node d) = [m, c0]) ∧
        is_on_critical_path ntk (get_node c0) = true ∧
        is_on_critical_path ntk (get_node m) = false ∧
        ((n0 = m ∧ n1 = o) ∨ (n0 = o ∧ n1 = m)) ∧
        l = some (level ntk (get_node o)) ∧
        ((foreach_fanin ntk n).filter (associativity_descends ntk)).length = 1 ∧
        ((foreach_fanin ntk n).filter (fun c => !associativity_descends ntk c)).length = 1) ∧
    (try_associativity (swap_fanins ntk n) n).1 = (try_associativity ntk n).1 :=
  ⟨associativity_one_descent ntk n, try_associativity_swap ntk n⟩

/-- C13, as the code behaves on `continue_example`: the driver does not
restart the enumeration after a rewrite.  In the first pass associativity
rewrites gate `7`, `update_levels` is requested, and gate `8` of the same
enumeration is tried next; the second enumeration starts only after that. -/
theorem run_continues_pass_after_rewrite :
    (run aig_is_or 2 continue_example).map (fun r => r.journal.reverse) =
      some [call.foreach_gate,
        call.try_algebraic_rules 5, call.try_algebraic_rules 6, call.try_algebraic_rules 7,
        call.create_and ⟨4, false⟩ ⟨3, false⟩, call.create_and ⟨5, false⟩ ⟨9, false⟩,
        call.substitute_node 7 ⟨10, false⟩, call.update_levels,
        call.try_algebraic_rules 8,
        call.foreach_gate,
        call.try_algebraic_rules 5, call.try_algebraic_rules 8, call.try_algebraic_rules 9,
        call.try_algebraic_rules 10] := by
  decide

/-- C13, amended: once `try_algebraic_rules` succeeds on a gate `n` during a
pass, `update_levels` is requested and the pass goes on with the rest of the
same enumeration: if the next handle `m` is a live gate of the updated
network, it is tried right after `update_levels`; no new enumeration
(`foreach_gate`) starts before the pass has gone through its remaining
handles, and the pass reports that another one is needed. -/
theorem pass_continues_after_rewrite (is_or : Nat → Bool) (ntk : Ntk) (n m : Nat)
    (rest : List Nat) (cont : Bool)
    (hn : is_gate ntk n = true)
    (hfire : (try_algebraic_rules is_or
      { ntk with journal := call.try_algebraic_rules n :: ntk.journal } n).1 = true)
    (hm : is_gate (update_levels (try_algebraic_rules is_or
      { ntk with journal := call.try_algebraic_rules n :: ntk.journal } n).2) m = true) :
    ∃ (s : signal) (creates later : List call),
      (run_pass is_or (n :: m :: rest) ntk cont).1.journal =
        later ++ call.try_algebraic_rules m :: call.update_levels ::
          call.substitute_node n s :: (creates ++ call.try_algebraic_rules n :: ntk.journal) ∧
      only_create_and creates ∧ call.foreach_gate ∉ later ∧
      (run_pass is_or (n :: m :: rest) ntk cont).2 = true := by
  obtain ⟨s, creates, hj, hc⟩ := try_algebraic_rules_success_journal is_or _ n hfire
  have e1 : run_pass is_or (n :: m :: rest) ntk cont =
      run_pass is_or (m :: rest) (update_levels (try_algebraic_rules is_or
        { ntk with journal := call.try_algebraic_rules n :: ntk.journal } n).2) true := by
    conv_lhs => unfold run_pass
    simp only [hn, hfire, if_true]
  generalize hu : update_levels (try_algebraic_rules is_or
    { ntk with journal := call.try_algebraic_rules n :: ntk.journal } n).2 = u at e1 hm
  have hju : u.journal = call.update_levels :: call.substitute_node n s ::
      (creates ++ call.try_algebraic_rules n :: ntk.journal) := by
    rw [← hu, update_levels_journal, hj]
  refine ⟨s, creates, ?_⟩
  rw [e1]
  have hflag := run_pass_flag is_or (m :: rest) u
  unfold run_pass at hflag ⊢
  simp only [hm, if_true] at hflag ⊢
  by_cases hf : (try_algebraic_rules is_or
      { u with journal := call.try_algebraic_rules m :: u.journal } m).1 = true
  · simp only [hf, if_true] at hflag ⊢
    obtain ⟨s2, creates2, hj2, hc2⟩ := try_algebraic_rules_success_journal is_or _ m hf
    obtain ⟨later, hl, hnf⟩ := run_pass_journal is_or rest (update_levels
      (try_algebraic_rules is_or
        { u with journal := call.try_algebraic_rules m :: u.journal } m).2) true
    refine ⟨later ++ call.update_levels :: call.substitute_node m s2 :: creates2, ?_, hc, ?_,
      hflag⟩
    · rw [hl, update_levels_journal, hj2, hju]
      simp
    · intro hmem
      rcases List.mem_append.1 hmem with hmem | hmem
      · exact hnf hmem
      · simp at hmem
        exact only_create_and_no_foreach creates2 hc2 hmem
  · have hf' : (try_algebraic_rules is_or
        { u with journal := call.try_algebraic_rules m :: u.journal } m).1 = false := by
      simpa using hf
    simp only [hf', Bool.false_eq_true, if_false] at hflag ⊢
    rw [try_algebraic_rules_false is_or _ m hf'] at hflag ⊢
    obtain ⟨later, hl, hnf⟩ := run_pass_journal is_or rest
      { u with journal := call.try_algebraic_rules m :: u.journal } true
    refine ⟨later, ?_, hc, hnf, hflag⟩
    rw [hl, hju]

theorem pass_continues_after_rewrite_witness :
    is_gate continue_example 7 = true ∧
    (try_algebraic_rules aig_is_or { continue_example with
      journal := call.try_algebraic_rules 7 :: continue_example.journal } 7).1 = true ∧
    is_gate (update_levels (try_algebraic_rules aig_is_or { continue_example with
      journal := call.try_algebraic_rules 7 :: continue_example.journal } 7).2) 8 = true ∧
    ∃ (s : signal) (creates later : List call),
      (run_pass aig_is_or (7 :: 8 :: []) continue_example false).1.journal =
        later ++ call.try_algebraic_rules 8 :: call.update_levels ::
          call.substitute_node 7 s ::
            (creates ++ call.try_algebraic_rules 7 :: continue_example.journal) ∧
      only_create_and creates ∧ call.foreach_gate ∉ later ∧
      (run_pass aig_is_or (7 :: 8 :: []) continue_example false).2 = true :=
  ⟨by decide, by decide, by decide,
    pass_continues_after_rewrite aig_is_or continue_example 7 8 [] false
      (by decide) (by decide) (by decide)⟩

/-- C14. No stale reads: in every execution of `run`, after any number of
passes, every `substitute_node` of the trace is directly followed by
`update_levels` (so no `level` or `is_on_critical_path` query and no rule
attempt comes between them), and each call of `try_algebraic_rules` adds at
most one `substitute_node` to the trace.  The traced driver computes what
`run` computes. -/
theorem no_stale_reads (is_or : Nat → Bool) (ntk : Ntk) (fuel : Nat) :
    settled (run_traced is_or fuel ⟨ntk, []⟩).2.trace ∧
    (∀ (t : traced) (n : Nat), ∃ new,
      (try_algebraic_rules_traced is_or t n).2.trace = new ++ t.trace ∧
      (new.filter is_substitute).length ≤ 1) ∧
    run is_or fuel ntk =
      (if (run_traced is_or fuel ⟨ntk, []⟩).1
        then some (run_traced is_or fuel ⟨ntk, []⟩).2.ntk else none) := by
  refine ⟨(run_traced_spec is_or fuel ⟨ntk, []⟩).2 settled_nil, ?_,
    (run_traced_spec is_or fuel ⟨ntk, []⟩).1⟩
  intro t n
  obtain ⟨-, -, mid, q, h⟩ := try_algebraic_rules_traced_spec is_or t n
  rcases h with ⟨-, ht⟩ | ⟨-, s, hs⟩
  · exact ⟨mid, ht, by rw [quiet_no_substitute mid q]; exact Nat.zero_le _⟩
  · refine ⟨event.store (call.substitute_node n s) :: mid, by rw [hs]; rfl, ?_⟩
    rw [List.filter_cons]
    simp [is_substitute, quiet_no_substitute mid q]

/-- C12 (the code at the failing input). On `loop_example`, a finite acyclic
AIG with consistent levels and critical flags, `run` does not terminate:
whatever number of passes it is given, the loop has not ended.  Every pass
rewrites a gate; after two passes the network is the initial one with six more
reclaimed slots. -/
theorem run_does_not_terminate :
    consistent loop_example ∧ ∀ fuel, run aig_is_or fuel loop_example = none :=
  ⟨loop_example_consistent.1,
    fun fuel => loop_example_runs_on fuel loop_example
      (Or.inl ⟨0, padded_refl 16 loop_example (by decide)⟩)⟩

end mockturtle
